import Mathlib

/-!
Verification of the word-to-LaTeX thesis converter
(`scripts/word_to_latex.py`).

The Python script is a pipeline of regular-expression substitutions over a
text buffer, followed by chapter splitting and file writing.  We embed the
text as `List Char` and each `re.sub` call as a deterministic left-to-right
scanner (`genSub`): at every position the rule either matches (consuming
`n ≥ 1` characters and emitting a fixed replacement) or fails (the character
is copied).  This is exactly Python's `re.sub` discipline of leftmost,
non-overlapping matches for the patterns used by the script, all of which
match deterministically (their greedy sub-parts are followed by disjoint
character classes).  Lookbehinds inspect the original text, which the
scanner models by threading the reversed list of already-scanned original
characters.

Unicode notes: Python's `str` patterns give `\s`, `\b`, `\d` and
case-insensitivity their Unicode meaning; the script's patterns and tables
are ASCII, and we model these classes by their ASCII meaning
(`isSpace`, `isWordChar`, `isDigitChar`, `lowC`).

Effects are explicit parameters: the header timestamp
(`time.strftime(...)`) is a `String` argument, and the chapter directory is
a map from file names to contents (`FS`).  Console diagnostics (`print`)
are not modelled.
-/

namespace WTL

/-- ASCII model of Python's `\s` class (the whitespace characters the
script's inputs use). -/
def isSpace (c : Char) : Bool :=
  c = ' ' || c = '\t' || c = '\n' || c = '\x0d' || c = '\x0b' || c = '\x0c'

/-- `[a-zA-Z]`, exactly as in the script's patterns. -/
def isAsciiLetter (c : Char) : Bool :=
  ('a' ≤ c && c ≤ 'z') || ('A' ≤ c && c ≤ 'Z')

/-- ASCII model of `\d`. -/
def isDigitChar (c : Char) : Bool := '0' ≤ c && c ≤ '9'

/-- ASCII model of the word-character class `\w` used by `\b`. -/
def isWordChar (c : Char) : Bool := isAsciiLetter c || isDigitChar c || c = '_'

/-- ASCII lowercasing, modelling `re.IGNORECASE` comparison and
`str.lower()` on the script's ASCII title tables. -/
def lowC (c : Char) : Char :=
  if 'A' ≤ c && c ≤ 'Z' then Char.ofNat (c.toNat + 32) else c

/-- Shorthand: a string literal as the character list it denotes. -/
def str (s : String) : List Char := s.toList

/-- Case-sensitive literal match: consume `pat` from the head of the text,
returning the rest. -/
def dropLit : List Char → List Char → Option (List Char)
  | [], rest => some rest
  | _ :: _, [] => none
  | p :: ps, r :: rs => if r = p then dropLit ps rs else none

/-- Case-insensitive (ASCII) literal match. -/
def dropLitCI : List Char → List Char → Option (List Char)
  | [], rest => some rest
  | _ :: _, [] => none
  | p :: ps, r :: rs => if lowC r = lowC p then dropLitCI ps rs else none

/-- Length of the maximal leading whitespace run (`\s*`, greedy). -/
def wsLen : List Char → Nat
  | [] => 0
  | c :: rs => if isSpace c then wsLen rs + 1 else 0

/-- Distance to the first occurrence of character `c` (none if absent). -/
def closeIdx (c : Char) : List Char → Option Nat
  | [] => none
  | r :: rs => if r = c then some 0 else (closeIdx c rs).map (· + 1)

/-- A `re.sub`-style rewrite rule: given the reversed already-scanned
original text and the remaining text, either fail or return (consumed
length, replacement).  Every rule below consumes at least one character
when it matches. -/
def Rule : Type := List Char → List Char → Option (Nat × List Char)

/-- The scanner underlying every `re.sub` call: leftmost, non-overlapping
matches; on failure the character is copied; lookbehind context `prev` is
the reversed original text.  `skip` counts characters of an accepted match
still to be consumed (they are moved to `prev` without being emitted, the
replacement having been emitted already). -/
def scanA (M : Rule) (prev : List Char) (skip : Nat) : (rest : List Char) → List Char
  | [] => []
  | c :: rs =>
    match skip with
    | k + 1 => scanA M (c :: prev) k rs
    | 0 =>
      match M prev (c :: rs) with
      | some (n, rep) => rep ++ scanA M (c :: prev) (n - 1) rs
      | none => c :: scanA M (c :: prev) 0 rs

/-- Run a rule as a global substitution over the whole text. -/
def genSub (M : Rule) (l : List Char) : List Char := scanA M [] 0 l

/-- `re.search`: does the rule succeed at any position? -/
def searchAux (M : Rule) (prev : List Char) : List Char → Bool
  | [] => (M prev []).isSome
  | c :: rs => (M prev (c :: rs)).isSome || searchAux M (c :: prev) rs

/-- `re.search` over the whole text. -/
def search (M : Rule) (l : List Char) : Bool := searchAux M [] l

/-! ### `fix_special_characters`

One rule per `re.sub` call, in source order.  Replacements are the
processed replacement templates; note that the quote substitution's
template `r"``\\1''"` is, after template processing, the *literal* text
consisting of two backticks, a backslash, the digit 1 and two apostrophes
(`\\` escapes the backslash, so no backreference remains). -/

/-- `\\textasciitilde\s*` → `$\sim$` (the `\s*` is greedy; no following
pattern element, so it consumes the maximal whitespace run). -/
def mTilde1 : Rule := fun _ rest =>
  match dropLit (str "\\textasciitilde") rest with
  | some r => some ((str "\\textasciitilde").length + wsLen r, str "$\\sim$")
  | none => none

/-- `~(?=\d)` → `$\sim$` (lookahead consumes nothing). -/
def mTilde2 : Rule := fun _ rest =>
  match rest with
  | '~' :: d :: _ => if isDigitChar d then some (1, str "$\\sim$") else none
  | _ => none

/-- A plain literal pattern with a fixed replacement.  (An empty pattern
never occurs in the script; it is mapped to a failing rule.) -/
def litM (pat rep : List Char) : Rule := fun _ rest =>
  match pat with
  | [] => none
  | _ :: _ =>
    match dropLit pat rest with
    | some _ => some (pat.length, rep)
    | none => none

/-- Head-of-list word-character test (used for `\b` checks). -/
def headWord : List Char → Bool
  | [] => false
  | c :: _ => isWordChar c

/-- A word-bounded literal pattern `\bPAT\b` with a fixed replacement.
`\b` holds at the ends of the text. -/
def wbM (pat rep : List Char) : Rule := fun prev rest =>
  match pat with
  | [] => none
  | _ :: _ =>
    match dropLit pat rest with
    | some r => if headWord prev || headWord r then none else some (pat.length, rep)
    | none => none

/-- `"([^"]*)"` → the literal text ``​`​`\1''`` (see the section comment: the
template's `\\1` is a literal backslash-one, not a backreference, so the
span's inner content is dropped). -/
def mQuote : Rule := fun _ rest =>
  match rest with
  | '\x22' :: rs => (closeIdx '\x22' rs).map (fun j => (j + 2, str "\x60\x60\\1\x27\x27"))
  | _ => none

/-- `°` → `\textdegree{}`. -/
def mDegree : Rule := litM (str "°") (str "\\textdegree\x7b\x7d")

/-- `\bCO2\b` → `CO$_2$`. -/
def mCO2 : Rule := wbM (str "CO2") (str "CO$_2$")

/-- `\bCH4\b` → `CH$_4$`. -/
def mCH4 : Rule := wbM (str "CH4") (str "CH$_4$")

/-- `\bH2O\b` → `H$_2$O`. -/
def mH2O : Rule := wbM (str "H2O") (str "H$_2$O")

/-- `\bO2\b` → `O$_2$`. -/
def mO2 : Rule := wbM (str "O2") (str "O$_2$")

/-- `×` → `$\times$`. -/
def mTimes : Rule := litM (str "×") (str "$\\times$")

/-- `—` → `---`. -/
def mEmdash : Rule := litM (str "—") ['-', '-', '-']

/-- `–` → `--`. -/
def mEndash : Rule := litM (str "–") ['-', '-']

/-- `(?<!\\)%` → `\%` (lookbehind on the original text). -/
def mPct : Rule := fun prev rest =>
  match rest with
  | '%' :: _ => if prev.head? = some '\\' then none else some (1, str "\\%")
  | _ => none

/-- `(?<!\\)&(?!\\)` → `\&` (lookbehind and lookahead). -/
def mAmp : Rule := fun prev rest =>
  match rest with
  | '&' :: rs =>
    if prev.head? = some '\\' || rs.head? = some '\\' then none
    else some (1, str "\\&")
  | _ => none

/-- `fix_special_characters`: the thirteen substitutions in source order. -/
def fix_special_characters (content : List Char) : List Char :=
  let c := genSub mTilde1 content
  let c := genSub mTilde2 c
  let c := genSub mDegree c
  let c := genSub mCO2 c
  let c := genSub mCH4 c
  let c := genSub mH2O c
  let c := genSub mO2 c
  let c := genSub mTimes c
  let c := genSub mQuote c
  let c := genSub mEmdash c
  let c := genSub mEndash c
  let c := genSub mPct c
  genSub mAmp c

/-! ### `replace_acronyms`

The `ACRONYMS` dict in insertion order.  For each entry the script first
substitutes the case-insensitive pattern `FULL\s*\(SHORT\)` globally (only
after `re.search` confirms a match, which also marks the short form
"introduced"), then — because dict keys are unique, the `short in
used_acronyms` test succeeds exactly when this entry's own search matched —
substitutes standalone case-sensitive occurrences of `SHORT` guarded by
`(?<!\\ac\{)(?<![a-zA-Z])` and `(?![a-zA-Z\}])`. -/

def ACRONYMS : List (String × String) := [
  ("NRL", "Natural Rubber Latex"),
  ("NR", "Natural Rubber"),
  ("PLA", "Polylactic Acid"),
  ("PHA", "Polyhydroxyalkanoates"),
  ("SBR", "Styrene-Butadiene Rubber"),
  ("TPE", "Thermoplastic Elastomer"),
  ("TPU", "Thermoplastic Polyurethane"),
  ("PU", "Polyurethane"),
  ("EPDM", "Ethylene Propylene Diene Monomer"),
  ("SIC", "Strain-Induced Crystallization"),
  ("DLVO", "Derjaguin-Landau-Verwey-Overbeek"),
  ("SDS", "Sodium Dodecyl Sulfate"),
  ("DLS", "Dynamic Light Scattering"),
  ("PDI", "Polydispersity Index"),
  ("DRC", "Dry Rubber Content"),
  ("TSC", "Total Solids Content"),
  ("AM", "Additive Manufacturing"),
  ("VPP", "Vat Photopolymerization"),
  ("SLA", "Stereolithography"),
  ("DLP", "Digital Light Processing"),
  ("FDM", "Fused Deposition Modeling"),
  ("FFF", "Fused Filament Fabrication"),
  ("DIW", "Direct Ink Writing"),
  ("SLS", "Selective Laser Sintering"),
  ("LOM", "Laminated Object Manufacturing"),
  ("HDDA", "1,6-Hexanediol Diacrylate"),
  ("TMPTA", "Trimethylolpropane Triacrylate"),
  ("TPO", "Phenylbis(2,4,6-trimethylbenzoyl)-phosphine Oxide"),
  ("PRE", "Photoresin Emulsion"),
  ("DEPR", "Dual Emulsion Photoresin"),
  ("JMRE", "Jammed Micro-Reinforced Elastomer"),
  ("HLB", "Hydrophilic-Lipophilic Balance"),
  ("HIPE", "High Internal Phase Emulsion"),
  ("NMR", "Nuclear Magnetic Resonance"),
  ("DOSY", "Diffusion-Ordered Spectroscopy"),
  ("HSQC", "Heteronuclear Single Quantum Coherence"),
  ("HMBC", "Heteronuclear Multiple Bond Correlation"),
  ("COSY", "Correlation Spectroscopy"),
  ("CPMG", "Carr-Purcell-Meiboom-Gill"),
  ("FTIR", "Fourier Transform Infrared Spectroscopy"),
  ("GPC", "Gel Permeation Chromatography"),
  ("SEM", "Scanning Electron Microscopy"),
  ("TEM", "Transmission Electron Microscopy"),
  ("ASTM", "American Society for Testing and Materials"),
  ("ISO", "International Organization for Standardization"),
  ("OSHA", "Occupational Safety and Health Administration"),
  ("DOE", "Design of Experiments"),
  ("CFD", "Computational Fluid Dynamics"),
  ("LVR", "Linear Viscoelastic Region"),
  ("UV", "Ultraviolet"),
  ("O/W", "Oil-in-Water"),
  ("W/O", "Water-in-Oil"),
  ("THF", "Tetrahydrofuran"),
  ("TMS", "Tetramethylsilane"),
  ("CoA", "Certificate of Analysis")]

/-- The tagged replacement `\ac{SHORT}`. -/
def acRep (short : List Char) : List Char := str "\\ac\x7b" ++ short ++ ['\x7d']

/-- First acronym pass: `FULL\s*\(SHORT\)` (case-insensitive) → `\ac{SHORT}`. -/
def mFull (short full : List Char) : Rule := fun _ rest =>
  match dropLitCI full rest with
  | none => none
  | some r =>
    match dropLitCI ('(' :: short ++ [')']) (r.drop (wsLen r)) with
    | none => none
    | some _ => some (full.length + wsLen r + (short.length + 2), acRep short)

/-- Head-of-list `[a-zA-Z]` test. -/
def headLetter : List Char → Bool
  | [] => false
  | c :: _ => isAsciiLetter c

/-- Head-of-list `[a-zA-Z\}]` test. -/
def headLetterBr : List Char → Bool
  | [] => false
  | c :: _ => isAsciiLetter c || c = '\x7d'

/-- Second acronym pass: `(?<!\\ac\{)(?<![a-zA-Z])SHORT(?![a-zA-Z\}])`
(case-sensitive) → `\ac{SHORT}`.  The reversed lookbehind window
`['{','c','a','\\']` is the text `\ac{` read backwards. -/
def mStand (short : List Char) : Rule := fun prev rest =>
  if short.isEmpty then none
  else
    match dropLit short rest with
    | none => none
    | some r =>
      if prev.take 4 = ['\x7b', 'c', 'a', '\\'] then none
      else if headLetter prev then none
      else if headLetterBr r then none
      else some (short.length, acRep short)

/-- One iteration of the acronym loop (see the section comment for why the
`used_acronyms` set reduces to this entry's own search). -/
def acronymStep (content : List Char) (e : String × String) : List Char :=
  let short := str e.1
  let full := str e.2
  if search (mFull short full) content then
    genSub (mStand short) (genSub (mFull short full) content)
  else content

/-- `replace_acronyms`: fold the loop over the table. -/
def replace_acronyms (content : List Char) : List Char :=
  ACRONYMS.foldl acronymStep content

/-! ### `fix_headings` -/

/-- Is `pat` a prefix of the text? -/
def startsList : List Char → List Char → Bool
  | [], _ => true
  | _ :: _, [] => false
  | p :: ps, c :: cs => c = p && startsList ps cs

/-- Python's `pat in content` (substring test). -/
def containsSub (pat : List Char) : List Char → Bool
  | [] => startsList pat []
  | c :: cs => startsList pat (c :: cs) || containsSub pat cs

/-- `re.sub(..., count=1)` with a literal pattern: replace the first
occurrence only. -/
def replaceFirst (pat rep : List Char) : List Char → List Char
  | [] => []
  | c :: cs =>
    if startsList pat (c :: cs) then rep ++ (c :: cs).drop pat.length
    else c :: replaceFirst pat rep cs

/-- The first-section marker string. -/
def basMarker : List Char := str "Background and Significance"

/-- The literal heading whose absence the script tests. -/
def chIntroMarker : List Char := str "\\chapter\x7bIntroduction\x7d"

/-- The injected block (replacement template after processing). -/
def introRep : List Char :=
  str "\\chapter\x7bIntroduction\x7d\n\\label\x7bch:introduction\x7d\n\n\\section\x7bBackground and Significance\x7d\n\\label\x7bsec:background-and-significance\x7d"

/-- Step 1 of `fix_headings`: inject `\chapter{Introduction}` before the
first `Background and Significance` if that marker is present and the
literal `\chapter{Introduction}` is not. -/
def injectIntro (content : List Char) : List Char :=
  if containsSub basMarker content && !containsSub chIntroMarker content then
    replaceFirst basMarker introRep content
  else content

/-- `Chapter\s+2\s*\n+\s*Literature\s+review` (case-insensitive) →
`\chapter{Literature Review}\n\label{ch:literature-review}`.
The run `\s*\n+\s*` deterministically consumes the maximal whitespace run,
which must contain a newline. -/
def mChap2 : Rule := fun _ rest =>
  match dropLitCI (str "Chapter") rest with
  | none => none
  | some r1 =>
    let w1 := wsLen r1
    if w1 = 0 then none else
    match dropLit ['2'] (r1.drop w1) with
    | none => none
    | some r2 =>
      let w2 := wsLen r2
      if !(r2.take w2).contains '\n' then none else
      match dropLitCI (str "Literature") (r2.drop w2) with
      | none => none
      | some r3 =>
        let w3 := wsLen r3
        if w3 = 0 then none else
        match dropLitCI (str "review") (r3.drop w3) with
        | none => none
        | some _ =>
          some (7 + w1 + 1 + w2 + 10 + w3 + 6,
            str "\\chapter\x7bLiterature Review\x7d\n\\label\x7bch:literature-review\x7d")

/-- `\\textbf\{Chapter\s+3\}\s*\n+\s*\\textbf\{3\.\s*Research\s+Methodology\}`
(case-insensitive) → `\chapter{Research Methodology}\n\label{ch:methodology}`. -/
def mChap3Bold : Rule := fun _ rest =>
  match dropLitCI (str "\\textbf\x7bChapter") rest with
  | none => none
  | some r1 =>
    let w1 := wsLen r1
    if w1 = 0 then none else
    match dropLit ['3', '\x7d'] (r1.drop w1) with
    | none => none
    | some r2 =>
      let w2 := wsLen r2
      if !(r2.take w2).contains '\n' then none else
      match dropLitCI (str "\\textbf\x7b3.") (r2.drop w2) with
      | none => none
      | some r3 =>
        let w3 := wsLen r3
        match dropLitCI (str "Research") (r3.drop w3) with
        | none => none
        | some r4 =>
          let w4 := wsLen r4
          if w4 = 0 then none else
          match dropLitCI (str "Methodology") (r4.drop w4) with
          | none => none
          | some r5 =>
            match dropLit ['\x7d'] r5 with
            | none => none
            | some _ =>
              some (15 + w1 + 2 + w2 + 10 + w3 + 8 + w4 + 11 + 1,
                str "\\chapter\x7bResearch Methodology\x7d\n\\label\x7bch:methodology\x7d")

/-- Inner loop of the loose Chapter-3 pattern: the non-greedy `.*?` walks
forward over non-newline characters looking for the earliest
`Research\s+Methodology` (case-insensitive); it returns the consumed
distance up to the end of that match. -/
def chap3Scan : List Char → Option Nat
  | rest =>
    match dropLitCI (str "Research") rest with
    | some r3 =>
      let w := wsLen r3
      if w ≠ 0 then
        match dropLitCI (str "Methodology") (r3.drop w) with
        | some _ => some (8 + w + 11)
        | none => chap3Next rest
      else chap3Next rest
    | none => chap3Next rest
where
  /-- Advance `.*?` by one non-newline character. -/
  chap3Next : List Char → Option Nat
    | [] => none
    | c :: rs => if c = '\n' then none else (chap3Scan rs).map (· + 1)

/-- Length of the part of a whitespace run that is strictly after its last
newline (the trailing whitespace the greedy `\n+` does not consume). -/
def tailAfterNl (run : List Char) : Nat :=
  (run.reverse.takeWhile (fun c => c ≠ '\n')).length

/-- `Chapter\s+3\s*\n+.*?Research\s+Methodology` (case-insensitive, no
DOTALL: `.` excludes newlines) →
`\chapter{Research Methodology}\n\label{ch:methodology}`.
`\s*\n+` deterministically ends right after the last newline of the
maximal whitespace run following `3`. -/
def mChap3Loose : Rule := fun _ rest =>
  match dropLitCI (str "Chapter") rest with
  | none => none
  | some r1 =>
    let w1 := wsLen r1
    if w1 = 0 then none else
    match dropLit ['3'] (r1.drop w1) with
    | none => none
    | some r2 =>
      let w2 := wsLen r2
      let run := r2.take w2
      if !run.contains '\n' then none else
      let resume := w2 - tailAfterNl run
      match chap3Scan (r2.drop resume) with
      | none => none
      | some d =>
        some (7 + w1 + 1 + resume + d,
          str "\\chapter\x7bResearch Methodology\x7d\n\\label\x7bch:methodology\x7d")

/-- The section-level title table. -/
def SECTION_PATTERNS : List String := [
  "Developing Circular Economies",
  "Meeting Global Demand and Feedstock Diversification",
  "Emerging Technological Interest",
  "Problem Statement and Research Motivation",
  "Research Objectives and Scope",
  "Molecular Structure and Colloidal Stabilization",
  "Colloids",
  "The Theory of Natural Rubber Latex",
  "Suspensions Rheology and Theoretical Models",
  "Additive Manufacturing",
  "Sourcing, Traceability, and Rationale",
  "Spectroscopic and Analytical Reagents",
  "Rheological Characterization",
  "Nuclear Magnetic Resonance",
  "Components and Protocols",
  "Material Characterizations",
  "Mechanical Characterizations",
  "DLP 3D Printing"]

/-- The subsection-level title table. -/
def SUBSECTION_PATTERNS : List String := [
  "Preservation Chemistry",
  "Preservation-aware framework",
  "Primary Objectives",
  "Research scope",
  "Natural Rubber Latex",
  "Alternative Preservation Systems",
  "Surfactant Stabilization Mechanisms",
  "Structure-Process-Property",
  "Predictive Viscosity Models",
  "Yield Stress and Shear-Thinning",
  "Photoresins for Vat Photopolymerization",
  "Challenges of Elastomers",
  "Polyurethane and Silicone Elastomers",
  "Emulsion-Based 3D Printing",
  "Overview of Preservation Methods",
  "Ammoniated Latex System",
  "Eco-preserved Latex",
  "Reference and Synthetic Polymer",
  "Pre-receipt Specifications",
  "Incoming Verification",
  "Deuterated Solvents",
  "Photopolymerization and Surfactant",
  "Sample Preparation",
  "Rotational Rheometry",
  "Rheology Interpretation",
  "Viscosity and Volume Fraction",
  "Overview and General Conditions",
  "High-Resolution Solution-State",
  "Diffusion-Ordered Spectroscopy",
  "Time-Domain NMR",
  "Preparation of the UV-Curable",
  "Preparation of Photoresin Emulsion",
  "Preparation of Dual Emulsion",
  "Particle Size and Zeta Potential",
  "Photorheology Characterizations",
  "Uniaxial Tension Test",
  "Cyclic and Hysteresis",
  "Fracture Energy",
  "Puncture Tests",
  "Measurement of Curing Depth",
  "Gel Permeation Chromatography"]

/-- The anchor slug: `title.lower().replace(' ', '-')` followed by
`re.sub(r'[^a-z0-9-]', '', \u00b7)` (which subsumes the script's `replace`
deletions of `:` and `,`). -/
def slugOf (title : List Char) : List Char :=
  ((title.map lowC).map (fun c => if c = ' ' then '-' else c)).filter
    (fun c => ('a' ≤ c && c ≤ 'z') || ('0' ≤ c && c ≤ '9') || c = '-')

/-- `\\textbf\{TITLE[^}]*\}` (case-insensitive) promoted to a sectioning
command with a generated anchor; `sub` selects the subsection variant. -/
def mBold (title : List Char) (sub : Bool) : Rule := fun _ rest =>
  match dropLitCI (str "\\textbf\x7b" ++ title) rest with
  | none => none
  | some r =>
    match closeIdx '\x7d' r with
    | none => none
    | some j =>
      some (8 + title.length + (j + 1),
        (if sub then str "\\subsection\x7b" else str "\\section\x7b") ++ title ++ ['\x7d', '\n'] ++
          str "\\label\x7b" ++ (if sub then str "subsec:" else str "sec:") ++
          slugOf title ++ ['\x7d'])

/-- The section-title promotion loop. -/
def sectionPromote (content : List Char) : List Char :=
  SECTION_PATTERNS.foldl (fun c t => genSub (mBold (str t) false) c) content

/-- The subsection-title promotion loop. -/
def subsectionPromote (content : List Char) : List Char :=
  SUBSECTION_PATTERNS.foldl (fun c t => genSub (mBold (str t) true) c) content

/-- `content.split('\n')`. -/
def splitLines : List Char → List (List Char)
  | [] => [[]]
  | c :: cs =>
    if c = '\n' then [] :: splitLines cs
    else
      match splitLines cs with
      | l :: ls => (c :: l) :: ls
      | [] => [[c]]

/-- `'\n'.join(lines)`. -/
def joinLines : List (List Char) → List Char
  | [] => []
  | [l] => l
  | l :: ls => l ++ '\n' :: joinLines ls

/-- `line.strip()` (ASCII whitespace model). -/
def stripWS (l : List Char) : List Char :=
  ((l.dropWhile (fun c => isSpace c)).reverse.dropWhile (fun c => isSpace c)).reverse

/-- Consume `[^}]*\}`, returning the rest. -/
def afterBrace : List Char → Option (List Char)
  | [] => none
  | c :: cs => if c = '\x7d' then some cs else afterBrace cs

/-- Consume `([^}]*)\}`, returning the capture and the rest. -/
def takeTitle : List Char → Option (List Char × List Char)
  | [] => none
  | c :: cs =>
    if c = '\x7d' then some ([], cs)
    else (takeTitle cs).map (fun p => (c :: p.1, p.2))

/-- The alternation `(chapter|section|subsection|subsubsection)\{`,
alternatives tried left to right. -/
def tryCmds (l : List Char) : Option (String × List Char) :=
  match dropLit (str "chapter\x7b") l with
  | some r => some ("chapter", r)
  | none =>
    match dropLit (str "section\x7b") l with
    | some r => some ("section", r)
    | none =>
      match dropLit (str "subsection\x7b") l with
      | some r => some ("subsection", r)
      | none =>
        match dropLit (str "subsubsection\x7b") l with
        | some r => some ("subsubsection", r)
        | none => none

/-- `re.match` of the Pandoc heading-wrapper pattern
`\\hypertarget\{[^}]*\}\{%?\s*\\(chapter|section|subsection|subsubsection)\{([^}]*)\}[^}]*\}`
against a stripped line, returning the command and the captured title. -/
def hyperParse (st : List Char) : Option (String × List Char) :=
  match dropLit (str "\\hypertarget\x7b") st with
  | none => none
  | some r1 =>
    match afterBrace r1 with
    | none => none
    | some r2 =>
      match dropLit ['\x7b'] r2 with
      | none => none
      | some r3 =>
        let r4 := match r3 with
          | '%' :: t => t
          | _ => r3
        match dropLit ['\\'] (r4.drop (wsLen r4)) with
        | none => none
        | some r6 =>
          match tryCmds r6 with
          | none => none
          | some (cmd, r7) =>
            match takeTitle r7 with
            | none => none
            | some (title, r8) =>
              match afterBrace r8 with
              | none => none
              | some _ => some (cmd, title)

/-- `re.match(r'^\\textbf\{([^}]+)\}$', stripped)`: the whole stripped line
is a bold span with nonempty brace-free content. -/
def boldOnlyTitle (st : List Char) : Option (List Char) :=
  match dropLit (str "\\textbf\x7b") st with
  | none => none
  | some r =>
    match takeTitle r with
    | none => none
    | some (title, rest) =>
      if !title.isEmpty && rest.isEmpty then some title else none

/-- The per-line residual pass: unwrap recognized heading wrappers, and
treat a standalone short bold line (< 100 characters, not ending in a
period) as an unlabeled subsection. -/
def lineOut (line : List Char) : List (List Char) :=
  let st := stripWS line
  match hyperParse st with
  | some (cmd, title) =>
    [str "\\" ++ str cmd ++ ['\x7b'] ++ title ++ ['\x7d'],
     str "\\label\x7b" ++ (if cmd = "chapter" then str "ch:" else str "sec:") ++
       slugOf title ++ ['\x7d']]
  | none =>
    match boldOnlyTitle st with
    | some title =>
      if title.length < 100 && !(title.getLast? = some '.') then
        [str "\\subsection*\x7b" ++ title ++ ['\x7d'],
         str "\\label\x7bsubsec:" ++ slugOf title ++ ['\x7d']]
      else [line]
    | none => [line]

/-- The line-by-line residual pass over the whole buffer. -/
def linePass (content : List Char) : List Char :=
  joinLines (((splitLines content).map lineOut).flatten)

/-- `fix_headings`: injection, the three chapter rewrites, the two title
promotion loops, then the residual line pass — in source order. -/
def fix_headings (content : List Char) : List Char :=
  let c := injectIntro content
  let c := genSub mChap2 c
  let c := genSub mChap3Bold c
  let c := genSub mChap3Loose c
  let c := sectionPromote c
  let c := subsectionPromote c
  linePass c

/-! ### `split_into_chapters` -/

/-- A match of `\\chapter\{([^}]*)\}` at the head of the text: its length. -/
def mChapterLen (rest : List Char) : Option Nat :=
  match dropLit (str "\\chapter\x7b") rest with
  | none => none
  | some r => (closeIdx '\x7d' r).map (fun j => 9 + (j + 1))

/-- Start positions of all (leftmost, non-overlapping) chapter-heading
matches; `i` is the current absolute position and `skip` the remainder of
an accepted match. -/
def chapterStartsA (i : Nat) (skip : Nat) : List Char → List Nat
  | [] => []
  | c :: rs =>
    match skip with
    | k + 1 => chapterStartsA (i + 1) k rs
    | 0 =>
      match mChapterLen (c :: rs) with
      | some n => i :: chapterStartsA (i + 1) (n - 1) rs
      | none => chapterStartsA (i + 1) 0 rs

/-- All chapter-heading match start positions. -/
def chapterStarts (l : List Char) : List Nat := chapterStartsA 0 0 l

/-- `content[s:e]`. -/
def sliceStr (content : List Char) (s e : Nat) : List Char :=
  (content.take e).drop s

/-- Build the chapter map from the match start positions: entry `i` holds
`content[start_i : start_{i+1}].strip()` (last entry runs to the end). -/
def mkChapters (content : List Char) : Nat → List Nat → List (Nat × List Char)
  | _, [] => []
  | i, s :: rest =>
    (i, stripWS (sliceStr content s
        (match rest with
         | s2 :: _ => s2
         | [] => content.length))) :: mkChapters content (i + 1) rest

/-- `split_into_chapters`: no match → the whole buffer becomes chapter 1
(frontmatter kept, not stripped); otherwise positional slices, stripped,
with everything before the first match discarded. -/
def split_into_chapters (content : List Char) : List (Nat × List Char) :=
  match chapterStarts content with
  | [] => [(1, content)]
  | s :: rest => mkChapters content 1 (s :: rest)

/-! ### Chapter files and the writer -/

/-- One entry of the `CHAPTERS` registry. -/
structure ChapConfig where
  title : String
  label : String
  file : String

/-- `CHAPTERS.get(num, default)`: the fixed 3-entry registry with the
generic fallback used by `create_chapter_file`. -/
def chapterConfig (n : Nat) : ChapConfig :=
  if n = 1 then ⟨"Introduction", "ch:introduction", "chapter1.tex"⟩
  else if n = 2 then ⟨"Literature Review", "ch:literature-review", "chapter2.tex"⟩
  else if n = 3 then ⟨"Research Methodology", "ch:methodology", "chapter3.tex"⟩
  else ⟨"Chapter " ++ toString n, "ch:chapter" ++ toString n,
    "chapter" ++ toString n ++ ".tex"⟩

/-- `chapter_num in CHAPTERS`. -/
def inRegistry (n : Nat) : Bool := n = 1 || n = 2 || n = 3

/-- The generated header comment; the timestamp `t` is the
`time.strftime('%Y-%m-%d %H:%M:%S')` value, passed explicitly. -/
def headerOf (n : Nat) (t : String) : List Char :=
  str "% " ++ str (chapterConfig n).file ++ [' ', '-', '-', ' '] ++
    str "Chapter " ++ str (toString n) ++ str ": " ++ str (chapterConfig n).title ++
    str "\n%\n% Natural Rubber Latex Thesis\n% Auto-generated from Word document - " ++
    str t ++ ['\n', '\n']

/-- `create_chapter_file`: header plus chapter content. -/
def create_chapter_file (n : Nat) (content : List Char) (t : String) : List Char :=
  headerOf n t ++ content

/-- The chapters directory, as a map from file names to contents. -/
def FS : Type := String → Option (List Char)

/-- Write (or overwrite) one file. -/
def setFile (fs : FS) (name : String) (v : List Char) : FS :=
  fun n => if n = name then some v else fs n

/-- `output_file.with_suffix('.tex.bak')`: on the registry's `*.tex` names
this appends `.bak`. -/
def bakName (name : String) : String := name ++ ".bak"

/-- The empty directory. -/
def emptyFS : FS := fun _ => none

/-- The save loop of `process_and_save`: registry chapters are backed up
(single generation) and written; other indices are skipped (with a console
warning, not modelled). -/
def process_chapters (t : String) : List (Nat × List Char) → FS → FS
  | [], fs => fs
  | (num, c) :: rest, fs =>
    if inRegistry num then
      let fname := (chapterConfig num).file
      let fs1 :=
        match fs fname with
        | some old => setFile fs (bakName fname) old
        | none => fs
      process_chapters t rest (setFile fs1 fname (create_chapter_file num c t))
    else process_chapters t rest fs

/-- The three text transformations, in source order. -/
def pipelineText (content : List Char) : List Char :=
  fix_headings (replace_acronyms (fix_special_characters content))

/-- `process_and_save`: transform, split, save. -/
def process_and_save (content : List Char) (t : String) (fs : FS) : FS :=
  process_chapters t (split_into_chapters (pipelineText content)) fs

/-- In the normalizer's output, every `%` is escaped: it is immediately
preceded by a backslash. -/
def PctEsc (y : List Char) : Prop :=
  ∀ l₁ l₂, y = l₁ ++ '%' :: l₂ → l₁.getLast? = some '\\'

/-- In the normalizer's output, every `&` is escaped or immediately
followed by a backslash (the lookahead `(?!\\)` deliberately skips those). -/
def AmpOk (y : List Char) : Prop :=
  ∀ l₁ l₂, y = l₁ ++ '&' :: l₂ → l₁.getLast? = some '\\' ∨ l₂.head? = some '\\'

/-! ### Scan invariants for the idempotence of `fix_special_characters`

Each substitution of the normalizer leaves its own pattern unmatched in
its output, and the later substitutions never re-create it.  The
following decidable predicates express the per-rule "no match anywhere"
conditions as local window checks suitable for induction along the
scanner. -/

/-- Head-character test under `f` (false on the empty list). -/
def headP (f : Char → Bool) : List Char → Bool
  | [] => false
  | c :: _ => f c

/-- Wordness of the last character, with fallback `b` for the empty
list (the running "previous emitted character is a word character"
flag). -/
def lastW (l : List Char) (b : Bool) : Bool :=
  match l.getLast? with
  | some c => isWordChar c
  | none => b

/-- Last character equal to `c₀`, with fallback `b` for the empty list. -/
def lastIs (c₀ : Char) (l : List Char) (b : Bool) : Bool :=
  match l.getLast? with
  | some c => decide (c = c₀)
  | none => b

/-- No `~` immediately followed by a digit. -/
def tdOk : List Char → Bool
  | [] => true
  | c :: rs => (if c = '~' then !(headP isDigitChar rs) else true) && tdOk rs

/-- Every `%` is preceded by a backslash; `b` says the character just
before the list is a backslash. -/
def pctOk : Bool → List Char → Bool
  | _, [] => true
  | b, c :: rs => (if c = '%' then b else true) && pctOk (decide (c = '\\')) rs

/-- Every `&` is preceded or followed by a backslash; `b` as in `pctOk`. -/
def ampOk : Bool → List Char → Bool
  | _, [] => true
  | b, c :: rs =>
    (if c = '&' then b || decide (rs.head? = some '\\') else true) &&
      ampOk (decide (c = '\\')) rs

/-- Every occurrence of the word-bounded literal `L` keeps an adjacent
word character; `b` says the character just before the list is a word
character. -/
def wbOkB (L : List Char) : Bool → List Char → Bool
  | _, [] => true
  | b, c :: rs =>
    (!(startsList L (c :: rs)) || b || headP isWordChar ((c :: rs).drop L.length)) &&
      wbOkB L (isWordChar c) rs

/-- Overlap screen: no nonempty proper tail of `L` lines up with the
start of the replacement `R` in either direction. -/
def prefOk (L R : List Char) : Bool :=
  L.tails.all fun q =>
    q.isEmpty || decide (q.length = L.length) ||
      (!(startsList q R) && !(startsList R q))

/-- Overlap screen: no nonempty tail of `R` starts an occurrence of `L`
or is a prefix of `L`. -/
def xyOk (L R : List Char) : Bool :=
  R.tails.all fun s => s.isEmpty || (!(startsList L s) && !(startsList s L))

/-- The rule matches nowhere in `y`, so its global substitution is the
identity on `y`. -/
def NoHit (M : Rule) (y : List Char) : Prop :=
  ∀ l₁ c l₂, y = l₁ ++ c :: l₂ → M l₁.reverse (c :: l₂) = none

/-! ## Theorems -/

set_option maxRecDepth 200000

lemma lowC_of_not_up (c : Char) (h : ('A' ≤ c && c ≤ 'Z') = false) : lowC c = c := by
  unfold lowC
  simp [h]

lemma toNat_lowC_up (c : Char) (h : ('A' ≤ c && c ≤ 'Z') = true) :
    (lowC c).toNat = c.toNat + 32 ∧ 65 ≤ c.toNat ∧ c.toNat ≤ 90 := by
  simp only [Bool.and_eq_true, decide_eq_true_eq] at h
  have h1 : ('A' : Char).toNat ≤ c.toNat := h.1
  have h2 : c.toNat ≤ ('Z' : Char).toNat := h.2
  have hA : ('A' : Char).toNat = 65 := by decide
  have hZ : ('Z' : Char).toNat = 90 := by decide
  have hval : (c.toNat + 32).isValidChar := by
    left
    omega
  refine ⟨?_, by omega, by omega⟩
  unfold lowC
  rw [if_pos (by simp only [Bool.and_eq_true, decide_eq_true_eq]; exact ⟨h.1, h.2⟩)]
  unfold Char.ofNat
  simp [hval]
  rfl

/-- `lowC` either fixes a character or yields an ASCII lowercase letter. -/
lemma lowC_range (c : Char) :
    lowC c = c ∨ (97 ≤ (lowC c).toNat ∧ (lowC c).toNat ≤ 122) := by
  rcases hup : ('A' ≤ c && c ≤ 'Z') with _ | _
  · exact Or.inl (lowC_of_not_up c hup)
  · obtain ⟨h1, h2, h3⟩ := toNat_lowC_up c hup
    right
    omega

/-- `lowC` separates any character from the backslash. -/
lemma lowC_ne_bs (c : Char) (h : c ≠ '\\') : lowC c ≠ lowC '\\' := by
  have hbs : lowC '\\' = '\\' := by decide
  rw [hbs]
  rcases lowC_range c with hc | ⟨h1, h2⟩
  · rw [hc]; exact h
  · intro he
    have : ('\\' : Char).toNat = 92 := by decide
    rw [he] at h1
    omega

/-- A non-letter is fixed by `lowC` and distinct from the lowering of any
ASCII letter. -/
lemma lowC_ne_of_not_letter (c d : Char) (hc : isAsciiLetter c = false)
    (hd : isAsciiLetter d = true) : lowC c ≠ lowC d := by
  have hup : ('A' ≤ c && c ≤ 'Z') = false := by
    unfold isAsciiLetter at hc
    rcases h : ('A' ≤ c && c ≤ 'Z') with _ | _
    · rfl
    · rw [h] at hc; simp at hc
  rw [lowC_of_not_up c hup]
  have hlow : ('a' ≤ c && c ≤ 'z') = false := by
    unfold isAsciiLetter at hc
    rcases h : ('a' ≤ c && c ≤ 'z') with _ | _
    · rfl
    · rw [h] at hc; simp at hc
  have hcn : ¬(97 ≤ c.toNat ∧ c.toNat ≤ 122) := by
    intro ⟨ha, hb⟩
    have h97 : ('a' : Char).toNat = 97 := by decide
    have h122 : ('z' : Char).toNat = 122 := by decide
    have : ('a' ≤ c && c ≤ 'z') = true := by
      simp only [Bool.and_eq_true, decide_eq_true_eq]
      constructor
      · show ('a' : Char).toNat ≤ c.toNat
        omega
      · show c.toNat ≤ ('z' : Char).toNat
        omega
    rw [this] at hlow; simp at hlow
  rcases lowC_range d with hdfix | ⟨h1, h2⟩
  · rw [hdfix]
    intro he
    subst he
    rw [hd] at hc
    simp at hc
  · intro he
    rw [he] at hcn
    exact hcn ⟨h1, h2⟩

/-! ### List bridges -/

lemma startsList_iff (pat : List Char) : ∀ l, startsList pat l = true ↔ ∃ z, l = pat ++ z := by
  induction pat with
  | nil =>
    intro l
    simp [startsList]
  | cons p ps ih =>
    intro l
    cases l with
    | nil =>
      simp [startsList]
    | cons c cs =>
      simp only [startsList, Bool.and_eq_true, decide_eq_true_eq, ih cs]
      constructor
      · rintro ⟨rfl, z, rfl⟩
        exact ⟨z, rfl⟩
      · rintro ⟨z, hz⟩
        cases hz
        exact ⟨rfl, z, rfl⟩

lemma containsSub_iff (pat : List Char) :
    ∀ l, containsSub pat l = true ↔ ∃ a b, l = a ++ pat ++ b := by
  intro l
  induction l with
  | nil =>
    simp only [containsSub, startsList_iff]
    constructor
    · rintro ⟨z, hz⟩
      exact ⟨[], z, by simpa using hz⟩
    · rintro ⟨a, b, h⟩
      refine ⟨b, ?_⟩
      rcases a with _ | ⟨x, a⟩ <;> simp_all
  | cons c cs ih =>
    simp only [containsSub, Bool.or_eq_true, startsList_iff, ih]
    constructor
    · rintro (⟨z, hz⟩ | ⟨a, b, hab⟩)
      · exact ⟨[], z, by simpa using hz⟩
      · exact ⟨c :: a, b, by simp [hab]⟩
    · rintro ⟨a, b, hab⟩
      rcases a with _ | ⟨x, a⟩
      · exact Or.inl ⟨b, by simpa using hab⟩
      · right
        simp only [List.cons_append] at hab
        injection hab with h1 h2
        exact ⟨a, b, h2⟩

lemma dropLit_eq_some (pat : List Char) :
    ∀ l r, dropLit pat l = some r ↔ l = pat ++ r := by
  induction pat with
  | nil =>
    intro l r
    simp [dropLit, eq_comm]
  | cons p ps ih =>
    intro l r
    cases l with
    | nil => simp [dropLit]
    | cons c cs =>
      simp only [dropLit, List.cons_append]
      by_cases h : c = p
      · subst h
        simp [ih cs r]
      · simp [h]

/-! ### Scanner lemmas -/

lemma scanA_skip_append (M : Rule) (a : List Char) :
    ∀ prev k b, scanA M prev (a.length + k) (a ++ b) = scanA M (a.reverse ++ prev) k b := by
  induction a with
  | nil => intro prev k b; simp
  | cons c a ih =>
    intro prev k b
    show scanA M prev (a.length + 1 + k) (c :: (a ++ b)) = _
    have : a.length + 1 + k = (a.length + k) + 1 := by omega
    rw [this]
    show scanA M (c :: prev) (a.length + k) (a ++ b) = _
    rw [ih (c :: prev) k b]
    simp

lemma scanA_nomatch_cons (M : Rule) (prev : List Char) (c : Char) (rs : List Char)
    (h : M prev (c :: rs) = none) :
    scanA M prev 0 (c :: rs) = c :: scanA M (c :: prev) 0 rs := by
  simp [scanA, h]

lemma scanA_match (M : Rule) (prev : List Char) (c : Char) (rs rep : List Char) (n : Nat)
    (h : M prev (c :: rs) = some (n, rep)) :
    scanA M prev 0 (c :: rs) = rep ++ scanA M (c :: prev) (n - 1) rs := by
  simp [scanA, h]

/-- A match that consumes exactly the block `a`. -/
lemma scanA_match_exact (M : Rule) (prev : List Char) (a b rep : List Char)
    (ha : a ≠ []) (h : M prev (a ++ b) = some (a.length, rep)) :
    scanA M prev 0 (a ++ b) = rep ++ scanA M (a.reverse ++ prev) 0 b := by
  cases a with
  | nil => exact absurd rfl ha
  | cons c a' =>
    rw [List.cons_append] at h ⊢
    rw [scanA_match M prev c (a' ++ b) rep _ h]
    have : (c :: a').length - 1 = a'.length + 0 := by simp
    rw [this, scanA_skip_append M a' (c :: prev) 0 b]
    simp

/-- Characters on which the rule can never start a match are copied. -/
lemma scanA_seg (M : Rule) (seg : List Char)
    (hseg : ∀ c ∈ seg, ∀ p r, M p (c :: r) = none) :
    ∀ prev b, scanA M prev 0 (seg ++ b) = seg ++ scanA M (seg.reverse ++ prev) 0 b := by
  induction seg with
  | nil => intro prev b; simp
  | cons c s ih =>
    intro prev b
    rw [List.cons_append,
      scanA_nomatch_cons M prev c (s ++ b) (hseg c (by simp) prev (s ++ b))]
    rw [ih (fun x hx => hseg x (by simp [hx])) (c :: prev) b]
    simp

/-- If the rule fails at every position, the scan is the identity. -/
lemma scanA_id (M : Rule) :
    ∀ rest prev,
      (∀ l₁ c l₂, rest = l₁ ++ c :: l₂ → M (l₁.reverse ++ prev) (c :: l₂) = none) →
      scanA M prev 0 rest = rest := by
  intro rest
  induction rest with
  | nil => intro prev _; rfl
  | cons c rs ih =>
    intro prev h
    rw [scanA_nomatch_cons M prev c rs (by simpa using h [] c rs rfl)]
    rw [ih (c :: prev) ?_]
    intro l₁ x l₂ he
    have := h (c :: l₁) x l₂ (by simp [he])
    simpa using this

lemma genSub_id (M : Rule) (l : List Char)
    (h : ∀ l₁ c l₂, l = l₁ ++ c :: l₂ → M l₁.reverse (c :: l₂) = none) :
    genSub M l = l := by
  unfold genSub
  exact scanA_id M l [] (by simpa using h)

lemma searchAux_true_of (M : Rule) (l₁ : List Char) :
    ∀ prev l₂, (M (l₁.reverse ++ prev) l₂).isSome = true →
      searchAux M prev (l₁ ++ l₂) = true := by
  induction l₁ with
  | nil =>
    intro prev l₂ h
    cases l₂ with
    | nil => simpa [searchAux] using h
    | cons c rs => simp only [List.nil_append, searchAux, Bool.or_eq_true]; left; simpa using h
  | cons c l₁' ih =>
    intro prev l₂ h
    simp only [List.cons_append, searchAux, Bool.or_eq_true]
    right
    exact ih (c :: prev) l₂ (by simpa [List.append_assoc] using h)

lemma searchAux_false (M : Rule) :
    ∀ rest prev,
      (∀ l₁ c l₂, rest = l₁ ++ c :: l₂ → M (l₁.reverse ++ prev) (c :: l₂) = none) →
      (M (rest.reverse ++ prev) [] = none) →
      searchAux M prev rest = false := by
  intro rest
  induction rest with
  | nil =>
    intro prev _ hend
    simpa [searchAux] using hend
  | cons c rs ih =>
    intro prev h hend
    simp only [searchAux, Bool.or_eq_false_iff]
    constructor
    · have := h [] c rs rfl
      simp at this
      simp [this]
    · refine ih (c :: prev) ?_ ?_
      · intro l₁ x l₂ he
        simpa using h (c :: l₁) x l₂ (by simp [he])
      · simpa using hend

/-! ### Writer lemmas -/

lemma mkChapters_map_fst (content : List Char) :
    ∀ starts i, (mkChapters content i starts).map Prod.fst = List.range' i starts.length := by
  intro starts
  induction starts with
  | nil => intro i; rfl
  | cons s rest ih =>
    intro i
    simp only [mkChapters, List.map_cons, List.length_cons, List.range'_succ]
    rw [ih (i + 1)]

/-! ### Claim C2 -/

/-- C2: the claim says the normalizer converts a straight-quoted span to
LaTeX curly quotes *preserving the span's inner content*.  The code's
replacement template `r"``\\1''"` contains an escaped backslash, so after
template processing it is the literal text `` `` ``​`\1''` — the inner
content is deleted and replaced by a literal backslash-one.  This theorem
evaluates the code at the failing input `He said "hello world" ok`,
exhibiting the divergence (the code's own comment, "convert straight
quotes to LaTeX curly quotes", documents the preserving intent). -/
theorem C2_quote_replacement_drops_content :
    fix_special_characters (str "He said \x22hello world\x22 ok") =
      str "He said \x60\x60\\1\x27\x27 ok" ∧
    fix_special_characters (str "He said \x22hello world\x22 ok") ≠
      str "He said \x60\x60hello world\x27\x27 ok" := by
  constructor
  · decide
  · decide

/-! ### Claim C4: counterexample -/

/-- C4 counterexample: the claim says that on input with no pre-escaped
`%`/`&` the normalizer escapes *every* bare `%` and `&`.  On `a&%b` the
percent pass runs first and produces `a&\%b`; the ampersand's lookahead
`(?!\\)` then sees the backslash introduced for `%` and leaves the `&`
bare, so the claim fails. -/
theorem C4_counterexample :
    fix_special_characters (str "a&%b") = str "a&\\%b" ∧
    fix_special_characters (str "a&%b") ≠ str "a\\&\\%b" := by
  constructor
  · decide
  · decide

/-! ### Claim C5 -/

/-- C5 counterexample: with exactly two chapter markers (at positions 12
and 33 of this input) the claim says each entry's content is the slice
from its marker up to the next marker / end of buffer.  The code applies
`.strip()` to each slice, so chapter 1's entry lacks the slice's trailing
newline. -/
theorem C5_counterexample :
    chapterStarts (str "front stuff\n\\chapter\x7bA\x7d\nbody one\n\\chapter\x7bB\x7d\nbody two\n") = [12, 33] ∧
    split_into_chapters (str "front stuff\n\\chapter\x7bA\x7d\nbody one\n\\chapter\x7bB\x7d\nbody two\n") =
      [(1, str "\\chapter\x7bA\x7d\nbody one"), (2, str "\\chapter\x7bB\x7d\nbody two")] ∧
    str "\\chapter\x7bA\x7d\nbody one" ≠
      sliceStr (str "front stuff\n\\chapter\x7bA\x7d\nbody one\n\\chapter\x7bB\x7d\nbody two\n") 12 33 := by
  refine ⟨by decide, by decide, by decide⟩

/-- C5 (amended): with exactly two top-level chapter markers the splitter
yields exactly two entries; entry `i` is the half-open slice from its
marker to the next marker (or end of buffer) **with surrounding whitespace
stripped**; text before the first marker is discarded. -/
theorem C5_amended (content : List Char) (s1 s2 : Nat)
    (h : chapterStarts content = [s1, s2]) :
    split_into_chapters content =
      [(1, stripWS (sliceStr content s1 s2)),
       (2, stripWS (sliceStr content s2 content.length))] := by
  simp [split_into_chapters, h, mkChapters]

/-- Witness for `C5_amended` at the counterexample input. -/
theorem C5_amended_witness :
    chapterStarts (str "front stuff\n\\chapter\x7bA\x7d\nbody one\n\\chapter\x7bB\x7d\nbody two\n") = [12, 33] ∧
    split_into_chapters (str "front stuff\n\\chapter\x7bA\x7d\nbody one\n\\chapter\x7bB\x7d\nbody two\n") =
      [(1, stripWS (sliceStr (str "front stuff\n\\chapter\x7bA\x7d\nbody one\n\\chapter\x7bB\x7d\nbody two\n") 12 33)),
       (2, stripWS (sliceStr (str "front stuff\n\\chapter\x7bA\x7d\nbody one\n\\chapter\x7bB\x7d\nbody two\n") 33
            (str "front stuff\n\\chapter\x7bA\x7d\nbody one\n\\chapter\x7bB\x7d\nbody two\n").length))] :=
  ⟨by decide, C5_amended _ 12 33 (by decide)⟩

/-! ### Claim C8 -/

/-- C8: chapter indices outside the fixed 3-entry registry have no effect
on the directory: the save loop over any chapter list equals the save loop
over its registry-filtered sublist, so skipped indices write no file,
change no existing file or backup, and leave registry writes unaffected
(the console warning is not modelled). -/
theorem C8_nonregistry_indices_skipped (t : String) (L : List (Nat × List Char)) (fs : FS) :
    process_chapters t L fs = process_chapters t (L.filter fun p => inRegistry p.1) fs := by
  induction L generalizing fs with
  | nil => rfl
  | cons hd rest ih =>
    obtain ⟨num, c⟩ := hd
    rw [List.filter_cons]
    by_cases hreg : inRegistry num = true
    · simp only [hreg, if_true, process_chapters]
      exact ih _
    · simp only [Bool.not_eq_true] at hreg
      simp only [hreg, process_chapters, Bool.false_eq_true, if_false]
      exact ih _

/-! ### Claim C9 -/

/-- C9: if the (post-transform) buffer contains no `\chapter{...}` match,
the splitter assigns the whole buffer — frontmatter included, unstripped —
to index 1, and since 1 is in the registry the writer stores header plus
the whole buffer in `chapter1.tex`, backing up any previous content to
`chapter1.tex.bak`. -/
theorem C9_no_marker_whole_buffer (content : List Char) (t : String) (fs : FS)
    (h : chapterStarts content = []) :
    split_into_chapters content = [(1, content)] ∧
    process_chapters t (split_into_chapters content) fs "chapter1.tex" =
      some (create_chapter_file 1 content t) ∧
    ∀ old, fs "chapter1.tex" = some old →
      process_chapters t (split_into_chapters content) fs "chapter1.tex.bak" = some old := by
  have hsplit : split_into_chapters content = [(1, content)] := by
    simp [split_into_chapters, h]
  refine ⟨hsplit, ?_, ?_⟩
  · rw [hsplit]
    cases hfs : fs "chapter1.tex" with
    | none => simp [process_chapters, chapterConfig, inRegistry, setFile, hfs]
    | some old => simp [process_chapters, chapterConfig, inRegistry, setFile, hfs]
  · intro old hold
    rw [hsplit]
    simp [process_chapters, chapterConfig, inRegistry, setFile, bakName, hold]

/-- Witness for `C9_no_marker_whole_buffer`. -/
theorem C9_no_marker_whole_buffer_witness :
    chapterStarts (str "no markers here") = [] ∧
    process_chapters "T" (split_into_chapters (str "no markers here"))
        (setFile emptyFS "chapter1.tex" (str "old")) "chapter1.tex.bak" = some (str "old") :=
  ⟨by decide,
    (C9_no_marker_whole_buffer (str "no markers here") "T"
        (setFile emptyFS "chapter1.tex" (str "old")) (by decide)).2.2 (str "old") (by decide)⟩

/-! ### Claim C10 -/

/-- C10: chapter indices are purely positional — the `i`-th marker (in
buffer order) gets index `i` whatever its title — and concretely a
document whose only marker is `\chapter{Literature Review}` is written to
`chapter1.tex` under the registry header title `Chapter 1: Introduction`. -/
theorem C10_positional_indices (content : List Char) (h : chapterStarts content ≠ []) :
    (split_into_chapters content).map Prod.fst =
      List.range' 1 (chapterStarts content).length ∧
    process_and_save (str "\\chapter\x7bLiterature Review\x7d\nX") "T1" emptyFS "chapter1.tex" =
      some (str "% chapter1.tex -" ++
        str "- Chapter 1: Introduction\n%\n% Natural Rubber Latex Thesis\n% Auto-generated from Word document - T1\n\n\\chapter\x7bLiterature Review\x7d\nX") := by
  constructor
  · cases hcs : chapterStarts content with
    | nil => exact absurd hcs h
    | cons s rest =>
      simp only [split_into_chapters, hcs]
      rw [mkChapters_map_fst content (s :: rest) 1]
  · decide

/-- Witness for `C10_positional_indices`. -/
theorem C10_positional_indices_witness :
    chapterStarts (str "\\chapter\x7bLiterature Review\x7d\nX") ≠ [] ∧
    (split_into_chapters (str "\\chapter\x7bLiterature Review\x7d\nX")).map Prod.fst =
      List.range' 1 (chapterStarts (str "\\chapter\x7bLiterature Review\x7d\nX")).length :=
  ⟨by decide, (C10_positional_indices (str "\\chapter\x7bLiterature Review\x7d\nX") (by decide)).1⟩

/-! ### Claim C1: counterexample -/

/-- C1 counterexample: the generated header embeds the run's timestamp, so
two runs on identical converter output at different timestamps produce
different `chapter1.tex` bytes — the claimed byte-identity fails — while
the second run's `chapter1.tex.bak` does equal the first run's output
file. -/
theorem C1_counterexample :
    (process_and_save (str "\\chapter\x7bA\x7d") "T2"
        (process_and_save (str "\\chapter\x7bA\x7d") "T1" emptyFS)) "chapter1.tex" ≠
      (process_and_save (str "\\chapter\x7bA\x7d") "T1" emptyFS) "chapter1.tex" ∧
    (process_and_save (str "\\chapter\x7bA\x7d") "T2"
        (process_and_save (str "\\chapter\x7bA\x7d") "T1" emptyFS)) "chapter1.tex.bak" =
      (process_and_save (str "\\chapter\x7bA\x7d") "T1" emptyFS) "chapter1.tex" := by
  refine ⟨by decide, by decide⟩

/-! ### Claim C3: counterexample -/

/-- C3 counterexample: the claim says a bare `NRL` token occurring *before*
its full form is left unreplaced.  The introduction test is a global
`re.search`, and the standalone pass is a global substitution over the
whole buffer, so the earlier bare token is folded too. -/
theorem C3_counterexample :
    replace_acronyms (str "# NRL + Natural Rubber Latex (NRL) #") =
      str "# \\ac\x7bNRL\x7d + \\ac\x7bNRL\x7d #" ∧
    replace_acronyms (str "# NRL + Natural Rubber Latex (NRL) #") ≠
      str "# NRL + \\ac\x7bNRL\x7d #" := by
  refine ⟨by decide, by decide⟩

/-! ### Claim C6 -/

/-- C6 counterexample: the claim says that if a top-level heading already
exists, no injection occurs.  The guard actually tests for the literal
`\chapter{Introduction}` only, so a buffer that already has
`\chapter{X}` still receives the injected Introduction chapter. -/
theorem C6_counterexample :
    fix_headings (str "\\chapter\x7bX\x7d\nBackground and Significance") =
      str "\\chapter\x7bX\x7d\n\\chapter\x7bIntroduction\x7d\n\\label\x7bch:introduction\x7d\n\n\\section\x7bBackground and Significance\x7d\n\\label\x7bsec:background-and-significance\x7d" ∧
    containsSub (str "\\chapter\x7b") (str "\\chapter\x7bX\x7d\nBackground and Significance") = true := by
  refine ⟨by decide, by decide⟩

/-- `Background and Significance` has no nontrivial self-overlap. -/
lemma bas_border_free (k : Nat) (h1 : 1 ≤ k) (h2 : k ≤ 26) :
    basMarker.drop k ≠ basMarker.take (27 - k) := by
  have hall : ∀ i ∈ List.range 26,
      basMarker.drop (i + 1) ≠ basMarker.take (27 - (i + 1)) := by decide
  have h := hall (k - 1) (by simp only [List.mem_range]; omega)
  have hk : k - 1 + 1 = k := by omega
  rwa [hk] at h

/-- If `pre` contains no occurrence of the marker, then no occurrence of
the marker starts inside `pre` in `pre ++ basMarker ++ suf`. -/
lemma bas_no_overlap (pre suf : List Char) (hpre : containsSub basMarker pre = false) :
    ∀ q z, pre = q ++ z → z ≠ [] → startsList basMarker (z ++ (basMarker ++ suf)) = false := by
  intro q z hqz hz
  by_contra hcon
  rw [Bool.not_eq_false, startsList_iff] at hcon
  obtain ⟨w, hw⟩ := hcon
  have hblen : basMarker.length = 27 := by decide
  by_cases hlen : basMarker.length ≤ z.length
  · -- the marker would be a prefix of z, hence occur inside pre
    have htake := congrArg (List.take basMarker.length) hw
    rw [List.take_append_of_le_length hlen, List.take_left] at htake
    have hocc : containsSub basMarker pre = true := by
      rw [containsSub_iff]
      refine ⟨q, z.drop basMarker.length, ?_⟩
      calc pre = q ++ z := hqz
        _ = q ++ (z.take basMarker.length ++ z.drop basMarker.length) := by
            rw [List.take_append_drop]
        _ = q ++ basMarker ++ z.drop basMarker.length := by
            rw [htake, List.append_assoc]
    rw [hocc] at hpre
    simp at hpre
  · -- the marker would overlap itself (a nontrivial border)
    push_neg at hlen
    have hzlen : 1 ≤ z.length := by
      cases z with
      | nil => exact absurd rfl hz
      | cons _ _ => simp
    have htake := congrArg (List.take z.length) hw
    rw [List.take_left, List.take_append_of_le_length (by omega)] at htake
    have hdrop := congrArg (List.drop z.length) hw
    rw [List.drop_left, List.drop_append_of_le_length (by omega)] at hdrop
    have htk := congrArg (List.take (27 - z.length)) hdrop
    rw [List.take_append_of_le_length (by simp; omega),
      List.take_left' (by simp; omega)] at htk
    exact bas_border_free z.length hzlen (by omega) htk.symm

/-- `replaceFirst` on a text whose first pattern occurrence follows `pre`. -/
lemma replaceFirst_after (pat rep : List Char) (hpat : pat ≠ []) :
    ∀ pre suf,
      (∀ q z, pre = q ++ z → z ≠ [] → startsList pat (z ++ (pat ++ suf)) = false) →
      replaceFirst pat rep (pre ++ (pat ++ suf)) = pre ++ (rep ++ suf) := by
  intro pre
  induction pre with
  | nil =>
    intro suf _
    simp only [List.nil_append]
    obtain ⟨p, ps, rfl⟩ : ∃ p ps, pat = p :: ps := by
      cases pat with
      | nil => exact absurd rfl hpat
      | cons p ps => exact ⟨p, ps, rfl⟩
    have hstart : startsList (p :: ps) ((p :: ps) ++ suf) = true := by
      rw [startsList_iff]
      exact ⟨suf, rfl⟩
    rw [List.cons_append]
    simp only [replaceFirst]
    rw [← List.cons_append, if_pos hstart, List.drop_left]
  | cons c pre' ih =>
    intro suf h
    have hfail : startsList pat (c :: (pre' ++ (pat ++ suf))) = false := by
      have := h [] (c :: pre') rfl (by simp)
      simpa using this
    simp only [List.cons_append]
    simp only [replaceFirst]
    rw [if_neg (by simp [hfail])]
    rw [ih suf (fun q z hqz hz => h (c :: q) z (by simp [hqz]) hz)]

/-- C6 (amended): the injection is guarded by the *literal* string
`\chapter{Introduction}`: if the marker is present and that literal is
absent, the synthesized Introduction heading block replaces the first
marker occurrence (exactly once, wrapping the marker itself in a
`\section`); if the literal is present, nothing is injected — but any
other pre-existing top-level heading does not suppress the injection
(see `C6_counterexample`). -/
theorem C6_amended_literal_guard (pre suf : List Char)
    (hpre : containsSub basMarker pre = false)
    (hint : containsSub chIntroMarker (pre ++ basMarker ++ suf) = false) :
    injectIntro (pre ++ basMarker ++ suf) = pre ++ introRep ++ suf ∧
    ∀ content, containsSub chIntroMarker content = true → injectIntro content = content := by
  constructor
  · have hbas : containsSub basMarker (pre ++ basMarker ++ suf) = true := by
      rw [containsSub_iff]; exact ⟨pre, suf, rfl⟩
    unfold injectIntro
    rw [hbas, hint]
    simp only [Bool.not_false, Bool.and_true, if_true]
    have := replaceFirst_after basMarker introRep (by decide) pre suf
      (bas_no_overlap pre suf hpre)
    simpa [List.append_assoc] using this
  · intro content hc
    unfold injectIntro
    rw [hc]
    simp

/-- Witness for `C6_amended_literal_guard`. -/
theorem C6_amended_literal_guard_witness :
    containsSub basMarker (str "\\chapter\x7bX\x7d\n") = false ∧
    injectIntro (str "\\chapter\x7bX\x7d\n" ++ basMarker ++ str " end") =
      str "\\chapter\x7bX\x7d\n" ++ introRep ++ str " end" :=
  ⟨by decide,
    (C6_amended_literal_guard (str "\\chapter\x7bX\x7d\n") (str " end")
      (by decide) (by decide)).1⟩

/-! ### Claim C7 -/

/-- C7 counterexample: the claim quantifies over every text containing a
bolded `Colloids`.  An earlier title's pattern `\textbf{TITLE[^}]*}` can
consume the bolded `Colloids` text whole (its `[^}]*` crosses the inner
`\textbf{Colloids` up to the closing brace), so no Colloids section is
produced. -/
theorem C7_counterexample :
    sectionPromote (str "\\textbf\x7bDeveloping Circular Economies \\textbf\x7bColloids\x7d") =
      str "\\section\x7bDeveloping Circular Economies\x7d\n\\label\x7bsec:developing-circular-economies\x7d" ∧
    containsSub (str "\\section\x7bColloids\x7d")
      (sectionPromote (str "\\textbf\x7bDeveloping Circular Economies \\textbf\x7bColloids\x7d")) = false := by
  refine ⟨by decide, by decide⟩

/-- A bold-promotion rule can only start matching at a backslash. -/
lemma mBold_headFail (T : List Char) (sub : Bool) (p : List Char) (c : Char)
    (r : List Char) (hc : c ≠ '\\') : mBold T sub p (c :: r) = none := by
  unfold mBold
  have hpat : str "\\textbf\x7b" ++ T = '\\' :: (str "textbf\x7b" ++ T) := rfl
  rw [hpat]
  have hfail : dropLitCI ('\\' :: (str "textbf\x7b" ++ T)) (c :: r) = none := by
    simp only [dropLitCI]
    rw [if_neg (lowC_ne_bs c hc)]
  rw [hfail]

/-- Scan over a block with a single leading backslash on which the rule
fails: the block passes through unchanged. -/
lemma scanA_one_bs_block (M : Rule) (tail b : List Char) (prev : List Char)
    (hhead : ∀ p c r, c ≠ '\\' → M p (c :: r) = none)
    (htail : ∀ c ∈ tail, c ≠ '\\')
    (hfail : ∀ p, M p ('\\' :: (tail ++ b)) = none) :
    scanA M prev 0 (('\\' :: tail) ++ b) =
      ('\\' :: tail) ++ scanA M ((('\\' :: tail).reverse) ++ prev) 0 b := by
  rw [List.cons_append, scanA_nomatch_cons M prev '\\' (tail ++ b) (hfail prev)]
  rw [scanA_seg M tail (fun c hc p r => hhead p c r (htail c hc)) ('\\' :: prev) b]
  simp

/-- Scan over a backslash-free segment followed by nothing: identity. -/
lemma scanA_seg_end (M : Rule) (seg : List Char) (prev : List Char)
    (hhead : ∀ p c r, c ≠ '\\' → M p (c :: r) = none)
    (hseg : ∀ c ∈ seg, c ≠ '\\') :
    scanA M prev 0 seg = seg := by
  have h := scanA_seg M seg (fun c hc p r => hhead p c r (hseg c hc)) prev []
  rw [show scanA M (seg.reverse ++ prev) 0 ([] : List Char) = [] from rfl] at h
  simpa using h

/-- Identity of a bold-promotion scan on `pre ++ \textbf{Colloids} ++ suf`
when the rule fails on the single bolded block and the context has no
backslashes. -/
lemma genSub_skip_colloids (M : Rule) (pre suf : List Char)
    (hhead : ∀ p c r, c ≠ '\\' → M p (c :: r) = none)
    (hpre : ∀ c ∈ pre, c ≠ '\\') (hsuf : ∀ c ∈ suf, c ≠ '\\')
    (hfail : ∀ p, M p ('\\' :: (str "textbf\x7bColloids\x7d" ++ suf)) = none) :
    genSub M (pre ++ str "\\textbf\x7bColloids\x7d" ++ suf) =
      pre ++ str "\\textbf\x7bColloids\x7d" ++ suf := by
  have hocc : (str "\\textbf\x7bColloids\x7d" : List Char) =
      '\\' :: str "textbf\x7bColloids\x7d" := rfl
  unfold genSub
  rw [List.append_assoc, hocc,
    scanA_seg M pre (fun c hc p r => hhead p c r (hpre c hc)) [] _]
  rw [scanA_one_bs_block M (str "textbf\x7bColloids\x7d") suf _ hhead (by decide) hfail]
  rw [scanA_seg_end M suf _ hhead hsuf]

/-- Identity of a bold-promotion scan on the already-promoted text
`pre ++ \section{Colloids}\n\label{sec:colloids} ++ suf`. -/
lemma genSub_skip_promoted (M : Rule) (pre suf : List Char)
    (hhead : ∀ p c r, c ≠ '\\' → M p (c :: r) = none)
    (hpre : ∀ c ∈ pre, c ≠ '\\') (hsuf : ∀ c ∈ suf, c ≠ '\\')
    (hfail1 : ∀ p, M p ('\\' :: (str "section\x7bColloids\x7d\n" ++
      (('\\' :: str "label\x7bsec:colloids\x7d") ++ suf))) = none)
    (hfail2 : ∀ p, M p ('\\' :: (str "label\x7bsec:colloids\x7d" ++ suf)) = none) :
    genSub M (pre ++ str "\\section\x7bColloids\x7d\n\\label\x7bsec:colloids\x7d" ++ suf) =
      pre ++ str "\\section\x7bColloids\x7d\n\\label\x7bsec:colloids\x7d" ++ suf := by
  have hrep : (str "\\section\x7bColloids\x7d\n\\label\x7bsec:colloids\x7d" : List Char) =
      ('\\' :: str "section\x7bColloids\x7d\n") ++ ('\\' :: str "label\x7bsec:colloids\x7d") := rfl
  unfold genSub
  rw [List.append_assoc, hrep,
    scanA_seg M pre (fun c hc p r => hhead p c r (hpre c hc)) [] _]
  rw [List.append_assoc]
  have h1 : ('\\' :: str "section\x7bColloids\x7d\n") ++
      (('\\' :: str "label\x7bsec:colloids\x7d") ++ suf) =
      '\\' :: (str "section\x7bColloids\x7d\n" ++
        (('\\' :: str "label\x7bsec:colloids\x7d") ++ suf)) := rfl
  rw [h1, scanA_nomatch_cons M _ '\\' _ (hfail1 _)]
  rw [scanA_seg M (str "section\x7bColloids\x7d\n")
    (fun c hc p r => hhead p c r (by revert c hc; decide)) _ _]
  rw [List.cons_append, scanA_nomatch_cons M _ '\\' _ (hfail2 _)]
  rw [scanA_seg M (str "label\x7bsec:colloids\x7d")
    (fun c hc p r => hhead p c r (by revert c hc; decide)) _ _]
  rw [scanA_seg_end M suf _ hhead hsuf]

/-- The Colloids rule rewrites its own bolded block, and only that. -/
lemma genSub_colloids_hit (pre suf : List Char)
    (hpre : ∀ c ∈ pre, c ≠ '\\') (hsuf : ∀ c ∈ suf, c ≠ '\\') :
    genSub (mBold (str "Colloids") false) (pre ++ str "\\textbf\x7bColloids\x7d" ++ suf) =
      pre ++ str "\\section\x7bColloids\x7d\n\\label\x7bsec:colloids\x7d" ++ suf := by
  unfold genSub
  rw [List.append_assoc,
    scanA_seg (mBold (str "Colloids") false) pre
      (fun c hc p r => mBold_headFail _ false p c r (hpre c hc)) [] _]
  rw [scanA_match_exact (mBold (str "Colloids") false) _
    (str "\\textbf\x7bColloids\x7d") suf
    (str "\\section\x7bColloids\x7d\n\\label\x7bsec:colloids\x7d") (by decide) rfl]
  rw [scanA_seg_end (mBold (str "Colloids") false) suf _
    (fun p c r hc => mBold_headFail _ false p c r hc) hsuf]
  simp

/-- C7 (amended): a bolded `Colloids` occurrence is promoted to
`\section{Colloids}` with anchor `sec:colloids` provided no other
promoted title's bolded span swallows it; the sufficient condition proved
here is that the surrounding text contains no backslash, so the occurrence
is the only bold markup in the buffer. -/
theorem C7_amended_promotion (pre suf : List Char)
    (hpre : ∀ c ∈ pre, c ≠ '\\') (hsuf : ∀ c ∈ suf, c ≠ '\\') :
    sectionPromote (pre ++ str "\\textbf\x7bColloids\x7d" ++ suf) =
      pre ++ str "\\section\x7bColloids\x7d\n\\label\x7bsec:colloids\x7d" ++ suf := by
  unfold sectionPromote SECTION_PATTERNS
  simp only [List.foldl_cons, List.foldl_nil]
  rw [genSub_skip_colloids (mBold (str "Developing Circular Economies") false)
    pre suf (mBold_headFail _ false) hpre hsuf (fun p => rfl)]
  rw [genSub_skip_colloids (mBold (str "Meeting Global Demand and Feedstock Diversification") false)
    pre suf (mBold_headFail _ false) hpre hsuf (fun p => rfl)]
  rw [genSub_skip_colloids (mBold (str "Emerging Technological Interest") false)
    pre suf (mBold_headFail _ false) hpre hsuf (fun p => rfl)]
  rw [genSub_skip_colloids (mBold (str "Problem Statement and Research Motivation") false)
    pre suf (mBold_headFail _ false) hpre hsuf (fun p => rfl)]
  rw [genSub_skip_colloids (mBold (str "Research Objectives and Scope") false)
    pre suf (mBold_headFail _ false) hpre hsuf (fun p => rfl)]
  rw [genSub_skip_colloids (mBold (str "Molecular Structure and Colloidal Stabilization") false)
    pre suf (mBold_headFail _ false) hpre hsuf (fun p => rfl)]
  rw [genSub_colloids_hit pre suf hpre hsuf]
  rw [genSub_skip_promoted (mBold (str "The Theory of Natural Rubber Latex") false)
    pre suf (mBold_headFail _ false) hpre hsuf (fun p => rfl) (fun p => rfl)]
  rw [genSub_skip_promoted (mBold (str "Suspensions Rheology and Theoretical Models") false)
    pre suf (mBold_headFail _ false) hpre hsuf (fun p => rfl) (fun p => rfl)]
  rw [genSub_skip_promoted (mBold (str "Additive Manufacturing") false)
    pre suf (mBold_headFail _ false) hpre hsuf (fun p => rfl) (fun p => rfl)]
  rw [genSub_skip_promoted (mBold (str "Sourcing, Traceability, and Rationale") false)
    pre suf (mBold_headFail _ false) hpre hsuf (fun p => rfl) (fun p => rfl)]
  rw [genSub_skip_promoted (mBold (str "Spectroscopic and Analytical Reagents") false)
    pre suf (mBold_headFail _ false) hpre hsuf (fun p => rfl) (fun p => rfl)]
  rw [genSub_skip_promoted (mBold (str "Rheological Characterization") false)
    pre suf (mBold_headFail _ false) hpre hsuf (fun p => rfl) (fun p => rfl)]
  rw [genSub_skip_promoted (mBold (str "Nuclear Magnetic Resonance") false)
    pre suf (mBold_headFail _ false) hpre hsuf (fun p => rfl) (fun p => rfl)]
  rw [genSub_skip_promoted (mBold (str "Components and Protocols") false)
    pre suf (mBold_headFail _ false) hpre hsuf (fun p => rfl) (fun p => rfl)]
  rw [genSub_skip_promoted (mBold (str "Material Characterizations") false)
    pre suf (mBold_headFail _ false) hpre hsuf (fun p => rfl) (fun p => rfl)]
  rw [genSub_skip_promoted (mBold (str "Mechanical Characterizations") false)
    pre suf (mBold_headFail _ false) hpre hsuf (fun p => rfl) (fun p => rfl)]
  rw [genSub_skip_promoted (mBold (str "DLP 3D Printing") false)
    pre suf (mBold_headFail _ false) hpre hsuf (fun p => rfl) (fun p => rfl)]

/-- Witness for `C7_amended_promotion`. -/
theorem C7_amended_promotion_witness :
    (∀ c ∈ str "x ", c ≠ '\\') ∧
    sectionPromote (str "x " ++ str "\\textbf\x7bColloids\x7d" ++ str " y") =
      str "x " ++ str "\\section\x7bColloids\x7d\n\\label\x7bsec:colloids\x7d" ++ str " y" :=
  ⟨by decide, C7_amended_promotion (str "x ") (str " y") (by decide) (by decide)⟩

/-! ### Claim C1: amended -/

lemma inRegistry_cases {n : Nat} (h : inRegistry n = true) : n = 1 ∨ n = 2 ∨ n = 3 := by
  unfold inRegistry at h
  simp only [Bool.or_eq_true, decide_eq_true_eq] at h
  tauto

lemma chapFile_inj {a b : Nat} (ha : inRegistry a = true) (hb : inRegistry b = true)
    (h : (chapterConfig a).file = (chapterConfig b).file) : a = b := by
  rcases inRegistry_cases ha with rfl | rfl | rfl <;>
    rcases inRegistry_cases hb with rfl | rfl | rfl <;>
    simp_all [chapterConfig]

lemma file_ne_bak {a b : Nat} (ha : inRegistry a = true) (hb : inRegistry b = true) :
    (chapterConfig a).file ≠ bakName (chapterConfig b).file := by
  rcases inRegistry_cases ha with rfl | rfl | rfl <;>
    rcases inRegistry_cases hb with rfl | rfl | rfl <;>
    simp [chapterConfig, bakName]

lemma bak_inj_ne {a b : Nat} (ha : inRegistry a = true) (hb : inRegistry b = true)
    (hne : a ≠ b) :
    bakName (chapterConfig a).file ≠ bakName (chapterConfig b).file := by
  rcases inRegistry_cases ha with rfl | rfl | rfl <;>
    rcases inRegistry_cases hb with rfl | rfl | rfl <;>
    simp_all [chapterConfig, bakName]

lemma bak_ne_own_file {a : Nat} :
    bakName (chapterConfig a).file ≠ (chapterConfig a).file := by
  intro h
  unfold bakName at h
  have hlen := congrArg String.length h
  rw [String.length_append] at hlen
  have h4 : (".bak" : String).length = 4 := rfl
  omega

/-- Untouched names pass through the save loop. -/
lemma process_chapters_frame (t : String) :
    ∀ L (fs : FS) (name : String),
      (∀ p ∈ L, inRegistry p.1 = true →
        (chapterConfig p.1).file ≠ name ∧ bakName (chapterConfig p.1).file ≠ name) →
      process_chapters t L fs name = fs name := by
  intro L
  induction L with
  | nil => intro fs name _; rfl
  | cons hd rest ih =>
    obtain ⟨num, c⟩ := hd
    intro fs name h
    by_cases hreg : inRegistry num = true
    · obtain ⟨hf, hb⟩ := h (num, c) (by simp) hreg
      simp only [process_chapters, hreg, if_true]
      rw [ih _ name (fun p hp => h p (by simp [hp]))]
      cases hfs : fs (chapterConfig num).file with
      | none => simp [setFile, Ne.symm hf]
      | some old => simp [setFile, Ne.symm hf, Ne.symm hb]
    · simp only [Bool.not_eq_true] at hreg
      simp only [process_chapters, hreg, Bool.false_eq_true, if_false]
      exact ih _ name (fun p hp => h p (by simp [hp]))

/-- The value the save loop writes for a registry chapter (with no
duplicate chapter indices, as the splitter produces). -/
lemma process_chapters_written (t : String) (num : Nat) (c : List Char)
    (hreg : inRegistry num = true) :
    ∀ L (fs : FS), (num, c) ∈ L → (L.map Prod.fst).Nodup →
      process_chapters t L fs ((chapterConfig num).file) =
        some (create_chapter_file num c t) := by
  intro L
  induction L with
  | nil =>
    intro fs hmem _
    simp at hmem
  | cons hd rest ih =>
    obtain ⟨num', c'⟩ := hd
    intro fs hmem hnd
    simp only [List.map_cons, List.nodup_cons] at hnd
    rcases List.mem_cons.mp hmem with h1 | h2
    · injection h1 with he1 he2
      subst he1
      subst he2
      simp only [process_chapters, hreg, if_true]
      rw [process_chapters_frame t rest _ _ ?_]
      · simp [setFile]
      · intro p hp hpreg
        constructor
        · intro hfile
          have heq := chapFile_inj hpreg hreg hfile
          apply hnd.1
          rw [← heq]
          exact List.mem_map_of_mem Prod.fst hp
        · exact Ne.symm (file_ne_bak hreg hpreg)
    · have hne : num' ≠ num := by
        intro he
        subst he
        exact hnd.1 (List.mem_map_of_mem Prod.fst h2)
      by_cases hreg' : inRegistry num' = true
      · simp only [process_chapters, hreg', if_true]
        exact ih _ h2 hnd.2
      · simp only [Bool.not_eq_true] at hreg'
        simp only [process_chapters, hreg', Bool.false_eq_true, if_false]
        exact ih _ h2 hnd.2

/-- The backup the save loop leaves for a registry chapter: the file's
previous content if it existed, otherwise the old backup value. -/
lemma process_chapters_bak (t : String) (num : Nat) (c : List Char)
    (hreg : inRegistry num = true) :
    ∀ L (fs : FS), (num, c) ∈ L → (L.map Prod.fst).Nodup →
      process_chapters t L fs (bakName (chapterConfig num).file) =
        (match fs ((chapterConfig num).file) with
         | some old => some old
         | none => fs (bakName (chapterConfig num).file)) := by
  intro L
  induction L with
  | nil =>
    intro fs hmem _
    simp at hmem
  | cons hd rest ih =>
    obtain ⟨num', c'⟩ := hd
    intro fs hmem hnd
    simp only [List.map_cons, List.nodup_cons] at hnd
    rcases List.mem_cons.mp hmem with h1 | h2
    · injection h1 with he1 he2
      subst he1
      subst he2
      simp only [process_chapters, hreg, if_true]
      rw [process_chapters_frame t rest _ _ ?_]
      · cases hfs : fs ((chapterConfig num).file) with
        | none => simp [setFile, hfs, bak_ne_own_file]
        | some old => simp [setFile, hfs, bak_ne_own_file]
      · intro p hp hpreg
        constructor
        · exact file_ne_bak hpreg hreg
        · apply bak_inj_ne hpreg hreg
          intro he
          apply hnd.1
          rw [← he]
          exact List.mem_map_of_mem Prod.fst hp
    · have hne : num' ≠ num := by
        intro he
        subst he
        exact hnd.1 (List.mem_map_of_mem Prod.fst h2)
      by_cases hreg' : inRegistry num' = true
      · simp only [process_chapters, hreg', if_true]
        rw [ih _ h2 hnd.2]
        have hf1 : (chapterConfig num').file ≠ (chapterConfig num).file := by
          intro he
          exact hne (chapFile_inj hreg' hreg he)
        have hf2 : (chapterConfig num').file ≠ bakName (chapterConfig num).file :=
          file_ne_bak hreg' hreg
        have hf3 : bakName (chapterConfig num').file ≠ (chapterConfig num).file :=
          Ne.symm (file_ne_bak hreg hreg')
        have hf4 : bakName (chapterConfig num').file ≠ bakName (chapterConfig num).file :=
          bak_inj_ne hreg' hreg hne
        cases hfs : fs ((chapterConfig num').file) with
        | none => simp [setFile, Ne.symm hf1, Ne.symm hf2]
        | some old => simp [setFile, Ne.symm hf1, Ne.symm hf2, Ne.symm hf3, Ne.symm hf4]
      · simp only [Bool.not_eq_true] at hreg'
        simp only [process_chapters, hreg', Bool.false_eq_true, if_false]
        exact ih _ h2 hnd.2

/-- The splitter's chapter indices are duplicate-free. -/
lemma split_fst_nodup (x : List Char) :
    ((split_into_chapters x).map Prod.fst).Nodup := by
  unfold split_into_chapters
  cases hcs : chapterStarts x with
  | nil => simp
  | cons s rest =>
    rw [mkChapters_map_fst]
    apply List.nodup_range'
    simp

/-- C1 (amended): re-running the pipeline on identical converter output
rewrites each registry chapter file with the same content except for the
timestamp embedded in the header — byte-identical when the two runs
render the same timestamp — and the second run's `.bak` for each written
chapter equals the first run's output file. -/
theorem C1_amended_rerun (content : List Char) (t t' : String) (fs : FS)
    (num : Nat) (c : List Char)
    (hmem : (num, c) ∈ split_into_chapters (pipelineText content))
    (hreg : inRegistry num = true) :
    process_and_save content t' (process_and_save content t fs)
        (bakName (chapterConfig num).file) =
      process_and_save content t fs ((chapterConfig num).file) ∧
    (t' = t →
      process_and_save content t' (process_and_save content t fs)
          ((chapterConfig num).file) =
        process_and_save content t fs ((chapterConfig num).file)) := by
  have hnd := split_fst_nodup (pipelineText content)
  have h1 : process_and_save content t fs ((chapterConfig num).file) =
      some (create_chapter_file num c t) :=
    process_chapters_written t num c hreg _ fs hmem hnd
  constructor
  · unfold process_and_save at h1 ⊢
    rw [process_chapters_bak t' num c hreg _ _ hmem hnd, h1]
  · intro he
    subst he
    have h2 : process_and_save content t' (process_and_save content t' fs)
        ((chapterConfig num).file) = some (create_chapter_file num c t') :=
      process_chapters_written t' num c hreg _ _ hmem hnd
    rw [h2, h1]

/-! ### Claim C3: amended -/

lemma dropLitCI_head_ne {p c : Char} {ps cs : List Char} (h : lowC c ≠ lowC p) :
    dropLitCI (p :: ps) (c :: cs) = none := by
  simp only [dropLitCI]
  rw [if_neg h]

lemma dropLitCI_self : ∀ (pat z : List Char), dropLitCI pat (pat ++ z) = some z := by
  intro pat
  induction pat with
  | nil => intro z; rfl
  | cons p ps ih =>
    intro z
    simp only [List.cons_append, dropLitCI, if_pos rfl]
    exact ih z

lemma dropLit_self : ∀ (pat z : List Char), dropLit pat (pat ++ z) = some z := by
  intro pat
  induction pat with
  | nil => intro z; rfl
  | cons p ps ih =>
    intro z
    simp only [List.cons_append, dropLit, if_pos rfl]
    exact ih z

lemma dropLitCI_parts : ∀ (pat l r : List Char), dropLitCI pat l = some r → ∃ a, l = a ++ r := by
  intro pat
  induction pat with
  | nil =>
    intro l r h
    simp only [dropLitCI, Option.some.injEq] at h
    exact ⟨[], by simp [h]⟩
  | cons p ps ih =>
    intro l r h
    cases l with
    | nil => simp [dropLitCI] at h
    | cons c cs =>
      simp only [dropLitCI] at h
      split at h
      · obtain ⟨a, ha⟩ := ih cs r h
        exact ⟨c :: a, by simp [ha]⟩
      · exact absurd h (by simp)

lemma dropLitCI_cons_head {p : Char} {ps l r : List Char}
    (h : dropLitCI (p :: ps) l = some r) : ∃ x xs, l = x :: xs ∧ lowC x = lowC p := by
  cases l with
  | nil => simp [dropLitCI] at h
  | cons x xs =>
    simp only [dropLitCI] at h
    split at h
    · rename_i hc
      exact ⟨x, xs, rfl, hc⟩
    · exact absurd h (by simp)

/-- Any first-pass acronym match contains an opening parenthesis. -/
lemma mFull_has_paren (s f p r : List Char) (x : Nat × List Char)
    (h : mFull s f p r = some x) : '(' ∈ r := by
  unfold mFull at h
  split at h
  · simp at h
  · rename_i r1 h1
    split at h
    · simp at h
    · rename_i r2 h2
      obtain ⟨x1, xs, hx, hlow⟩ := dropLitCI_cons_head h2
      have hp : lowC '(' = '(' := by decide
      rw [hp] at hlow
      have hx1 : x1 = '(' := by
        rcases lowC_range x1 with hfix | ⟨ha, hb⟩
        · rw [← hfix]; exact hlow
        · exfalso
          rw [hlow] at ha
          have : ('(' : Char).toNat = 40 := by decide
          omega
      subst hx1
      obtain ⟨a, ha⟩ := dropLitCI_parts f r r1 h1
      have hmem1 : '(' ∈ r1.drop (wsLen r1) := by rw [hx]; simp
      have hmem2 : '(' ∈ r1 := List.drop_subset _ _ hmem1
      rw [ha]
      exact List.mem_append_right a hmem2

/-- First-pass matches need an opening parenthesis somewhere, so without
one the search fails. -/
lemma search_mFull_no_paren (s f : List Char) (z : List Char) (h : '(' ∉ z) :
    search (mFull s f) z = false := by
  unfold search
  apply searchAux_false
  · intro l₁ c l₂ he
    cases hm : mFull s f (l₁.reverse ++ []) (c :: l₂) with
    | none => rfl
    | some x =>
      exfalso
      have := mFull_has_paren _ _ _ _ _ hm
      apply h
      rw [he]
      exact List.mem_append_right l₁ this
  · cases hf : f with
    | nil =>
      unfold mFull
      simp [dropLitCI]
    | cons a as =>
      unfold mFull
      simp [dropLitCI]

/-- An acronym-loop iteration is the identity on paren-free text. -/
lemma acronymStep_id (z : List Char) (e : String × String) (h : '(' ∉ z) :
    acronymStep z e = z := by
  unfold acronymStep
  dsimp only
  rw [search_mFull_no_paren (str e.1) (str e.2) z h]
  simp

lemma foldl_acronymStep_id (es : List (String × String)) (z : List Char) (h : '(' ∉ z) :
    es.foldl acronymStep z = z := by
  induction es with
  | nil => rfl
  | cons e es ih =>
    rw [List.foldl_cons, acronymStep_id z e h]
    exact ih

/-- The first pass cannot start anywhere but at an `n`/`N`. -/
lemma mFull_nrl_headFail (p r : List Char) (c : Char) (hc : lowC c ≠ 'n') :
    mFull (str "NRL") (str "Natural Rubber Latex") p (c :: r) = none := by
  unfold mFull
  rw [show (str "Natural Rubber Latex" : List Char) = 'N' :: str "atural Rubber Latex" from rfl]
  rw [dropLitCI_head_ne (by rw [show lowC 'N' = 'n' from by decide]; exact hc)]

/-- The standalone pass cannot start anywhere but at a capital `N`. -/
lemma mStand_nrl_headFail (p r : List Char) (c : Char) (hc : c ≠ 'N') :
    mStand (str "NRL") p (c :: r) = none := by
  unfold mStand
  rw [if_neg (by decide)]
  have hfail : dropLit (str "NRL") (c :: r) = none := by
    rw [show (str "NRL" : List Char) = 'N' :: str "RL" from rfl]
    simp only [dropLit]
    rw [if_neg hc]
  rw [hfail]

/-- Inside an already-written `\ac{`, the lookbehind blocks the standalone
pass whatever follows. -/
lemma mStand_nrl_lookbehind (p rest : List Char) :
    mStand (str "NRL") ('\x7b' :: 'c' :: 'a' :: '\\' :: p) rest = none := by
  unfold mStand
  rw [if_neg (by decide)]
  cases h : dropLit (str "NRL") rest with
  | none => rfl
  | some r =>
    dsimp only
    rw [if_pos (by simp)]

/-- The standalone pass fires on a bare `NRL` with benign context. -/
lemma mStand_nrl_hit (prev suf : List Char)
    (h1 : prev.take 4 ≠ ['\x7b', 'c', 'a', '\\'])
    (h2 : headLetter prev = false)
    (h3 : headLetterBr suf = false) :
    mStand (str "NRL") prev (str "NRL" ++ suf) = some (3, acRep (str "NRL")) := by
  unfold mStand
  rw [if_neg (by decide)]
  rw [dropLit_self (str "NRL") suf]
  dsimp only
  rw [if_neg h1, if_neg (by simp [h2]), if_neg (by simp [h3])]
  rfl

/-- A letter-free character list blocks `headLetter`. -/
lemma headLetter_false (l : List Char) (h : ∀ c ∈ l, isAsciiLetter c = false) :
    headLetter l = false := by
  cases l with
  | nil => rfl
  | cons c cs => exact h c (by simp)

/-- Rules that fail on every character of a segment leave it unchanged. -/
lemma scanA_seg_id (M : Rule) (seg : List Char) (prev : List Char)
    (hseg : ∀ c ∈ seg, ∀ p r, M p (c :: r) = none) :
    scanA M prev 0 seg = seg := by
  have h := scanA_seg M seg hseg prev []
  rw [show scanA M (seg.reverse ++ prev) 0 ([] : List Char) = [] from rfl] at h
  simpa using h

lemma lowC_ne_n_of_not_letter (c : Char) (h : isAsciiLetter c = false) :
    lowC c ≠ 'n' := by
  have h2 := lowC_ne_of_not_letter c 'N' h (by decide)
  rwa [show lowC 'N' = 'n' from by decide] at h2

lemma ne_N_of_not_letter (c : Char) (h : isAsciiLetter c = false) : c ≠ 'N' := by
  intro he
  subst he
  simp [isAsciiLetter] at h

/-- `headLetter` through a letter-free block. -/
lemma headLetter_append_false (l X : List Char)
    (hl : ∀ c ∈ l, isAsciiLetter c = false) (hX : headLetter X = false) :
    headLetter (l.reverse ++ X) = false := by
  cases hrev : l.reverse with
  | nil => simpa [hrev]
  | cons c cs =>
    have hc : c ∈ l := by
      rw [← List.mem_reverse, hrev]
      simp
    simp only [List.cons_append, headLetter]
    exact hl c hc

/-- `headLetterBr` through a letter-free, brace-free block. -/
lemma headLetterBr_append_false (l X : List Char)
    (hl : ∀ c ∈ l, isAsciiLetter c = false ∧ c ≠ '\x7d') (hX : headLetterBr X = false) :
    headLetterBr (l ++ X) = false := by
  cases l with
  | nil => simpa
  | cons c cs =>
    obtain ⟨h1, h2⟩ := hl c (by simp)
    simp [headLetterBr, h1, h2]

/-- The `\ac{` lookbehind window cannot appear after a letter-free block
followed by the tail of a written `\ac{NRL}`. -/
lemma take4_ne_bad (l rest : List Char) (hl : ∀ c ∈ l, isAsciiLetter c = false) :
    (l.reverse ++ ('\x7d' :: 'L' :: 'R' :: 'N' :: rest)).take 4 ≠
      ['\x7b', 'c', 'a', '\\'] := by
  cases hrev : l.reverse with
  | nil => simp [hrev]
  | cons c1 cs1 =>
    have hc1 : c1 ∈ l := by
      rw [← List.mem_reverse, hrev]
      simp
    cases cs1 with
    | nil => simp
    | cons c2 cs2 =>
      have hc2 : c2 ∈ l := by
        rw [← List.mem_reverse, hrev]
        simp
      cases cs2 with
      | nil => simp
      | cons c3 cs3 =>
        intro h
        simp only [List.cons_append, List.take_succ_cons, List.cons.injEq] at h
        have : c2 = 'c' := h.2.1
        subst this
        have := hl _ hc2
        simp [isAsciiLetter] at this

/-- The `\ac{` lookbehind window cannot appear in the reverse of a
letter-free block. -/
lemma take4_ne_bad' (l : List Char) (hl : ∀ c ∈ l, isAsciiLetter c = false) :
    l.reverse.take 4 ≠ ['\x7b', 'c', 'a', '\\'] := by
  cases hrev : l.reverse with
  | nil => simp
  | cons c1 cs1 =>
    cases cs1 with
    | nil => simp
    | cons c2 cs2 =>
      have hc2 : c2 ∈ l := by
        rw [← List.mem_reverse, hrev]
        simp
      intro h
      simp only [List.take_succ_cons, List.cons.injEq] at h
      have : c2 = 'c' := h.2.1
      subst this
      have := hl _ hc2
      simp [isAsciiLetter] at this

/-- The first acronym pass fires on the full form wherever it stands. -/
lemma mFull_at_F (p z : List Char) :
    mFull (str "NRL") (str "Natural Rubber Latex") p
      (str "Natural Rubber Latex (NRL)" ++ z) = some (26, acRep (str "NRL")) := rfl

/-- The first acronym pass fails at a bare `NRL` token. -/
lemma mFull_fail_NRL (p z : List Char) :
    mFull (str "NRL") (str "Natural Rubber Latex") p ('N' :: 'R' :: 'L' :: z) = none := rfl

lemma headLetterBr_false (l : List Char)
    (hl : ∀ c ∈ l, isAsciiLetter c = false ∧ c ≠ '\x7d') : headLetterBr l = false := by
  cases l with
  | nil => rfl
  | cons c cs =>
    obtain ⟨h1, h2⟩ := hl c (by simp)
    simp [headLetterBr, h1, h2]

/-- First pass, full form before the bare token: only the full form is
rewritten. -/
lemma genSub_mFull_full_first (pre mid suf : List Char)
    (hpre : ∀ c ∈ pre, isAsciiLetter c = false)
    (hmid : ∀ c ∈ mid, isAsciiLetter c = false)
    (hsuf : ∀ c ∈ suf, isAsciiLetter c = false) :
    genSub (mFull (str "NRL") (str "Natural Rubber Latex"))
      (pre ++ (str "Natural Rubber Latex (NRL)" ++ (mid ++ (str "NRL" ++ suf)))) =
      pre ++ (acRep (str "NRL") ++ (mid ++ (str "NRL" ++ suf))) := by
  have hfailL : ∀ c, isAsciiLetter c = false →
      ∀ p r, mFull (str "NRL") (str "Natural Rubber Latex") p (c :: r) = none :=
    fun c hc p r => mFull_nrl_headFail p r c (lowC_ne_n_of_not_letter c hc)
  unfold genSub
  rw [scanA_seg _ pre (fun c hc p r => hfailL c (hpre c hc) p r) [] _]
  rw [scanA_match_exact _ _ (str "Natural Rubber Latex (NRL)") _ (acRep (str "NRL"))
    (by decide) (mFull_at_F _ _)]
  rw [scanA_seg _ mid (fun c hc p r => hfailL c (hmid c hc) p r) _ _]
  rw [show (str "NRL" ++ suf : List Char) = 'N' :: 'R' :: 'L' :: suf from rfl]
  rw [scanA_nomatch_cons _ _ 'N' _ (mFull_fail_NRL _ _)]
  rw [scanA_nomatch_cons _ _ 'R' _ (mFull_nrl_headFail _ _ 'R' (by decide))]
  rw [scanA_nomatch_cons _ _ 'L' _ (mFull_nrl_headFail _ _ 'L' (by decide))]
  rw [scanA_seg_id _ suf _ (fun c hc p r => hfailL c (hsuf c hc) p r)]

/-- First pass, bare token before the full form: the bare token survives. -/
lemma genSub_mFull_bare_first (pre mid suf : List Char)
    (hpre : ∀ c ∈ pre, isAsciiLetter c = false)
    (hmid : ∀ c ∈ mid, isAsciiLetter c = false)
    (hsuf : ∀ c ∈ suf, isAsciiLetter c = false) :
    genSub (mFull (str "NRL") (str "Natural Rubber Latex"))
      (pre ++ (str "NRL" ++ (mid ++ (str "Natural Rubber Latex (NRL)" ++ suf)))) =
      pre ++ (str "NRL" ++ (mid ++ (acRep (str "NRL") ++ suf))) := by
  have hfailL : ∀ c, isAsciiLetter c = false →
      ∀ p r, mFull (str "NRL") (str "Natural Rubber Latex") p (c :: r) = none :=
    fun c hc p r => mFull_nrl_headFail p r c (lowC_ne_n_of_not_letter c hc)
  unfold genSub
  rw [scanA_seg _ pre (fun c hc p r => hfailL c (hpre c hc) p r) [] _]
  rw [show (str "NRL" ++ (mid ++ (str "Natural Rubber Latex (NRL)" ++ suf)) : List Char) =
    'N' :: 'R' :: 'L' :: (mid ++ (str "Natural Rubber Latex (NRL)" ++ suf)) from rfl]
  rw [scanA_nomatch_cons _ _ 'N' _ (mFull_fail_NRL _ _)]
  rw [scanA_nomatch_cons _ _ 'R' _ (mFull_nrl_headFail _ _ 'R' (by decide))]
  rw [scanA_nomatch_cons _ _ 'L' _ (mFull_nrl_headFail _ _ 'L' (by decide))]
  rw [scanA_seg _ mid (fun c hc p r => hfailL c (hmid c hc) p r) _ _]
  rw [scanA_match_exact _ _ (str "Natural Rubber Latex (NRL)") _ (acRep (str "NRL"))
    (by decide) (mFull_at_F _ _)]
  rw [scanA_seg_id _ suf _ (fun c hc p r => hfailL c (hsuf c hc) p r)]
  rfl

/-- Second pass over `pre ++ \ac{NRL} ++ mid ++ NRL ++ suf`: the bare
token is folded; the written tag is protected by the lookbehind. -/
lemma genSub_mStand_after_full (pre mid suf : List Char)
    (hpre : ∀ c ∈ pre, isAsciiLetter c = false)
    (hmid : ∀ c ∈ mid, isAsciiLetter c = false ∧ c ≠ '\x7d')
    (hsuf : ∀ c ∈ suf, isAsciiLetter c = false ∧ c ≠ '\x7d') :
    genSub (mStand (str "NRL"))
      (pre ++ (acRep (str "NRL") ++ (mid ++ (str "NRL" ++ suf)))) =
      pre ++ (acRep (str "NRL") ++ (mid ++ (acRep (str "NRL") ++ suf))) := by
  have hfailN : ∀ c, c ≠ 'N' → ∀ p r, mStand (str "NRL") p (c :: r) = none :=
    fun c hc p r => mStand_nrl_headFail p r c hc
  unfold genSub
  rw [scanA_seg _ pre
    (fun c hc p r => hfailN c (ne_N_of_not_letter c (hpre c hc)) p r) [] _]
  rw [show (acRep (str "NRL") ++ (mid ++ (str "NRL" ++ suf)) : List Char) =
    ['\\', 'a', 'c', '\x7b'] ++
      ('N' :: (['R', 'L', '\x7d'] ++ (mid ++ (str "NRL" ++ suf)))) from rfl]
  rw [scanA_seg _ ['\\', 'a', 'c', '\x7b']
    (fun c hc p r => hfailN c (fun heq => by subst heq; exact absurd hc (by decide)) p r) _ _]
  rw [show (['\\', 'a', 'c', '\x7b'] : List Char).reverse ++ (pre.reverse ++ []) =
    '\x7b' :: 'c' :: 'a' :: '\\' :: (pre.reverse ++ []) from rfl]
  rw [scanA_nomatch_cons _ _ 'N' _ (mStand_nrl_lookbehind _ _)]
  rw [scanA_seg _ ['R', 'L', '\x7d']
    (fun c hc p r => hfailN c (fun heq => by subst heq; exact absurd hc (by decide)) p r) _ _]
  rw [scanA_seg _ mid
    (fun c hc p r => hfailN c (ne_N_of_not_letter c (hmid c hc).1) p r) _ _]
  rw [scanA_match_exact _ _ (str "NRL") suf (acRep (str "NRL")) (by decide)
    (mStand_nrl_hit _ suf
      (by
        rw [show (['R', 'L', '\x7d'] : List Char).reverse ++
          ('N' :: ('\x7b' :: 'c' :: 'a' :: '\\' :: (pre.reverse ++ []))) =
          '\x7d' :: 'L' :: 'R' :: 'N' :: ('\x7b' :: 'c' :: 'a' :: '\\' :: (pre.reverse ++ []))
          from rfl]
        exact take4_ne_bad mid _ (fun c hc => (hmid c hc).1))
      (by
        rw [show (['R', 'L', '\x7d'] : List Char).reverse ++
          ('N' :: ('\x7b' :: 'c' :: 'a' :: '\\' :: (pre.reverse ++ []))) =
          '\x7d' :: 'L' :: 'R' :: 'N' :: ('\x7b' :: 'c' :: 'a' :: '\\' :: (pre.reverse ++ []))
          from rfl]
        exact headLetter_append_false mid _ (fun c hc => (hmid c hc).1) rfl)
      (headLetterBr_false suf hsuf))]
  rw [scanA_seg_id _ suf _
    (fun c hc p r => hfailN c (ne_N_of_not_letter c (hsuf c hc).1) p r)]
  rfl

/-- Second pass over `pre ++ NRL ++ mid ++ \ac{NRL} ++ suf`: the earlier
bare token is folded too. -/
lemma genSub_mStand_before_full (pre mid suf : List Char)
    (hpre : ∀ c ∈ pre, isAsciiLetter c = false)
    (hmid : ∀ c ∈ mid, isAsciiLetter c = false ∧ c ≠ '\x7d')
    (hsuf : ∀ c ∈ suf, isAsciiLetter c = false ∧ c ≠ '\x7d') :
    genSub (mStand (str "NRL"))
      (pre ++ (str "NRL" ++ (mid ++ (acRep (str "NRL") ++ suf)))) =
      pre ++ (acRep (str "NRL") ++ (mid ++ (acRep (str "NRL") ++ suf))) := by
  have hfailN : ∀ c, c ≠ 'N' → ∀ p r, mStand (str "NRL") p (c :: r) = none :=
    fun c hc p r => mStand_nrl_headFail p r c hc
  unfold genSub
  rw [scanA_seg _ pre
    (fun c hc p r => hfailN c (ne_N_of_not_letter c (hpre c hc)) p r) [] _]
  rw [List.append_nil pre.reverse]
  rw [scanA_match_exact _ _ (str "NRL") (mid ++ (acRep (str "NRL") ++ suf))
    (acRep (str "NRL")) (by decide)
    (mStand_nrl_hit _ _
      (take4_ne_bad' pre hpre)
      (by
        have h := headLetter_append_false pre [] hpre rfl
        simpa using h)
      (headLetterBr_append_false mid _ hmid rfl))]
  rw [scanA_seg _ mid
    (fun c hc p r => hfailN c (ne_N_of_not_letter c (hmid c hc).1) p r) _ _]
  rw [show (acRep (str "NRL") ++ suf : List Char) =
    ['\\', 'a', 'c', '\x7b'] ++ ('N' :: (['R', 'L', '\x7d'] ++ suf)) from rfl]
  rw [scanA_seg _ ['\\', 'a', 'c', '\x7b']
    (fun c hc p r => hfailN c (fun heq => by subst heq; exact absurd hc (by decide)) p r) _ _]
  rw [show ∀ (t : List Char), (['\\', 'a', 'c', '\x7b'] : List Char).reverse ++ t =
    '\x7b' :: 'c' :: 'a' :: '\\' :: t from fun t => rfl]
  rw [scanA_nomatch_cons _ _ 'N' _ (mStand_nrl_lookbehind _ _)]
  rw [scanA_seg _ ['R', 'L', '\x7d']
    (fun c hc p r => hfailN c (fun heq => by subst heq; exact absurd hc (by decide)) p r) _ _]
  rw [scanA_seg_id _ suf _
    (fun c hc p r => hfailN c (ne_N_of_not_letter c (hsuf c hc).1) p r)]

/-- The lookbehind at the written tag: the `(` is absent from the folded
output, so every remaining acronym-table iteration is the identity. -/
lemma paren_not_mem_target (pre mid suf : List Char)
    (hpre : ∀ c ∈ pre, c ≠ '(') (hmid : ∀ c ∈ mid, c ≠ '(') (hsuf : ∀ c ∈ suf, c ≠ '(') :
    '(' ∉ pre ++ (acRep (str "NRL") ++ (mid ++ (acRep (str "NRL") ++ suf))) := by
  intro hmem
  simp only [List.mem_append] at hmem
  rcases hmem with h | h | h | h | h
  · exact hpre '(' h rfl
  · exact absurd h (by decide)
  · exact hmid '(' h rfl
  · exact absurd h (by decide)
  · exact hsuf '(' h rfl

/-- C3 (amended): the introduction test is a global search and the
standalone pass a global substitution, so once the full form
`Natural Rubber Latex (NRL)` occurs anywhere, the full form *and* every
bare word-boundary-delimited `NRL` token — before or after it — are
replaced by `\ac{NRL}`.  The surrounding text here is letter-free (so no
other token or table entry can match), paren-free (so the remaining table
iterations are identities) and brace-free (so the token's lookahead
passes). -/
theorem C3_amended_global_fold (pre mid suf : List Char)
    (hpre : ∀ c ∈ pre, isAsciiLetter c = false ∧ c ≠ '(' ∧ c ≠ '\x7d')
    (hmid : ∀ c ∈ mid, isAsciiLetter c = false ∧ c ≠ '(' ∧ c ≠ '\x7d')
    (hsuf : ∀ c ∈ suf, isAsciiLetter c = false ∧ c ≠ '(' ∧ c ≠ '\x7d') :
    replace_acronyms
        (pre ++ (str "NRL" ++ (mid ++ (str "Natural Rubber Latex (NRL)" ++ suf)))) =
      pre ++ (acRep (str "NRL") ++ (mid ++ (acRep (str "NRL") ++ suf))) ∧
    replace_acronyms
        (pre ++ (str "Natural Rubber Latex (NRL)" ++ (mid ++ (str "NRL" ++ suf)))) =
      pre ++ (acRep (str "NRL") ++ (mid ++ (acRep (str "NRL") ++ suf))) := by
  have hparen := paren_not_mem_target pre mid suf
    (fun c hc => (hpre c hc).2.1) (fun c hc => (hmid c hc).2.1) (fun c hc => (hsuf c hc).2.1)
  constructor
  · unfold replace_acronyms ACRONYMS
    rw [List.foldl_cons]
    have hstep : acronymStep
        (pre ++ (str "NRL" ++ (mid ++ (str "Natural Rubber Latex (NRL)" ++ suf))))
        ("NRL", "Natural Rubber Latex") =
        pre ++ (acRep (str "NRL") ++ (mid ++ (acRep (str "NRL") ++ suf))) := by
      unfold acronymStep
      dsimp only
      have hsearch : search (mFull (str "NRL") (str "Natural Rubber Latex"))
          (pre ++ (str "NRL" ++ (mid ++ (str "Natural Rubber Latex (NRL)" ++ suf)))) = true := by
        unfold search
        rw [show pre ++ (str "NRL" ++ (mid ++ (str "Natural Rubber Latex (NRL)" ++ suf))) =
          (pre ++ (str "NRL" ++ mid)) ++ (str "Natural Rubber Latex (NRL)" ++ suf) by
            simp [List.append_assoc]]
        apply searchAux_true_of
        rw [mFull_at_F]
        rfl
      rw [hsearch, if_pos rfl]
      rw [genSub_mFull_bare_first pre mid suf
        (fun c hc => (hpre c hc).1) (fun c hc => (hmid c hc).1) (fun c hc => (hsuf c hc).1)]
      exact genSub_mStand_before_full pre mid suf
        (fun c hc => (hpre c hc).1)
        (fun c hc => ⟨(hmid c hc).1, (hmid c hc).2.2⟩)
        (fun c hc => ⟨(hsuf c hc).1, (hsuf c hc).2.2⟩)
    rw [hstep]
    exact foldl_acronymStep_id _ _ hparen
  · unfold replace_acronyms ACRONYMS
    rw [List.foldl_cons]
    have hstep : acronymStep
        (pre ++ (str "Natural Rubber Latex (NRL)" ++ (mid ++ (str "NRL" ++ suf))))
        ("NRL", "Natural Rubber Latex") =
        pre ++ (acRep (str "NRL") ++ (mid ++ (acRep (str "NRL") ++ suf))) := by
      unfold acronymStep
      dsimp only
      have hsearch : search (mFull (str "NRL") (str "Natural Rubber Latex"))
          (pre ++ (str "Natural Rubber Latex (NRL)" ++ (mid ++ (str "NRL" ++ suf)))) = true := by
        unfold search
        rw [show pre ++ (str "Natural Rubber Latex (NRL)" ++ (mid ++ (str "NRL" ++ suf))) =
          pre ++ (str "Natural Rubber Latex (NRL)" ++ (mid ++ (str "NRL" ++ suf))) from rfl]
        apply searchAux_true_of
        rw [mFull_at_F]
        rfl
      rw [hsearch, if_pos rfl]
      rw [genSub_mFull_full_first pre mid suf
        (fun c hc => (hpre c hc).1) (fun c hc => (hmid c hc).1) (fun c hc => (hsuf c hc).1)]
      exact genSub_mStand_after_full pre mid suf
        (fun c hc => (hpre c hc).1)
        (fun c hc => ⟨(hmid c hc).1, (hmid c hc).2.2⟩)
        (fun c hc => ⟨(hsuf c hc).1, (hsuf c hc).2.2⟩)
    rw [hstep]
    exact foldl_acronymStep_id _ _ hparen

/-- Witness for `C3_amended_global_fold`. -/
theorem C3_amended_global_fold_witness :
    (∀ c ∈ str "# ", isAsciiLetter c = false ∧ c ≠ '(' ∧ c ≠ '\x7d') ∧
    replace_acronyms
        (str "# " ++ (str "NRL" ++ (str " + " ++ (str "Natural Rubber Latex (NRL)" ++ str " #")))) =
      str "# " ++ (acRep (str "NRL") ++ (str " + " ++ (acRep (str "NRL") ++ str " #"))) :=
  ⟨by decide,
    (C3_amended_global_fold (str "# ") (str " + ") (str " #")
      (by decide) (by decide) (by decide)).1⟩
theorem C1_amended_rerun_witness :
    (1, str "\\chapter\x7bA\x7d") ∈ split_into_chapters (pipelineText (str "\\chapter\x7bA\x7d")) ∧
    inRegistry 1 = true ∧
    process_and_save (str "\\chapter\x7bA\x7d") "T3"
        (process_and_save (str "\\chapter\x7bA\x7d") "T3" emptyFS)
        ((chapterConfig 1).file) =
      process_and_save (str "\\chapter\x7bA\x7d") "T3" emptyFS ((chapterConfig 1).file) :=
  ⟨by decide, by decide,
    (C1_amended_rerun (str "\\chapter\x7bA\x7d") "T3" "T3" emptyFS 1 (str "\\chapter\x7bA\x7d")
      (by decide) (by decide)).2 rfl⟩


/-! ### Claim C4 (amended): scanner-invariant machinery -/

lemma headP_eq_headWord : ∀ l, headP isWordChar l = headWord l
  | [] => rfl
  | _ :: _ => rfl

lemma lastW_cons (c : Char) (l : List Char) (b : Bool) :
    lastW (c :: l) b = lastW l (isWordChar c) := by
  cases l with
  | nil => rfl
  | cons x xs =>
    unfold lastW
    rw [List.getLast?_cons_cons]
    cases hg : (x :: xs).getLast? with
    | none => exact absurd hg (by simp)
    | some y => rfl

lemma lastIs_cons (c₀ c : Char) (l : List Char) (b : Bool) :
    lastIs c₀ (c :: l) b = lastIs c₀ l (decide (c = c₀)) := by
  cases l with
  | nil => rfl
  | cons x xs =>
    unfold lastIs
    rw [List.getLast?_cons_cons]
    cases hg : (x :: xs).getLast? with
    | none => exact absurd hg (by simp)
    | some y => rfl

lemma lastW_eq_rev (u : List Char) : lastW u false = headP isWordChar u.reverse := by
  unfold lastW
  rw [← List.head?_reverse]
  cases u.reverse with
  | nil => rfl
  | cons c cs => rfl

lemma lastIs_eq_rev (c₀ : Char) (u : List Char) :
    lastIs c₀ u false = true ↔ u.reverse.head? = some c₀ := by
  unfold lastIs
  rw [← List.head?_reverse]
  cases u.reverse with
  | nil => simp
  | cons c cs => simp

lemma startsList_append_self (q t : List Char) : startsList q (q ++ t) = true := by
  rw [startsList_iff]
  exact ⟨t, rfl⟩

lemma startsList_append_cases :
    ∀ (s q t : List Char), startsList q (s ++ t) = true →
      startsList s q = true ∨ startsList q s = true := by
  intro s
  induction s with
  | nil => intro q t _; left; rfl
  | cons c s' ih =>
    intro q t h
    cases q with
    | nil => right; rfl
    | cons a q' =>
      rw [List.cons_append] at h
      simp only [startsList, Bool.and_eq_true, decide_eq_true_eq] at h ⊢
      obtain ⟨hac, h2⟩ := h
      rcases ih q' t h2 with h3 | h3
      · exact Or.inl ⟨hac.symm, h3⟩
      · exact Or.inr ⟨hac, h3⟩

lemma startsList_append_block (q s t : List Char)
    (h1 : startsList s q = false) (h2 : startsList q s = false) :
    startsList q (s ++ t) = false := by
  by_contra hq
  simp only [Bool.not_eq_false] at hq
  rcases startsList_append_cases s q t hq with h | h
  · exact absurd h (by rw [h1]; simp)
  · exact absurd h (by rw [h2]; simp)

lemma xyOk_block (L R : List Char) (h : xyOk L R = true) :
    ∀ s t, s ∈ R.tails → s ≠ [] → startsList L (s ++ t) = false := by
  intro s t hs hne
  have h2 := List.all_eq_true.mp h s hs
  simp only [Bool.or_eq_true, Bool.and_eq_true, Bool.not_eq_true',
    List.isEmpty_iff] at h2
  rcases h2 with h2 | ⟨h3, h4⟩
  · exact absurd h2 hne
  · exact startsList_append_block L s t h4 h3

lemma prefOk_block (L R : List Char) (h : prefOk L R = true) :
    ∀ c q, (c :: q) <:+ L → q ≠ [] → ∀ t, startsList q (R ++ t) = false := by
  intro c q hsuf hne t
  have hq : q <:+ L := (List.suffix_cons c q).trans hsuf
  have hmem : q ∈ L.tails := (List.mem_tails _ _).mpr hq
  have hlen : q.length < L.length := by
    have hl := hsuf.length_le
    simp only [List.length_cons] at hl
    omega
  have h2 := List.all_eq_true.mp h q hmem
  simp only [Bool.or_eq_true, Bool.and_eq_true, Bool.not_eq_true',
    List.isEmpty_iff, decide_eq_true_eq] at h2
  rcases h2 with (h2 | h2) | ⟨h3, h4⟩
  · exact absurd h2 hne
  · omega
  · exact startsList_append_block q R t h4 h3

lemma containsSub_cons_of (L : List Char) (c : Char) (rs : List Char)
    (h : containsSub L rs = true) : containsSub L (c :: rs) = true := by
  simp [containsSub, h]

lemma containsSub_drop (L : List Char) :
    ∀ (k : Nat) (l : List Char), containsSub L (l.drop k) = true →
      containsSub L l = true := by
  intro k
  induction k with
  | zero => intro l h; simpa using h
  | succ k ih =>
    intro l h
    cases l with
    | nil => simpa using h
    | cons c cs => exact containsSub_cons_of L c cs (ih cs h)

lemma containsSub_append_elim (L : List Char) :
    ∀ (a t : List Char), containsSub L (a ++ t) = true →
      (∃ s, s ∈ a.tails ∧ s ≠ [] ∧ startsList L (s ++ t) = true) ∨
        containsSub L t = true := by
  intro a
  induction a with
  | nil => intro t h; right; simpa using h
  | cons c a' ih =>
    intro t h
    rw [List.cons_append] at h
    simp only [containsSub, Bool.or_eq_true] at h
    rcases h with h | h
    · left
      exact ⟨c :: a', by simp [List.tails_cons], by simp, by simpa using h⟩
    · rcases ih t h with ⟨s, hs1, hs2, hs3⟩ | h2
      · left
        refine ⟨s, ?_, hs2, hs3⟩
        rw [List.tails_cons]
        exact List.mem_cons_of_mem _ hs1
      · right
        exact h2

lemma closeIdx_none_not_mem (c₀ : Char) :
    ∀ l, closeIdx c₀ l = none → c₀ ∉ l := by
  intro l
  induction l with
  | nil => intro _ h; simp at h
  | cons c cs ih =>
    intro h
    unfold closeIdx at h
    by_cases hc : c = c₀
    · rw [if_pos hc] at h; simp at h
    · rw [if_neg hc] at h
      intro hmem
      rcases List.mem_cons.mp hmem with he | hm
      · exact hc he.symm
      · exact ih (by cases hcl : closeIdx c₀ cs with
          | none => rfl
          | some j => rw [hcl] at h; simp at h) hm

lemma closeIdx_some_facts (c₀ : Char) :
    ∀ l j, closeIdx c₀ l = some j → c₀ ∈ l ∧ j < l.length := by
  intro l
  induction l with
  | nil => intro j h; simp [closeIdx] at h
  | cons c cs ih =>
    intro j h
    unfold closeIdx at h
    by_cases hc : c = c₀
    · rw [if_pos hc] at h
      simp only [Option.some.injEq] at h
      subst hc
      exact ⟨by simp, by simp [← h]⟩
    · rw [if_neg hc] at h
      cases hcl : closeIdx c₀ cs with
      | none => rw [hcl] at h; simp at h
      | some j' =>
        rw [hcl] at h
        simp only [Option.map_some', Option.some.injEq] at h
        obtain ⟨hm, hl⟩ := ih j' hcl
        exact ⟨List.mem_cons_of_mem _ hm, by simp [← h]; omega⟩

lemma wsLen_le : ∀ l, wsLen l ≤ l.length := by
  intro l
  induction l with
  | nil => simp [wsLen]
  | cons c cs ih =>
    unfold wsLen
    by_cases hc : isSpace c = true
    · rw [if_pos hc]; simp; omega
    · rw [if_neg hc]; simp
lemma headP_append_cons (f : Char → Bool) (c : Char) (cs t : List Char) :
    headP f ((c :: cs) ++ t) = f c := rfl

lemma litM_facts (pat rep : List Char) :
    ∀ p r n rp, litM pat rep p r = some (n, rp) →
      rp = rep ∧ n = pat.length ∧ 1 ≤ n ∧ n ≤ r.length ∧ ∃ r', r = pat ++ r' := by
  intro p r n rp h
  unfold litM at h
  cases pat with
  | nil => simp at h
  | cons a ps =>
    cases hd : dropLit (a :: ps) r with
    | none => rw [hd] at h; simp at h
    | some r' =>
      rw [hd] at h
      simp only [Option.some.injEq, Prod.mk.injEq] at h
      have hr : r = (a :: ps) ++ r' := (dropLit_eq_some _ _ _).mp hd
      refine ⟨h.2.symm, h.1.symm, ?_, ?_, ⟨r', hr⟩⟩
      · rw [← h.1]; simp
      · rw [← h.1, hr]; simp

lemma wbM_facts (pat rep : List Char) :
    ∀ p r n rp, wbM pat rep p r = some (n, rp) →
      rp = rep ∧ n = pat.length ∧ 1 ≤ n ∧ n ≤ r.length ∧ (∃ r', r = pat ++ r') ∧
        headWord p = false ∧ headWord (r.drop pat.length) = false := by
  intro p r n rp h
  unfold wbM at h
  cases pat with
  | nil => simp at h
  | cons a ps =>
    cases hd : dropLit (a :: ps) r with
    | none => rw [hd] at h; simp at h
    | some r' =>
      rw [hd] at h
      dsimp only at h
      by_cases hb : (headWord p || headWord r') = true
      · rw [if_pos hb] at h; simp at h
      · rw [if_neg hb] at h
        simp only [Bool.or_eq_true, not_or, Bool.not_eq_true] at hb
        simp only [Option.some.injEq, Prod.mk.injEq] at h
        have hr : r = (a :: ps) ++ r' := (dropLit_eq_some _ _ _).mp hd
        have hdrop : r.drop (a :: ps).length = r' := by rw [hr, List.drop_left]
        refine ⟨h.2.symm, h.1.symm, by rw [← h.1]; simp,
          by rw [← h.1, hr]; simp, ⟨r', hr⟩, hb.1, ?_⟩
        rw [hdrop]
        exact hb.2

lemma litM_headFail (pat rep : List Char) (p : List Char) (c : Char) (rs : List Char)
    (h : startsList pat (c :: rs) = false) : litM pat rep p (c :: rs) = none := by
  unfold litM
  cases pat with
  | nil => rfl
  | cons a ps =>
    cases hd : dropLit (a :: ps) (c :: rs) with
    | none => rfl
    | some r' =>
      exfalso
      have h2 : startsList (a :: ps) (c :: rs) = true :=
        (startsList_iff _ _).mpr ⟨r', (dropLit_eq_some _ _ _).mp hd⟩
      rw [h] at h2
      simp at h2

lemma wbM_headFail (pat rep : List Char) (p : List Char) (c : Char) (rs : List Char)
    (h : startsList pat (c :: rs) = false) : wbM pat rep p (c :: rs) = none := by
  unfold wbM
  cases pat with
  | nil => rfl
  | cons a ps =>
    cases hd : dropLit (a :: ps) (c :: rs) with
    | none => rfl
    | some r' =>
      exfalso
      have h2 : startsList (a :: ps) (c :: rs) = true :=
        (startsList_iff _ _).mpr ⟨r', (dropLit_eq_some _ _ _).mp hd⟩
      rw [h] at h2
      simp at h2

lemma mTilde1_facts :
    ∀ p r n rp, mTilde1 p r = some (n, rp) →
      rp = str "$\\sim$" ∧ 1 ≤ n ∧ n ≤ r.length ∧
        ∃ r', r = str "\\textasciitilde" ++ r' ∧
          n = (str "\\textasciitilde").length + wsLen r' := by
  intro p r n rp h
  unfold mTilde1 at h
  cases hd : dropLit (str "\\textasciitilde") r with
  | none => rw [hd] at h; simp at h
  | some r' =>
    rw [hd] at h
    simp only [Option.some.injEq, Prod.mk.injEq] at h
    have hr : r = str "\\textasciitilde" ++ r' := (dropLit_eq_some _ _ _).mp hd
    have hlen : (str "\\textasciitilde").length = 15 := by decide
    have hws := wsLen_le r'
    have hrlen : r.length = 15 + r'.length := by
      rw [hr, List.length_append, hlen]
    exact ⟨h.2.symm, by omega, by omega, ⟨r', hr, h.1.symm⟩⟩

lemma mTilde1_hit (p : List Char) (c : Char) (rs : List Char)
    (h : startsList (str "\\textasciitilde") (c :: rs) = true) :
    mTilde1 p (c :: rs) ≠ none := by
  obtain ⟨z, hz⟩ := (startsList_iff _ _).mp h
  unfold mTilde1
  rw [hz, dropLit_self]
  simp

lemma mTilde2_facts :
    ∀ p r n rp, mTilde2 p r = some (n, rp) →
      rp = str "$\\sim$" ∧ n = 1 ∧ ∃ d rs', r = '~' :: d :: rs' ∧ isDigitChar d = true := by
  intro p r n rp h
  unfold mTilde2 at h
  split at h
  · rename_i d rest
    split at h
    · rename_i hd
      simp only [Option.some.injEq, Prod.mk.injEq] at h
      exact ⟨h.2.symm, h.1.symm, d, rest, rfl, hd⟩
    · simp at h
  · simp at h

lemma mTilde2_headFail (p : List Char) (c : Char) (rs : List Char) (h : c ≠ '~') :
    mTilde2 p (c :: rs) = none := by
  unfold mTilde2
  split
  · rename_i d rest heq
    exact absurd (List.cons.inj heq).1 h
  · rfl

lemma mTilde2_none_tilde (p : List Char) (rs : List Char)
    (h : mTilde2 p ('~' :: rs) = none) : headP isDigitChar rs = false := by
  unfold mTilde2 at h
  split at h
  · rename_i d' rest heq
    have h2 := (List.cons.inj heq).2
    subst h2
    by_cases hd : isDigitChar d' = true
    · rw [if_pos hd] at h; simp at h
    · simpa using hd
  · rename_i hne
    cases rs with
    | nil => rfl
    | cons d rest => exact (hne d rest rfl).elim

lemma mQuote_facts :
    ∀ p r n rp, mQuote p r = some (n, rp) →
      rp = str "\x60\x60\\1\x27\x27" ∧ 1 ≤ n ∧ n ≤ r.length ∧
        ∃ rs j, r = '\x22' :: rs ∧ closeIdx '\x22' rs = some j ∧ n = j + 2 := by
  intro p r n rp h
  unfold mQuote at h
  split at h
  · rename_i rs
    cases hc : closeIdx '\x22' rs with
    | none => rw [hc] at h; simp at h
    | some j =>
      rw [hc] at h
      simp only [Option.map_some', Option.some.injEq, Prod.mk.injEq] at h
      obtain ⟨h1, h2⟩ := h
      have hj := (closeIdx_some_facts _ _ _ hc).2
      refine ⟨h2.symm, by omega, ?_, rs, j, rfl, hc, h1.symm⟩
      simp only [List.length_cons]
      omega
  · simp at h

lemma mQuote_headFail (p : List Char) (c : Char) (rs : List Char) (h : c ≠ '\x22') :
    mQuote p (c :: rs) = none := by
  unfold mQuote
  split
  · rename_i rs' heq
    exact absurd (List.cons.inj heq).1 h
  · rfl

lemma mQuote_none_quote (p : List Char) (rs : List Char)
    (h : mQuote p ('\x22' :: rs) = none) : closeIdx '\x22' rs = none := by
  unfold mQuote at h
  split at h
  · rename_i rest heq
    have h2 := (List.cons.inj heq).2
    subst h2
    cases hc : closeIdx '\x22' rs with
    | none => rfl
    | some j => rw [hc] at h; simp at h
  · rename_i hne
    exact (hne rs rfl).elim

lemma mPct_facts :
    ∀ p r n rp, mPct p r = some (n, rp) →
      rp = str "\\%" ∧ n = 1 ∧ (∃ rs, r = '%' :: rs) ∧ p.head? ≠ some '\\' := by
  intro p r n rp h
  unfold mPct at h
  split at h
  · rename_i rest
    by_cases hp : p.head? = some '\\'
    · rw [if_pos hp] at h; simp at h
    · rw [if_neg hp] at h
      simp only [Option.some.injEq, Prod.mk.injEq] at h
      exact ⟨h.2.symm, h.1.symm, ⟨rest, rfl⟩, hp⟩
  · simp at h

lemma mPct_headFail (p : List Char) (c : Char) (rs : List Char) (h : c ≠ '%') :
    mPct p (c :: rs) = none := by
  unfold mPct
  split
  · rename_i rest heq
    exact absurd (List.cons.inj heq).1 h
  · rfl

lemma mAmp_facts :
    ∀ p r n rp, mAmp p r = some (n, rp) →
      rp = str "\\&" ∧ n = 1 ∧
        ∃ rs, r = '&' :: rs ∧ p.head? ≠ some '\\' ∧ rs.head? ≠ some '\\' := by
  intro p r n rp h
  unfold mAmp at h
  split at h
  · rename_i rest
    by_cases hp : (p.head? = some '\\' || rest.head? = some '\\') = true
    · rw [if_pos hp] at h; simp at h
    · rw [if_neg hp] at h
      simp only [Bool.or_eq_true, not_or, decide_eq_true_eq] at hp
      simp only [Option.some.injEq, Prod.mk.injEq] at h
      exact ⟨h.2.symm, h.1.symm, ⟨rest, rfl, hp.1, hp.2⟩⟩
  · simp at h

lemma mAmp_headFail (p : List Char) (c : Char) (rs : List Char) (h : c ≠ '&') :
    mAmp p (c :: rs) = none := by
  unfold mAmp
  split
  · rename_i rest heq
    exact absurd (List.cons.inj heq).1 h
  · rfl

lemma mDegree_at (p : List Char) (rs : List Char) :
    mDegree p ('°' :: rs) = some (1, str "\\textdegree\x7b\x7d") := rfl

lemma mTimes_at (p : List Char) (rs : List Char) :
    mTimes p ('×' :: rs) = some (1, str "$\\times$") := rfl

lemma mEmdash_at (p : List Char) (rs : List Char) :
    mEmdash p ('—' :: rs) = some (1, ['-', '-', '-']) := rfl

lemma mEndash_at (p : List Char) (rs : List Char) :
    mEndash p ('–' :: rs) = some (1, ['-', '-']) := rfl

lemma scanA_pred (M : Rule) (P : Char → Prop)
    (hrep : ∀ p r n rp, M p r = some (n, rp) → ∀ c ∈ rp, P c) :
    ∀ (fuel : Nat) (rest prev : List Char) (skip : Nat), rest.length ≤ fuel →
      (∀ c ∈ rest, P c) → ∀ c ∈ scanA M prev skip rest, P c := by
  intro fuel
  induction fuel with
  | zero =>
    intro rest prev skip hf _ c hc
    have hnil : rest = [] := List.eq_nil_of_length_eq_zero (Nat.le_zero.mp hf)
    subst hnil
    simp [scanA] at hc
  | succ fuel ih =>
    intro rest prev skip hf hin c hc
    cases rest with
    | nil => simp [scanA] at hc
    | cons c0 rs =>
      have hf' : rs.length ≤ fuel := by
        simp only [List.length_cons] at hf
        omega
      have hin' : ∀ x ∈ rs, P x := fun x hx => hin x (by simp [hx])
      cases skip with
      | succ k =>
        rw [show scanA M prev (k + 1) (c0 :: rs) = scanA M (c0 :: prev) k rs from rfl] at hc
        exact ih rs (c0 :: prev) k hf' hin' c hc
      | zero =>
        cases hm : M prev (c0 :: rs) with
        | none =>
          rw [scanA_nomatch_cons M prev c0 rs hm] at hc
          rcases List.mem_cons.mp hc with he | hm2
          · exact he ▸ hin c0 (by simp)
          · exact ih rs (c0 :: prev) 0 hf' hin' c hm2
        | some x =>
          obtain ⟨n, rp⟩ := x
          rw [scanA_match M prev c0 rs rp n hm] at hc
          rcases List.mem_append.mp hc with h1 | h2
          · exact hrep prev (c0 :: rs) n rp hm c h1
          · exact ih rs (c0 :: prev) (n - 1) hf' hin' c h2

lemma scanA_out_pred (M : Rule) (P : Char → Prop)
    (hrep : ∀ p r n rp, M p r = some (n, rp) → ∀ c ∈ rp, P c)
    (hcopy : ∀ p c rs, M p (c :: rs) = none → P c) :
    ∀ (fuel : Nat) (rest prev : List Char) (skip : Nat), rest.length ≤ fuel →
      ∀ c ∈ scanA M prev skip rest, P c := by
  intro fuel
  induction fuel with
  | zero =>
    intro rest prev skip hf c hc
    have hnil : rest = [] := List.eq_nil_of_length_eq_zero (Nat.le_zero.mp hf)
    subst hnil
    simp [scanA] at hc
  | succ fuel ih =>
    intro rest prev skip hf c hc
    cases rest with
    | nil => simp [scanA] at hc
    | cons c0 rs =>
      have hf' : rs.length ≤ fuel := by
        simp only [List.length_cons] at hf
        omega
      cases skip with
      | succ k =>
        rw [show scanA M prev (k + 1) (c0 :: rs) = scanA M (c0 :: prev) k rs from rfl] at hc
        exact ih rs (c0 :: prev) k hf' c hc
      | zero =>
        cases hm : M prev (c0 :: rs) with
        | none =>
          rw [scanA_nomatch_cons M prev c0 rs hm] at hc
          rcases List.mem_cons.mp hc with he | hm2
          · exact he ▸ hcopy prev c0 rs hm
          · exact ih rs (c0 :: prev) 0 hf' c hm2
        | some x =>
          obtain ⟨n, rp⟩ := x
          rw [scanA_match M prev c0 rs rp n hm] at hc
          rcases List.mem_append.mp hc with h1 | h2
          · exact hrep prev (c0 :: rs) n rp hm c h1
          · exact ih rs (c0 :: prev) (n - 1) hf' c h2

lemma scanA_count_le (M : Rule) (c₀ : Char)
    (hrep : ∀ p r n rp, M p r = some (n, rp) → c₀ ∉ rp) :
    ∀ (fuel : Nat) (rest prev : List Char) (skip : Nat), rest.length ≤ fuel →
      (scanA M prev skip rest).count c₀ ≤ rest.count c₀ := by
  intro fuel
  induction fuel with
  | zero =>
    intro rest prev skip hf
    have hnil : rest = [] := List.eq_nil_of_length_eq_zero (Nat.le_zero.mp hf)
    subst hnil
    simp [scanA]
  | succ fuel ih =>
    intro rest prev skip hf
    cases rest with
    | nil => simp [scanA]
    | cons c0 rs =>
      have hf' : rs.length ≤ fuel := by
        simp only [List.length_cons] at hf
        omega
      cases skip with
      | succ k =>
        rw [show scanA M prev (k + 1) (c0 :: rs) = scanA M (c0 :: prev) k rs from rfl]
        have := ih rs (c0 :: prev) k hf'
        simp only [List.count_cons]
        omega
      | zero =>
        cases hm : M prev (c0 :: rs) with
        | none =>
          rw [scanA_nomatch_cons M prev c0 rs hm]
          have := ih rs (c0 :: prev) 0 hf'
          simp only [List.count_cons]
          omega
        | some x =>
          obtain ⟨n, rp⟩ := x
          rw [scanA_match M prev c0 rs rp n hm]
          have h1 := ih rs (c0 :: prev) (n - 1) hf'
          have h2 : rp.count c₀ = 0 := List.count_eq_zero.mpr (hrep prev (c0 :: rs) n rp hm)
          rw [List.count_append, h2]
          simp only [List.count_cons]
          omega

lemma mQuote_rep_no_quote :
    ∀ p r n rp, mQuote p r = some (n, rp) → ∀ c ∈ rp, c ≠ '\x22' := by
  intro p r n rp h c hc
  obtain ⟨hrp, -⟩ := mQuote_facts p r n rp h
  subst hrp
  have hall : ∀ x ∈ str "\x60\x60\\1\x27\x27", x ≠ '\x22' := by decide
  exact hall c hc

lemma scanA_quote_est :
    ∀ (fuel : Nat) (rest prev : List Char) (skip : Nat), rest.length ≤ fuel →
      (scanA mQuote prev skip rest).count '\x22' ≤ 1 := by
  intro fuel
  induction fuel with
  | zero =>
    intro rest prev skip hf
    have hnil : rest = [] := List.eq_nil_of_length_eq_zero (Nat.le_zero.mp hf)
    subst hnil
    simp [scanA]
  | succ fuel ih =>
    intro rest prev skip hf
    cases rest with
    | nil => simp [scanA]
    | cons c0 rs =>
      have hf' : rs.length ≤ fuel := by
        simp only [List.length_cons] at hf
        omega
      cases skip with
      | succ k =>
        rw [show scanA mQuote prev (k + 1) (c0 :: rs) = scanA mQuote (c0 :: prev) k rs from rfl]
        exact ih rs (c0 :: prev) k hf'
      | zero =>
        cases hm : mQuote prev (c0 :: rs) with
        | none =>
          rw [scanA_nomatch_cons mQuote prev c0 rs hm]
          by_cases hq : c0 = '\x22'
          · subst hq
            have hclose := mQuote_none_quote prev rs hm
            have hnot := closeIdx_none_not_mem '\x22' rs hclose
            have habs : ∀ c ∈ scanA mQuote ('\x22' :: prev) 0 rs, c ≠ '\x22' :=
              scanA_pred mQuote (fun c => c ≠ '\x22') mQuote_rep_no_quote
                fuel rs ('\x22' :: prev) 0 hf'
                (fun x hx hx22 => hnot (hx22 ▸ hx))
            have hz : (scanA mQuote ('\x22' :: prev) 0 rs).count '\x22' = 0 :=
              List.count_eq_zero.mpr (fun hmem => habs _ hmem rfl)
            simp only [List.count_cons, hz]
            simp
          · have := ih rs (c0 :: prev) 0 hf'
            simp only [List.count_cons]
            rw [if_neg (fun he => hq (by simpa using he.symm))]
            omega
        | some x =>
          obtain ⟨n, rp⟩ := x
          rw [scanA_match mQuote prev c0 rs rp n hm]
          have h1 := ih rs (c0 :: prev) (n - 1) hf'
          have h2 : rp.count '\x22' = 0 :=
            List.count_eq_zero.mpr (fun hmem => mQuote_rep_no_quote _ _ _ _ hm _ hmem rfl)
          rw [List.count_append, h2]
          omega

lemma scanA_headP_eq (f : Char → Bool) (M : Rule) (R : List Char) (hRne : R ≠ [])
    (hrep : ∀ p r n rp, M p r = some (n, rp) → rp = R)
    (hf : ∀ p r n rp, M p r = some (n, rp) → headP f r = headP f R) :
    ∀ (l prev : List Char), headP f (scanA M prev 0 l) = headP f l := by
  intro l prev
  cases l with
  | nil => rfl
  | cons c rs =>
    cases hm : M prev (c :: rs) with
    | none => rw [scanA_nomatch_cons M prev c rs hm]; rfl
    | some x =>
      obtain ⟨n, rp⟩ := x
      have hR := hrep prev (c :: rs) n rp hm
      subst hR
      rw [scanA_match M prev c rs rp n hm]
      cases hrp : rp with
      | nil => exact absurd hrp hRne
      | cons a as =>
        subst hrp
        rw [List.cons_append]
        rw [show headP f (a :: (as ++ scanA M (c :: prev) (n - 1) rs)) = f a from rfl]
        rw [show (f a : Bool) = headP f (a :: as) from rfl]
        exact (hf prev (c :: rs) n (a :: as) hm).symm

lemma scanA_mAmp_head_bs (prev rs : List Char) (h : rs.head? = some '\\') :
    (scanA mAmp prev 0 rs).head? = some '\\' := by
  cases rs with
  | nil => simp at h
  | cons c rs' =>
    simp only [List.head?_cons, Option.some.injEq] at h
    subst h
    rw [scanA_nomatch_cons mAmp prev '\\' rs' (mAmp_headFail prev '\\' rs' (by decide))]
    rfl

lemma scanA_pref_strong (M : Rule) (L R : List Char)
    (hrep : ∀ p r n rp, M p r = some (n, rp) → rp = R)
    (hpref : ∀ c q, (c :: q) <:+ L → q ≠ [] →
      (∀ p r x, p.head? = some c → M p r = some x → False) ∨
      (∀ t, startsList q (R ++ t) = false)) :
    ∀ (q : List Char) (c : Char), (c :: q) <:+ L → q ≠ [] →
      ∀ (rest prev : List Char), prev.head? = some c →
        startsList q (scanA M prev 0 rest) = true →
        startsList q rest = true ∧
          scanA M prev 0 rest = q ++ scanA M (q.reverse ++ prev) 0 (rest.drop q.length) := by
  intro q
  induction q with
  | nil => intro c _ hne; exact absurd rfl hne
  | cons q0 q' ih =>
    intro c hsuf _ rest prev hprev hstart
    cases rest with
    | nil =>
      rw [show scanA M prev 0 ([] : List Char) = [] from rfl] at hstart
      simp [startsList] at hstart
    | cons c0 rs =>
      cases hm : M prev (c0 :: rs) with
      | some x =>
        exfalso
        rcases hpref c (q0 :: q') hsuf (by simp) with hblock | hblock
        · exact hblock prev (c0 :: rs) x hprev hm
        · obtain ⟨n, rp⟩ := x
          have hR := hrep prev (c0 :: rs) n rp hm
          subst hR
          rw [scanA_match M prev c0 rs rp n hm] at hstart
          rw [hblock (scanA M (c0 :: prev) (n - 1) rs)] at hstart
          simp at hstart
      | none =>
        rw [scanA_nomatch_cons M prev c0 rs hm] at hstart
        have hq0 : c0 = q0 ∧ startsList q' (scanA M (c0 :: prev) 0 rs) = true := by
          simpa [startsList, Bool.and_eq_true, decide_eq_true_eq] using hstart
        obtain ⟨he, hst'⟩ := hq0
        subst he
        by_cases hq' : q' = []
        · subst hq'
          refine ⟨by simp [startsList], ?_⟩
          rw [scanA_nomatch_cons M prev c0 rs hm]
          rfl
        · have hsuf' : (c0 :: q') <:+ L := (List.suffix_cons c (c0 :: q')).trans hsuf
          obtain ⟨hst2, heq2⟩ := ih c0 hsuf' hq' rs (c0 :: prev) (by simp) hst'
          constructor
          · simp [startsList, hst2]
          · rw [scanA_nomatch_cons M prev c0 rs hm, heq2]
            simp [List.append_assoc]

lemma scanA_nocreate (M : Rule) (L R : List Char) (hLne : L ≠ [])
    (hrep : ∀ p r n rp, M p r = some (n, rp) → rp = R)
    (hxy : ∀ s t, s ∈ R.tails → s ≠ [] → startsList L (s ++ t) = false)
    (hpref : ∀ c q, (c :: q) <:+ L → q ≠ [] →
      (∀ p r x, p.head? = some c → M p r = some x → False) ∨
      (∀ t, startsList q (R ++ t) = false)) :
    ∀ (fuel : Nat) (rest prev : List Char) (skip : Nat), rest.length ≤ fuel →
      containsSub L (scanA M prev skip rest) = true → containsSub L rest = true := by
  intro fuel
  induction fuel with
  | zero =>
    intro rest prev skip hf hc
    have hnil : rest = [] := List.eq_nil_of_length_eq_zero (Nat.le_zero.mp hf)
    subst hnil
    simpa [scanA] using hc
  | succ fuel ih =>
    intro rest prev skip hf hc
    cases rest with
    | nil => simpa [scanA] using hc
    | cons c0 rs =>
      have hf' : rs.length ≤ fuel := by
        simp only [List.length_cons] at hf
        omega
      cases skip with
      | succ k =>
        rw [show scanA M prev (k + 1) (c0 :: rs) = scanA M (c0 :: prev) k rs from rfl] at hc
        exact containsSub_cons_of L c0 rs (ih rs (c0 :: prev) k hf' hc)
      | zero =>
        cases hm : M prev (c0 :: rs) with
        | some x =>
          obtain ⟨n, rp⟩ := x
          have hR := hrep prev (c0 :: rs) n rp hm
          subst hR
          rw [scanA_match M prev c0 rs rp n hm] at hc
          rcases containsSub_append_elim L rp _ hc with ⟨s, hs1, hs2, hs3⟩ | h2
          · rw [hxy s _ hs1 hs2] at hs3
            simp at hs3
          · exact containsSub_cons_of L c0 rs (ih rs (c0 :: prev) (n - 1) hf' h2)
        | none =>
          rw [scanA_nomatch_cons M prev c0 rs hm] at hc
          simp only [containsSub, Bool.or_eq_true] at hc
          rcases hc with hc | hc
          · cases hL : L with
            | nil => exact absurd hL hLne
            | cons l0 L' =>
              subst hL
              have hsp : c0 = l0 ∧ startsList L' (scanA M (c0 :: prev) 0 rs) = true := by
                simpa [startsList, Bool.and_eq_true, decide_eq_true_eq] using hc
              obtain ⟨he, hst⟩ := hsp
              subst he
              by_cases hL' : L' = []
              · subst hL'
                simp [containsSub, startsList]
              · have h2 := scanA_pref_strong M (c0 :: L') R hrep hpref L' c0
                  (List.suffix_refl _) hL' rs (c0 :: prev) (by simp) hst
                have h3 : startsList (c0 :: L') (c0 :: rs) = true := by
                  simp [startsList, h2.1]
                simp [containsSub, h3]
          · exact containsSub_cons_of L c0 rs (ih rs (c0 :: prev) 0 hf' hc)

lemma scanA_kill (M : Rule) (L R : List Char) (hLne : L ≠ [])
    (hrep : ∀ p r n rp, M p r = some (n, rp) → rp = R)
    (hxy : ∀ s t, s ∈ R.tails → s ≠ [] → startsList L (s ++ t) = false)
    (hpref : ∀ c q, (c :: q) <:+ L → q ≠ [] →
      (∀ p r x, p.head? = some c → M p r = some x → False) ∨
      (∀ t, startsList q (R ++ t) = false))
    (hkill : ∀ p c rs, startsList L (c :: rs) = true → M p (c :: rs) ≠ none) :
    ∀ (fuel : Nat) (rest prev : List Char) (skip : Nat), rest.length ≤ fuel →
      containsSub L (scanA M prev skip rest) = false := by
  intro fuel
  induction fuel with
  | zero =>
    intro rest prev skip hf
    have hnil : rest = [] := List.eq_nil_of_length_eq_zero (Nat.le_zero.mp hf)
    subst hnil
    cases hL : L with
    | nil => exact absurd hL hLne
    | cons l0 L' => simp [scanA, containsSub, startsList]
  | succ fuel ih =>
    intro rest prev skip hf
    cases rest with
    | nil =>
      cases hL : L with
      | nil => exact absurd hL hLne
      | cons l0 L' => simp [scanA, containsSub, startsList]
    | cons c0 rs =>
      have hf' : rs.length ≤ fuel := by
        simp only [List.length_cons] at hf
        omega
      cases skip with
      | succ k =>
        rw [show scanA M prev (k + 1) (c0 :: rs) = scanA M (c0 :: prev) k rs from rfl]
        exact ih rs (c0 :: prev) k hf'
      | zero =>
        cases hm : M prev (c0 :: rs) with
        | some x =>
          obtain ⟨n, rp⟩ := x
          have hR := hrep prev (c0 :: rs) n rp hm
          subst hR
          rw [scanA_match M prev c0 rs rp n hm]
          by_contra hcc
          simp only [Bool.not_eq_false] at hcc
          rcases containsSub_append_elim L rp _ hcc with ⟨s, hs1, hs2, hs3⟩ | h2
          · rw [hxy s _ hs1 hs2] at hs3
            simp at hs3
          · rw [ih rs (c0 :: prev) (n - 1) hf'] at h2
            simp at h2
        | none =>
          rw [scanA_nomatch_cons M prev c0 rs hm]
          by_contra hcc
          simp only [Bool.not_eq_false] at hcc
          simp only [containsSub, Bool.or_eq_true] at hcc
          rcases hcc with hcc | hcc
          · cases hL : L with
            | nil => exact absurd hL hLne
            | cons l0 L' =>
              subst hL
              have hsp : c0 = l0 ∧ startsList L' (scanA M (c0 :: prev) 0 rs) = true := by
                simpa [startsList, Bool.and_eq_true, decide_eq_true_eq] using hcc
              obtain ⟨he, hst⟩ := hsp
              subst he
              by_cases hL' : L' = []
              · subst hL'
                exact hkill prev c0 rs (by simp [startsList]) hm
              · have h2 := scanA_pref_strong M (c0 :: L') R hrep hpref L' c0
                  (List.suffix_refl _) hL' rs (c0 :: prev) (by simp) hst
                exact hkill prev c0 rs (by simp [startsList, h2.1]) hm
          · rw [ih rs (c0 :: prev) 0 hf'] at hcc
            simp at hcc

lemma genSub_nocreate (M : Rule) (L R : List Char) (hLne : L ≠ [])
    (hrep : ∀ p r n rp, M p r = some (n, rp) → rp = R)
    (hxy : ∀ s t, s ∈ R.tails → s ≠ [] → startsList L (s ++ t) = false)
    (hpref : ∀ c q, (c :: q) <:+ L → q ≠ [] →
      (∀ p r x, p.head? = some c → M p r = some x → False) ∨
      (∀ t, startsList q (R ++ t) = false))
    (l : List Char) (h : containsSub L l = false) :
    containsSub L (genSub M l) = false := by
  by_contra hcc
  simp only [Bool.not_eq_false] at hcc
  have := scanA_nocreate M L R hLne hrep hxy hpref l.length l [] 0 (le_refl _) hcc
  rw [h] at this
  simp at this

lemma genSub_kill (M : Rule) (L R : List Char) (hLne : L ≠ [])
    (hrep : ∀ p r n rp, M p r = some (n, rp) → rp = R)
    (hxy : ∀ s t, s ∈ R.tails → s ≠ [] → startsList L (s ++ t) = false)
    (hpref : ∀ c q, (c :: q) <:+ L → q ≠ [] →
      (∀ p r x, p.head? = some c → M p r = some x → False) ∨
      (∀ t, startsList q (R ++ t) = false))
    (hkill : ∀ p c rs, startsList L (c :: rs) = true → M p (c :: rs) ≠ none)
    (l : List Char) : containsSub L (genSub M l) = false :=
  scanA_kill M L R hLne hrep hxy hpref hkill l.length l [] 0 (le_refl _)

lemma tdOk_tail (c : Char) (rs : List Char) (h : tdOk (c :: rs) = true) :
    tdOk rs = true := by
  simp only [tdOk, Bool.and_eq_true] at h
  exact h.2

lemma tdOk_head (rs : List Char) (h : tdOk ('~' :: rs) = true) :
    headP isDigitChar rs = false := by
  simp only [tdOk, if_pos, Bool.and_eq_true] at h
  simpa using h.1

lemma tdOk_append_no_tilde : ∀ (a t : List Char), '~' ∉ a → tdOk t = true →
    tdOk (a ++ t) = true := by
  intro a
  induction a with
  | nil => intro t _ h; simpa using h
  | cons c a' ih =>
    intro t hn ht
    rw [List.cons_append]
    have hc : c ≠ '~' := fun he => hn (by rw [he]; exact List.mem_cons_self _ _)
    simp only [tdOk, Bool.and_eq_true]
    exact ⟨by rw [if_neg hc], ih t (fun hm => hn (List.mem_cons_of_mem _ hm)) ht⟩

lemma tdOk_split : ∀ (l₁ : List Char) (d : Char) (l₂ : List Char),
    tdOk (l₁ ++ '~' :: d :: l₂) = true → isDigitChar d = false := by
  intro l₁
  induction l₁ with
  | nil =>
    intro d l₂ h
    simpa using tdOk_head _ (by simpa using h)
  | cons c l₁' ih =>
    intro d l₂ h
    rw [List.cons_append] at h
    exact ih d l₂ (tdOk_tail _ _ h)

lemma mTilde2_rep_of :
    ∀ p r n rp, mTilde2 p r = some (n, rp) → rp = str "$\\sim$" :=
  fun p r n rp h => (mTilde2_facts p r n rp h).1

lemma mTilde2_headDigit :
    ∀ p r n rp, mTilde2 p r = some (n, rp) →
      headP isDigitChar r = headP isDigitChar (str "$\\sim$") := by
  intro p r n rp h
  obtain ⟨-, -, d, rs', hr, -⟩ := mTilde2_facts p r n rp h
  rw [hr]
  exact (by decide : isDigitChar '~' = headP isDigitChar (str "$\\sim$"))

lemma scanA_tdOk_est :
    ∀ (fuel : Nat) (rest prev : List Char) (skip : Nat), rest.length ≤ fuel →
      tdOk (scanA mTilde2 prev skip rest) = true := by
  intro fuel
  induction fuel with
  | zero =>
    intro rest prev skip hf
    have hnil : rest = [] := List.eq_nil_of_length_eq_zero (Nat.le_zero.mp hf)
    subst hnil
    simp [scanA, tdOk]
  | succ fuel ih =>
    intro rest prev skip hf
    cases rest with
    | nil => simp [scanA, tdOk]
    | cons c0 rs =>
      have hf' : rs.length ≤ fuel := by
        simp only [List.length_cons] at hf
        omega
      cases skip with
      | succ k =>
        rw [show scanA mTilde2 prev (k + 1) (c0 :: rs) = scanA mTilde2 (c0 :: prev) k rs
          from rfl]
        exact ih rs (c0 :: prev) k hf'
      | zero =>
        cases hm : mTilde2 prev (c0 :: rs) with
        | none =>
          rw [scanA_nomatch_cons mTilde2 prev c0 rs hm]
          simp only [tdOk, Bool.and_eq_true]
          refine ⟨?_, ih rs (c0 :: prev) 0 hf'⟩
          by_cases hc : c0 = '~'
          · subst hc
            rw [if_pos rfl]
            have hdig := mTilde2_none_tilde prev rs hm
            have heq := scanA_headP_eq isDigitChar mTilde2 (str "$\\sim$") (by decide)
              mTilde2_rep_of mTilde2_headDigit rs ('~' :: prev)
            rw [heq, hdig]
            rfl
          · rw [if_neg hc]
        | some x =>
          obtain ⟨n, rp⟩ := x
          rw [scanA_match mTilde2 prev c0 rs rp n hm]
          have hrp := (mTilde2_facts prev (c0 :: rs) n rp hm).1
          subst hrp
          exact tdOk_append_no_tilde _ _ (by decide) (ih rs (c0 :: prev) (n - 1) hf')

lemma scanA_tdOk_pres (M : Rule) (R : List Char) (hRne : R ≠ [])
    (hrep : ∀ p r n rp, M p r = some (n, rp) → rp = R)
    (hnot : '~' ∉ R)
    (hhd : ∀ p r n rp, M p r = some (n, rp) →
      headP isDigitChar r = headP isDigitChar R) :
    ∀ (fuel : Nat) (rest prev : List Char) (skip : Nat), rest.length ≤ fuel →
      tdOk rest = true → tdOk (scanA M prev skip rest) = true := by
  intro fuel
  induction fuel with
  | zero =>
    intro rest prev skip hf _
    have hnil : rest = [] := List.eq_nil_of_length_eq_zero (Nat.le_zero.mp hf)
    subst hnil
    simp [scanA, tdOk]
  | succ fuel ih =>
    intro rest prev skip hf hin
    cases rest with
    | nil => simp [scanA, tdOk]
    | cons c0 rs =>
      have hf' : rs.length ≤ fuel := by
        simp only [List.length_cons] at hf
        omega
      have hin' : tdOk rs = true := tdOk_tail _ _ hin
      cases skip with
      | succ k =>
        rw [show scanA M prev (k + 1) (c0 :: rs) = scanA M (c0 :: prev) k rs from rfl]
        exact ih rs (c0 :: prev) k hf' hin'
      | zero =>
        cases hm : M prev (c0 :: rs) with
        | none =>
          rw [scanA_nomatch_cons M prev c0 rs hm]
          simp only [tdOk, Bool.and_eq_true]
          refine ⟨?_, ih rs (c0 :: prev) 0 hf' hin'⟩
          by_cases hc : c0 = '~'
          · subst hc
            rw [if_pos rfl]
            have hdig := tdOk_head rs hin
            have heq := scanA_headP_eq isDigitChar M R hRne hrep hhd rs ('~' :: prev)
            rw [heq, hdig]
            rfl
          · rw [if_neg hc]
        | some x =>
          obtain ⟨n, rp⟩ := x
          have hR := hrep prev (c0 :: rs) n rp hm
          subst hR
          rw [scanA_match M prev c0 rs rp n hm]
          exact tdOk_append_no_tilde _ _ hnot (ih rs (c0 :: prev) (n - 1) hf' hin')

lemma mPct_none_pct (p rs : List Char) (h : mPct p ('%' :: rs) = none) :
    p.head? = some '\\' := by
  unfold mPct at h
  split at h
  · by_cases hp : p.head? = some '\\'
    · exact hp
    · rw [if_neg hp] at h
      simp at h
  · rename_i hne
    exact (hne rs rfl).elim

lemma mAmp_none_amp (p rs : List Char) (h : mAmp p ('&' :: rs) = none) :
    p.head? = some '\\' ∨ rs.head? = some '\\' := by
  unfold mAmp at h
  split at h
  · rename_i rest heq
    have h2 := (List.cons.inj heq).2
    subst h2
    by_cases hp : (p.head? = some '\\' || rs.head? = some '\\') = true
    · simpa using hp
    · rw [if_neg hp] at h
      simp at h
  · rename_i hne
    exact (hne rs rfl).elim

lemma pctOk_tail (b : Bool) (c : Char) (rs : List Char)
    (h : pctOk b (c :: rs) = true) : pctOk (decide (c = '\\')) rs = true := by
  simp only [pctOk, Bool.and_eq_true] at h
  exact h.2

lemma ampOk_tail (b : Bool) (c : Char) (rs : List Char)
    (h : ampOk b (c :: rs) = true) : ampOk (decide (c = '\\')) rs = true := by
  simp only [ampOk, Bool.and_eq_true] at h
  exact h.2

lemma pctOk_split : ∀ (l₁ : List Char) (b : Bool) (l₂ : List Char),
    pctOk b (l₁ ++ '%' :: l₂) = true → lastIs '\\' l₁ b = true := by
  intro l₁
  induction l₁ with
  | nil =>
    intro b l₂ h
    simp only [List.nil_append, pctOk, if_pos, Bool.and_eq_true] at h
    simpa using h.1
  | cons c l₁' ih =>
    intro b l₂ h
    rw [List.cons_append] at h
    rw [lastIs_cons]
    exact ih _ l₂ (pctOk_tail b c _ h)

lemma ampOk_split : ∀ (l₁ : List Char) (b : Bool) (l₂ : List Char),
    ampOk b (l₁ ++ '&' :: l₂) = true →
      lastIs '\\' l₁ b = true ∨ l₂.head? = some '\\' := by
  intro l₁
  induction l₁ with
  | nil =>
    intro b l₂ h
    simp only [List.nil_append, ampOk, if_pos, Bool.and_eq_true] at h
    have h1 := h.1
    simp only [Bool.or_eq_true, decide_eq_true_eq] at h1
    rcases h1 with h1 | h1
    · left; simpa using h1
    · right; exact h1
  | cons c l₁' ih =>
    intro b l₂ h
    rw [List.cons_append] at h
    rw [lastIs_cons]
    exact ih _ l₂ (ampOk_tail b c _ h)

lemma bs_head_cons (c : Char) (prev : List Char) :
    decide ((c :: prev).head? = some '\\') = decide (c = '\\') := by
  simp

lemma scanA_pctOk_est :
    ∀ (fuel : Nat) (rest prev : List Char) (skip : Nat), rest.length ≤ fuel →
      pctOk (lastIs '\\' (rest.take skip) (decide (prev.head? = some '\\')))
        (scanA mPct prev skip rest) = true := by
  intro fuel
  induction fuel with
  | zero =>
    intro rest prev skip hf
    have hnil : rest = [] := List.eq_nil_of_length_eq_zero (Nat.le_zero.mp hf)
    subst hnil
    simp [scanA, pctOk]
  | succ fuel ih =>
    intro rest prev skip hf
    cases rest with
    | nil => simp [scanA, pctOk]
    | cons c0 rs =>
      have hf' : rs.length ≤ fuel := by
        simp only [List.length_cons] at hf
        omega
      cases skip with
      | succ k =>
        rw [show scanA mPct prev (k + 1) (c0 :: rs) = scanA mPct (c0 :: prev) k rs from rfl]
        have hih := ih rs (c0 :: prev) k hf'
        rw [bs_head_cons] at hih
        rw [show (c0 :: rs).take (k + 1) = c0 :: rs.take k from rfl, lastIs_cons]
        exact hih
      | zero =>
        rw [show (c0 :: rs).take 0 = [] from rfl]
        cases hm : mPct prev (c0 :: rs) with
        | none =>
          rw [scanA_nomatch_cons mPct prev c0 rs hm]
          simp only [pctOk, Bool.and_eq_true]
          constructor
          · by_cases hc : c0 = '%'
            · subst hc
              rw [if_pos rfl]
              have hbs := mPct_none_pct prev rs hm
              simp [lastIs, hbs]
            · rw [if_neg hc]
          · have hih := ih rs (c0 :: prev) 0 hf'
            rw [bs_head_cons] at hih
            exact hih
        | some x =>
          obtain ⟨n, rp⟩ := x
          obtain ⟨hrp, hn, ⟨rs', hr'⟩, hp⟩ := mPct_facts prev (c0 :: rs) n rp hm
          obtain ⟨hc0, hrs⟩ := List.cons.inj hr'
          subst hc0
          subst hrp
          subst hn
          subst hrs
          rw [scanA_match mPct prev '%' rs (str "\\%") 1 hm]
          rw [show (str "\\%" : List Char) ++ scanA mPct ('%' :: prev) (1 - 1) rs =
            '\\' :: '%' :: scanA mPct ('%' :: prev) 0 rs from rfl]
          simp only [pctOk, Bool.and_eq_true]
          refine ⟨by simp, by simp, ?_⟩
          have hih := ih rs ('%' :: prev) 0 hf'
          rw [bs_head_cons] at hih
          exact hih

lemma scanA_pctOk_pres_amp :
    ∀ (fuel : Nat) (rest prev : List Char) (skip : Nat), rest.length ≤ fuel →
      pctOk (lastIs '\\' (rest.take skip) (decide (prev.head? = some '\\')))
        (rest.drop skip) = true →
      pctOk (lastIs '\\' (rest.take skip) (decide (prev.head? = some '\\')))
        (scanA mAmp prev skip rest) = true := by
  intro fuel
  induction fuel with
  | zero =>
    intro rest prev skip hf _
    have hnil : rest = [] := List.eq_nil_of_length_eq_zero (Nat.le_zero.mp hf)
    subst hnil
    simp [scanA, pctOk]
  | succ fuel ih =>
    intro rest prev skip hf hin
    cases rest with
    | nil => simp [scanA, pctOk]
    | cons c0 rs =>
      have hf' : rs.length ≤ fuel := by
        simp only [List.length_cons] at hf
        omega
      cases skip with
      | succ k =>
        rw [show scanA mAmp prev (k + 1) (c0 :: rs) = scanA mAmp (c0 :: prev) k rs from rfl]
        rw [show (c0 :: rs).take (k + 1) = c0 :: rs.take k from rfl, lastIs_cons] at hin ⊢
        rw [show (c0 :: rs).drop (k + 1) = rs.drop k from rfl] at hin
        have hih := ih rs (c0 :: prev) k hf'
        rw [bs_head_cons] at hih
        exact hih hin
      | zero =>
        rw [show (c0 :: rs).take 0 = [] from rfl] at hin ⊢
        rw [show (c0 :: rs).drop 0 = c0 :: rs from rfl] at hin
        simp only [pctOk, Bool.and_eq_true] at hin
        obtain ⟨hin1, hin2⟩ := hin
        cases hm : mAmp prev (c0 :: rs) with
        | none =>
          rw [scanA_nomatch_cons mAmp prev c0 rs hm]
          simp only [pctOk, Bool.and_eq_true]
          refine ⟨hin1, ?_⟩
          have hih := ih rs (c0 :: prev) 0 hf'
          rw [bs_head_cons] at hih
          exact hih hin2
        | some x =>
          obtain ⟨n, rp⟩ := x
          obtain ⟨hrp, hn, rs', hr', -, -⟩ := mAmp_facts prev (c0 :: rs) n rp hm
          obtain ⟨hc0, hrs⟩ := List.cons.inj hr'
          subst hc0
          subst hrp
          subst hn
          subst hrs
          rw [scanA_match mAmp prev '&' rs (str "\\&") 1 hm]
          rw [show (str "\\&" : List Char) ++ scanA mAmp ('&' :: prev) (1 - 1) rs =
            '\\' :: '&' :: scanA mAmp ('&' :: prev) 0 rs from rfl]
          simp only [pctOk, Bool.and_eq_true]
          refine ⟨by rw [if_neg (by decide)], by rw [if_neg (by decide)], ?_⟩
          have hih := ih rs ('&' :: prev) 0 hf'
          rw [bs_head_cons] at hih
          rw [if_neg (by decide : ¬('&' = '%'))] at hin1
          exact hih hin2

lemma scanA_ampOk_est :
    ∀ (fuel : Nat) (rest prev : List Char) (skip : Nat), rest.length ≤ fuel →
      ampOk (lastIs '\\' (rest.take skip) (decide (prev.head? = some '\\')))
        (scanA mAmp prev skip rest) = true := by
  intro fuel
  induction fuel with
  | zero =>
    intro rest prev skip hf
    have hnil : rest = [] := List.eq_nil_of_length_eq_zero (Nat.le_zero.mp hf)
    subst hnil
    simp [scanA, ampOk]
  | succ fuel ih =>
    intro rest prev skip hf
    cases rest with
    | nil => simp [scanA, ampOk]
    | cons c0 rs =>
      have hf' : rs.length ≤ fuel := by
        simp only [List.length_cons] at hf
        omega
      cases skip with
      | succ k =>
        rw [show scanA mAmp prev (k + 1) (c0 :: rs) = scanA mAmp (c0 :: prev) k rs from rfl]
        have hih := ih rs (c0 :: prev) k hf'
        rw [bs_head_cons] at hih
        rw [show (c0 :: rs).take (k + 1) = c0 :: rs.take k from rfl, lastIs_cons]
        exact hih
      | zero =>
        rw [show (c0 :: rs).take 0 = [] from rfl]
        cases hm : mAmp prev (c0 :: rs) with
        | none =>
          rw [scanA_nomatch_cons mAmp prev c0 rs hm]
          simp only [ampOk, Bool.and_eq_true]
          constructor
          · by_cases hc : c0 = '&'
            · subst hc
              rw [if_pos rfl]
              rcases mAmp_none_amp prev rs hm with hbs | hbs
              · simp [lastIs, hbs]
              · have hout := scanA_mAmp_head_bs ('&' :: prev) rs hbs
                simp [hout]
            · rw [if_neg hc]
          · have hih := ih rs (c0 :: prev) 0 hf'
            rw [bs_head_cons] at hih
            exact hih
        | some x =>
          obtain ⟨n, rp⟩ := x
          obtain ⟨hrp, hn, rs', hr', -, -⟩ := mAmp_facts prev (c0 :: rs) n rp hm
          obtain ⟨hc0, hrs⟩ := List.cons.inj hr'
          subst hc0
          subst hrp
          subst hn
          subst hrs
          rw [scanA_match mAmp prev '&' rs (str "\\&") 1 hm]
          rw [show (str "\\&" : List Char) ++ scanA mAmp ('&' :: prev) (1 - 1) rs =
            '\\' :: '&' :: scanA mAmp ('&' :: prev) 0 rs from rfl]
          simp only [ampOk, Bool.and_eq_true]
          refine ⟨by simp, by simp, ?_⟩
          have hih := ih rs ('&' :: prev) 0 hf'
          rw [bs_head_cons] at hih
          exact hih

lemma wbOkB_tail (L : List Char) (b : Bool) (c : Char) (rs : List Char)
    (h : wbOkB L b (c :: rs) = true) : wbOkB L (isWordChar c) rs = true := by
  simp only [wbOkB, Bool.and_eq_true] at h
  exact h.2

lemma wbOkB_mono (L : List Char) (b : Bool) (l : List Char)
    (h : wbOkB L b l = true) : wbOkB L true l = true := by
  cases l with
  | nil => rfl
  | cons c rs =>
    simp only [wbOkB, Bool.and_eq_true] at h ⊢
    exact ⟨by simp, h.2⟩

lemma wbOkB_irrel (L : List Char) (hLw : headP isWordChar L = true)
    (l : List Char) (hhd : headP isWordChar l = false) (b b' : Bool) :
    wbOkB L b l = wbOkB L b' l := by
  cases l with
  | nil => rfl
  | cons c rs =>
    cases hL : L with
    | nil => rw [hL] at hLw; simp [headP] at hLw
    | cons l0 L' =>
      subst hL
      have hcw : isWordChar c = false := by simpa [headP] using hhd
      have hst : startsList (l0 :: L') (c :: rs) = false := by
        by_contra hcc
        simp only [Bool.not_eq_false, startsList, Bool.and_eq_true,
          decide_eq_true_eq] at hcc
        have hl0 : isWordChar l0 = true := by simpa [headP] using hLw
        rw [hcc.1, hl0] at hcw
        simp at hcw
      simp only [wbOkB, hst]
      simp

lemma wbOkB_drop (L : List Char) :
    ∀ (k : Nat) (l : List Char) (b : Bool), wbOkB L b l = true →
      wbOkB L (lastW (l.take k) b) (l.drop k) = true := by
  intro k
  induction k with
  | zero => intro l b h; simpa [lastW] using h
  | succ k ih =>
    intro l b h
    cases l with
    | nil => simp [wbOkB]
    | cons c rs =>
      rw [show (c :: rs).take (k + 1) = c :: rs.take k from rfl]
      rw [lastW_cons]
      rw [show (c :: rs).drop (k + 1) = rs.drop k from rfl]
      exact ih rs (isWordChar c) (wbOkB_tail L b c rs h)

lemma wbOkB_append_blocked (L : List Char) :
    ∀ (a t : List Char) (b : Bool),
      (∀ s, s ∈ a.tails → s ≠ [] → startsList L (s ++ t) = false) →
      wbOkB L (lastW a b) t = true → wbOkB L b (a ++ t) = true := by
  intro a
  induction a with
  | nil => intro t b _ h; simpa [lastW] using h
  | cons c a' ih =>
    intro t b hblock h
    rw [List.cons_append]
    simp only [wbOkB, Bool.and_eq_true]
    constructor
    · have hs : startsList L ((c :: a') ++ t) = false :=
        hblock (c :: a') (by simp [List.tails_cons]) (by simp)
      rw [List.cons_append] at hs
      rw [hs]
      simp
    · rw [lastW_cons] at h
      exact ih t (isWordChar c)
        (fun s hs hne => hblock s (by rw [List.tails_cons]; exact List.mem_cons_of_mem _ hs) hne)
        h

lemma wbOkB_split (L : List Char) (hLne : L ≠ []) :
    ∀ (l₁ : List Char) (b : Bool) (l₂ : List Char),
      wbOkB L b (l₁ ++ (L ++ l₂)) = true →
      lastW l₁ b = true ∨ headP isWordChar l₂ = true := by
  intro l₁
  induction l₁ with
  | nil =>
    intro b l₂ h
    cases hL : L with
    | nil => exact absurd hL hLne
    | cons l0 L' =>
      subst hL
      rw [List.nil_append, List.cons_append] at h
      simp only [wbOkB, Bool.and_eq_true] at h
      have h1 := h.1
      rw [show (l0 :: (L' ++ l₂)).drop (l0 :: L').length = (L' ++ l₂).drop L'.length
        from by simp] at h1
      rw [List.drop_left] at h1
      have hself : startsList (l0 :: L') (l0 :: (L' ++ l₂)) = true := by
        have := startsList_append_self (l0 :: L') l₂
        simpa using this
      rw [hself] at h1
      simp only [Bool.not_true, Bool.false_or, Bool.or_eq_true] at h1
      simpa [lastW] using h1
  | cons c l₁' ih =>
    intro b l₂ h
    rw [List.cons_append] at h
    rw [lastW_cons]
    exact ih (isWordChar c) l₂ (wbOkB_tail L b c _ h)

lemma lastW_concat (a : List Char) (x : Char) (b : Bool) :
    lastW (a ++ [x]) b = isWordChar x := by
  unfold lastW
  rw [List.getLast?_concat]

lemma closeIdx_decomp (c₀ : Char) :
    ∀ (l : List Char) (j : Nat), closeIdx c₀ l = some j →
      ∃ t u, l = t ++ c₀ :: u ∧ t.length = j := by
  intro l
  induction l with
  | nil => intro j h; simp [closeIdx] at h
  | cons c cs ih =>
    intro j h
    unfold closeIdx at h
    by_cases hc : c = c₀
    · rw [if_pos hc] at h
      simp only [Option.some.injEq] at h
      subst hc
      exact ⟨[], cs, rfl, by simp [← h]⟩
    · rw [if_neg hc] at h
      cases hcl : closeIdx c₀ cs with
      | none => rw [hcl] at h; simp at h
      | some j' =>
        rw [hcl] at h
        simp only [Option.map_some', Option.some.injEq] at h
        obtain ⟨t, u, ht, hl⟩ := ih j' hcl
        exact ⟨c :: t, u, by rw [ht]; rfl, by simp [hl, ← h]⟩

lemma wbM_none_starts (pat rep p : List Char) (c : Char) (rs : List Char)
    (hpne : pat ≠ [])
    (h : wbM pat rep p (c :: rs) = none)
    (hst : startsList pat (c :: rs) = true) :
    headWord p = true ∨ headWord ((c :: rs).drop pat.length) = true := by
  obtain ⟨z, hz⟩ := (startsList_iff _ _).mp hst
  unfold wbM at h
  cases pat with
  | nil => exact absurd rfl hpne
  | cons a ps =>
    rw [hz, dropLit_self] at h
    dsimp only at h
    by_cases hb : (headWord p || headWord z) = true
    · have hdz : ((a :: ps) ++ z).drop (a :: ps).length = z := List.drop_left _ _
      rw [hz, hdz]
      simpa using hb
    · rw [if_neg hb] at h
      simp at h

lemma scanA_wbOkB_pres (M : Rule) (L R : List Char)
    (hLne : L ≠ []) (hLw : headP isWordChar L = true) (hRne : R ≠ [])
    (hrep : ∀ p r n rp, M p r = some (n, rp) → rp = R)
    (hspan : ∀ p r n rp, M p r = some (n, rp) → 1 ≤ n ∧ n ≤ r.length)
    (hhw : ∀ p r n rp, M p r = some (n, rp) → headP isWordChar r = headP isWordChar R)
    (hxy : ∀ s t, s ∈ R.tails → s ≠ [] → startsList L (s ++ t) = false)
    (hpref : ∀ c q, (c :: q) <:+ L → q ≠ [] →
      (∀ p r x, p.head? = some c → M p r = some x → False) ∨
      (∀ t, startsList q (R ++ t) = false))
    (hafter : ∀ p r n rp, M p r = some (n, rp) →
      lastW (r.take n) false = false ∨ headP isWordChar (r.drop n) = false) :
    ∀ (fuel : Nat) (rest prev : List Char) (skip : Nat), rest.length ≤ fuel →
      wbOkB L (lastW (rest.take skip) (headP isWordChar prev)) (rest.drop skip) = true →
      wbOkB L (lastW (rest.take skip) (headP isWordChar prev)) (scanA M prev skip rest) = true := by
  intro fuel
  induction fuel with
  | zero =>
    intro rest prev skip hf _
    have hnil : rest = [] := List.eq_nil_of_length_eq_zero (Nat.le_zero.mp hf)
    subst hnil
    simp [scanA, wbOkB]
  | succ fuel ih =>
    intro rest prev skip hf hin
    cases rest with
    | nil => simp [scanA, wbOkB]
    | cons c0 rs =>
      have hf' : rs.length ≤ fuel := by
        simp only [List.length_cons] at hf
        omega
      cases skip with
      | succ k =>
        rw [show scanA M prev (k + 1) (c0 :: rs) = scanA M (c0 :: prev) k rs from rfl]
        rw [show (c0 :: rs).take (k + 1) = c0 :: rs.take k from rfl, lastW_cons] at hin ⊢
        rw [show (c0 :: rs).drop (k + 1) = rs.drop k from rfl] at hin
        have hih := ih rs (c0 :: prev) k hf'
        rw [show headP isWordChar (c0 :: prev) = isWordChar c0 from rfl] at hih
        exact hih hin
      | zero =>
        rw [show (c0 :: rs).take 0 = ([] : List Char) from rfl] at hin ⊢
        rw [show (c0 :: rs).drop 0 = c0 :: rs from rfl] at hin
        rw [show lastW ([] : List Char) (headP isWordChar prev) = headP isWordChar prev
          from rfl] at hin ⊢
        cases hm : M prev (c0 :: rs) with
        | none =>
          rw [scanA_nomatch_cons M prev c0 rs hm]
          simp only [wbOkB, Bool.and_eq_true]
          constructor
          · cases hb : headP isWordChar prev with
            | true => simp
            | false =>
              cases hst : startsList L (c0 :: scanA M (c0 :: prev) 0 rs) with
              | false => simp [hst]
              | true =>
                cases hL : L with
                | nil => exact absurd hL hLne
                | cons l0 L' =>
                  subst hL
                  have hsp : c0 = l0 ∧
                      startsList L' (scanA M (c0 :: prev) 0 rs) = true := by
                    simpa [startsList, Bool.and_eq_true, decide_eq_true_eq] using hst
                  obtain ⟨he, hstL'⟩ := hsp
                  subst he
                  simp only [wbOkB, Bool.and_eq_true] at hin
                  have hin1 := hin.1
                  by_cases hL' : L' = []
                  · subst hL'
                    have hstin : startsList [c0] (c0 :: rs) = true := by
                      simp [startsList]
                    rw [hstin, hb] at hin1
                    simp only [Bool.not_true, Bool.false_or, Bool.or_false] at hin1
                    have heq := scanA_headP_eq isWordChar M R hRne hrep hhw rs (c0 :: prev)
                    simp only [Bool.not_true, Bool.false_or, Bool.or_false]
                    rw [show (c0 :: scanA M (c0 :: prev) 0 rs).drop ([c0] : List Char).length =
                      scanA M (c0 :: prev) 0 rs from rfl]
                    rw [heq]
                    rw [show (c0 :: rs).drop ([c0] : List Char).length = rs from rfl] at hin1
                    exact hin1
                  · have hpref2 := scanA_pref_strong M (c0 :: L') R hrep hpref L' c0
                      (List.suffix_refl _) hL' rs (c0 :: prev) (by simp) hstL'
                    have hstin : startsList (c0 :: L') (c0 :: rs) = true := by
                      simp [startsList, hpref2.1]
                    rw [hstin, hb] at hin1
                    simp only [Bool.not_true, Bool.false_or, Bool.or_false] at hin1
                    rw [show (c0 :: rs).drop (c0 :: L').length = rs.drop L'.length
                      from rfl] at hin1
                    simp only [Bool.not_true, Bool.false_or, Bool.or_false]
                    rw [show (c0 :: scanA M (c0 :: prev) 0 rs).drop (c0 :: L').length =
                      (scanA M (c0 :: prev) 0 rs).drop L'.length from rfl]
                    rw [hpref2.2, List.drop_left]
                    have heq := scanA_headP_eq isWordChar M R hRne hrep hhw
                      (rs.drop L'.length) (L'.reverse ++ (c0 :: prev))
                    rw [heq]
                    exact hin1
          · have hih := ih rs (c0 :: prev) 0 hf'
            rw [show rs.take 0 = ([] : List Char) from rfl] at hih
            rw [show rs.drop 0 = rs from rfl] at hih
            rw [show lastW ([] : List Char) (headP isWordChar (c0 :: prev)) =
              isWordChar c0 from rfl] at hih
            exact hih (wbOkB_tail L _ c0 rs hin)
        | some x =>
          obtain ⟨n, rp⟩ := x
          have hR := hrep prev (c0 :: rs) n rp hm
          subst hR
          obtain ⟨hn1, hn2⟩ := hspan prev (c0 :: rs) n rp hm
          have hn2' : n - 1 ≤ rs.length := by
            simp only [List.length_cons] at hn2
            omega
          rw [scanA_match M prev c0 rs rp n hm]
          have htk : (rs.take (n - 1)).length = n - 1 := by
            rw [List.length_take]
            omega
          have hsplit : rs = rs.take (n - 1) ++ rs.drop (n - 1) :=
            (List.take_append_drop _ _).symm
          have hout2 : scanA M (c0 :: prev) (n - 1) rs =
              scanA M ((rs.take (n - 1)).reverse ++ (c0 :: prev)) 0 (rs.drop (n - 1)) := by
            have h1 := scanA_skip_append M (rs.take (n - 1)) (c0 :: prev) 0 (rs.drop (n - 1))
            rw [htk] at h1
            rw [← hsplit] at h1
            simpa using h1
          have hdropin : wbOkB L (lastW (rs.take (n - 1)) (isWordChar c0))
              (rs.drop (n - 1)) = true := by
            have hd := wbOkB_drop L n (c0 :: rs) (headP isWordChar prev) hin
            rw [show (c0 :: rs).take n = c0 :: rs.take (n - 1) from by
              cases n with
              | zero => omega
              | succ m => simp] at hd
            rw [show (c0 :: rs).drop n = rs.drop (n - 1) from by
              cases n with
              | zero => omega
              | succ m => simp] at hd
            rw [lastW_cons] at hd
            exact hd
          have hih := ih rs (c0 :: prev) (n - 1) hf'
          rw [show headP isWordChar (c0 :: prev) = isWordChar c0 from rfl] at hih
          have houtn : wbOkB L (lastW (rs.take (n - 1)) (isWordChar c0))
              (scanA M (c0 :: prev) (n - 1) rs) = true := hih hdropin
          apply wbOkB_append_blocked L rp (scanA M (c0 :: prev) (n - 1) rs)
            (headP isWordChar prev) (fun s hs hne => hxy s _ hs hne)
          by_cases hhd2 : headP isWordChar (rs.drop (n - 1)) = true
          · have hsl : lastW ((c0 :: rs).take n) false = false := by
              rcases hafter prev (c0 :: rs) n rp hm with hA | hA
              · exact hA
              · rw [show (c0 :: rs).drop n = rs.drop (n - 1) from by
                  cases n with
                  | zero => omega
                  | succ m => simp] at hA
                rw [hA] at hhd2
                simp at hhd2
            rw [show (c0 :: rs).take n = c0 :: rs.take (n - 1) from by
              cases n with
              | zero => omega
              | succ m => simp] at hsl
            rw [lastW_cons] at hsl
            rw [hsl] at houtn
            cases hLR : lastW rp (headP isWordChar prev) with
            | false => exact houtn
            | true => exact wbOkB_mono L false _ houtn
          · have hhd3 : headP isWordChar (scanA M (c0 :: prev) (n - 1) rs) = false := by
              rw [hout2]
              rw [scanA_headP_eq isWordChar M rp hRne hrep hhw]
              simpa using hhd2
            rw [wbOkB_irrel L hLw _ hhd3 (lastW rp (headP isWordChar prev))
              (lastW (rs.take (n - 1)) (isWordChar c0))]
            exact houtn

lemma scanA_wbOkB_est (pat rwl : List Char)
    (hpne : pat ≠ []) (hLw : headP isWordChar pat = true) (hrwne : rwl ≠ [])
    (hhwrw : headP isWordChar rwl = true)
    (hxy : ∀ s t, s ∈ rwl.tails → s ≠ [] → startsList pat (s ++ t) = false)
    (hpref : ∀ c q, (c :: q) <:+ pat → q ≠ [] →
      (∀ p r x, p.head? = some c → wbM pat rwl p r = some x → False) ∨
      (∀ t, startsList q (rwl ++ t) = false)) :
    ∀ (fuel : Nat) (rest prev : List Char) (skip : Nat), rest.length ≤ fuel →
      wbOkB pat (lastW (rest.take skip) (headP isWordChar prev))
        (scanA (wbM pat rwl) prev skip rest) = true := by
  have hrep : ∀ p r n rp, wbM pat rwl p r = some (n, rp) → rp = rwl :=
    fun p r n rp h => (wbM_facts pat rwl p r n rp h).1
  have hhw : ∀ p r n rp, wbM pat rwl p r = some (n, rp) →
      headP isWordChar r = headP isWordChar rwl := by
    intro p r n rp h
    obtain ⟨-, -, -, -, ⟨r', hr⟩, -, -⟩ := wbM_facts pat rwl p r n rp h
    cases pat with
    | nil => exact absurd rfl hpne
    | cons a ps =>
      rw [hr, headP_append_cons]
      have ha : isWordChar a = true := by simpa [headP] using hLw
      rw [ha, hhwrw]
  intro fuel
  induction fuel with
  | zero =>
    intro rest prev skip hf
    have hnil : rest = [] := List.eq_nil_of_length_eq_zero (Nat.le_zero.mp hf)
    subst hnil
    simp [scanA, wbOkB]
  | succ fuel ih =>
    intro rest prev skip hf
    cases rest with
    | nil => simp [scanA, wbOkB]
    | cons c0 rs =>
      have hf' : rs.length ≤ fuel := by
        simp only [List.length_cons] at hf
        omega
      cases skip with
      | succ k =>
        rw [show scanA (wbM pat rwl) prev (k + 1) (c0 :: rs) =
          scanA (wbM pat rwl) (c0 :: prev) k rs from rfl]
        rw [show (c0 :: rs).take (k + 1) = c0 :: rs.take k from rfl, lastW_cons]
        have hih := ih rs (c0 :: prev) k hf'
        rw [show headP isWordChar (c0 :: prev) = isWordChar c0 from rfl] at hih
        exact hih
      | zero =>
        rw [show (c0 :: rs).take 0 = ([] : List Char) from rfl]
        rw [show lastW ([] : List Char) (headP isWordChar prev) = headP isWordChar prev
          from rfl]
        cases hm : wbM pat rwl prev (c0 :: rs) with
        | none =>
          rw [scanA_nomatch_cons (wbM pat rwl) prev c0 rs hm]
          simp only [wbOkB, Bool.and_eq_true]
          constructor
          · cases hb : headP isWordChar prev with
            | true => simp
            | false =>
              cases hst : startsList pat (c0 :: scanA (wbM pat rwl) (c0 :: prev) 0 rs) with
              | false => simp [hst]
              | true =>
                cases hL : pat with
                | nil => exact absurd hL hpne
                | cons l0 L' =>
                  subst hL
                  have hsp : c0 = l0 ∧
                      startsList L' (scanA (wbM (l0 :: L') rwl) (c0 :: prev) 0 rs) = true := by
                    simpa [startsList, Bool.and_eq_true, decide_eq_true_eq] using hst
                  obtain ⟨he, hstL'⟩ := hsp
                  subst he
                  have hstin : startsList (c0 :: L') (c0 :: rs) = true := by
                    by_cases hL' : L' = []
                    · subst hL'
                      simp [startsList]
                    · have hpref2 := scanA_pref_strong (wbM (c0 :: L') rwl) (c0 :: L') rwl
                        hrep hpref L' c0 (List.suffix_refl _) hL' rs (c0 :: prev)
                        (by simp) hstL'
                      simp [startsList, hpref2.1]
                  have hwb := wbM_none_starts (c0 :: L') rwl prev c0 rs (by simp) hm hstin
                  rcases hwb with hwb | hwb
                  · rw [← headP_eq_headWord] at hwb
                    rw [hwb] at hb
                    simp at hb
                  · simp only [Bool.not_true, Bool.false_or, Bool.or_false]
                    rw [← headP_eq_headWord] at hwb
                    by_cases hL' : L' = []
                    · subst hL'
                      rw [show (c0 :: scanA (wbM [c0] rwl) (c0 :: prev) 0 rs).drop
                        ([c0] : List Char).length = scanA (wbM [c0] rwl) (c0 :: prev) 0 rs
                        from rfl]
                      rw [scanA_headP_eq isWordChar (wbM [c0] rwl) rwl hrwne hrep hhw]
                      rw [show (c0 :: rs).drop ([c0] : List Char).length = rs from rfl] at hwb
                      exact hwb
                    · have hpref2 := scanA_pref_strong (wbM (c0 :: L') rwl) (c0 :: L') rwl
                        hrep hpref L' c0 (List.suffix_refl _) hL' rs (c0 :: prev)
                        (by simp) hstL'
                      rw [show (c0 :: scanA (wbM (c0 :: L') rwl) (c0 :: prev) 0 rs).drop
                        (c0 :: L').length =
                        (scanA (wbM (c0 :: L') rwl) (c0 :: prev) 0 rs).drop L'.length
                        from rfl]
                      rw [hpref2.2, List.drop_left]
                      rw [scanA_headP_eq isWordChar (wbM (c0 :: L') rwl) rwl hrwne hrep hhw]
                      rw [show (c0 :: rs).drop (c0 :: L').length = rs.drop L'.length
                        from rfl] at hwb
                      exact hwb
          · have hih := ih rs (c0 :: prev) 0 hf'
            rw [show rs.take 0 = ([] : List Char) from rfl] at hih
            rw [show lastW ([] : List Char) (headP isWordChar (c0 :: prev)) =
              isWordChar c0 from rfl] at hih
            exact hih
        | some x =>
          obtain ⟨n, rp⟩ := x
          obtain ⟨hrp, hn, hn1, hn2, ⟨r', hr'⟩, hwp, hwa⟩ :=
            wbM_facts pat rwl prev (c0 :: rs) n rp hm
          subst hrp
          have hn2' : n - 1 ≤ rs.length := by
            simp only [List.length_cons] at hn2
            omega
          rw [scanA_match (wbM pat rp) prev c0 rs rp n hm]
          have htk : (rs.take (n - 1)).length = n - 1 := by
            rw [List.length_take]
            omega
          have hsplit : rs = rs.take (n - 1) ++ rs.drop (n - 1) :=
            (List.take_append_drop _ _).symm
          have hout2 : scanA (wbM pat rp) (c0 :: prev) (n - 1) rs =
              scanA (wbM pat rp) ((rs.take (n - 1)).reverse ++ (c0 :: prev)) 0
                (rs.drop (n - 1)) := by
            have h1 := scanA_skip_append (wbM pat rp) (rs.take (n - 1)) (c0 :: prev) 0
              (rs.drop (n - 1))
            rw [htk] at h1
            rw [← hsplit] at h1
            simpa using h1
          have hih := ih rs (c0 :: prev) (n - 1) hf'
          rw [show headP isWordChar (c0 :: prev) = isWordChar c0 from rfl] at hih
          apply wbOkB_append_blocked pat rp (scanA (wbM pat rp) (c0 :: prev) (n - 1) rs)
            (headP isWordChar prev) (fun s hs hne => hxy s _ hs hne)
          have hhd3 : headP isWordChar (scanA (wbM pat rp) (c0 :: prev) (n - 1) rs) = false := by
            rw [hout2]
            rw [scanA_headP_eq isWordChar (wbM pat rp) rp hrwne hrep hhw]
            rw [← headP_eq_headWord] at hwa
            rw [show (c0 :: rs).drop pat.length = rs.drop (pat.length - 1) from by
              cases hp : pat with
              | nil => exact absurd hp hpne
              | cons a ps => simp] at hwa
            rw [hn]
            exact hwa
          rw [wbOkB_irrel pat hLw _ hhd3 (lastW rp (headP isWordChar prev))
            (lastW (rs.take (n - 1)) (isWordChar c0))]
          exact hih

lemma litM_rep (pat rep : List Char) :
    ∀ p r n rp, litM pat rep p r = some (n, rp) → rp = rep :=
  fun p r n rp h => (litM_facts pat rep p r n rp h).1

lemma wbM_rep (pat rep : List Char) :
    ∀ p r n rp, wbM pat rep p r = some (n, rp) → rp = rep :=
  fun p r n rp h => (wbM_facts pat rep p r n rp h).1

lemma mTilde1_rep : ∀ p r n rp, mTilde1 p r = some (n, rp) → rp = str "$\\sim$" :=
  fun p r n rp h => (mTilde1_facts p r n rp h).1

lemma mQuote_rep : ∀ p r n rp, mQuote p r = some (n, rp) → rp = str "\x60\x60\\1\x27\x27" :=
  fun p r n rp h => (mQuote_facts p r n rp h).1

lemma mPct_rep : ∀ p r n rp, mPct p r = some (n, rp) → rp = str "\\%" :=
  fun p r n rp h => (mPct_facts p r n rp h).1

lemma mAmp_rep : ∀ p r n rp, mAmp p r = some (n, rp) → rp = str "\\&" :=
  fun p r n rp h => (mAmp_facts p r n rp h).1

lemma litM_span (pat rep : List Char) :
    ∀ p r n rp, litM pat rep p r = some (n, rp) → 1 ≤ n ∧ n ≤ r.length :=
  fun p r n rp h =>
    ⟨(litM_facts pat rep p r n rp h).2.2.1, (litM_facts pat rep p r n rp h).2.2.2.1⟩

lemma wbM_span (pat rep : List Char) :
    ∀ p r n rp, wbM pat rep p r = some (n, rp) → 1 ≤ n ∧ n ≤ r.length :=
  fun p r n rp h =>
    ⟨(wbM_facts pat rep p r n rp h).2.2.1, (wbM_facts pat rep p r n rp h).2.2.2.1⟩

lemma mQuote_span : ∀ p r n rp, mQuote p r = some (n, rp) → 1 ≤ n ∧ n ≤ r.length :=
  fun p r n rp h => ⟨(mQuote_facts p r n rp h).2.1, (mQuote_facts p r n rp h).2.2.1⟩

lemma mPct_span : ∀ p r n rp, mPct p r = some (n, rp) → 1 ≤ n ∧ n ≤ r.length := by
  intro p r n rp h
  obtain ⟨-, hn, ⟨rs, hr⟩, -⟩ := mPct_facts p r n rp h
  subst hn
  rw [hr]
  simp

lemma mAmp_span : ∀ p r n rp, mAmp p r = some (n, rp) → 1 ≤ n ∧ n ≤ r.length := by
  intro p r n rp h
  obtain ⟨-, hn, rs, hr, -, -⟩ := mAmp_facts p r n rp h
  subst hn
  rw [hr]
  simp

lemma litM_headPf (f : Char → Bool) (pat rep : List Char) (hpe : pat ≠ [])
    (he : headP f pat = headP f rep) :
    ∀ p r n rp, litM pat rep p r = some (n, rp) → headP f r = headP f rep := by
  intro p r n rp h
  obtain ⟨-, -, -, -, r', hr⟩ := litM_facts pat rep p r n rp h
  cases pat with
  | nil => exact absurd rfl hpe
  | cons a ps =>
    rw [hr, headP_append_cons]
    rw [show (f a : Bool) = headP f (a :: ps) from rfl]
    exact he

lemma wbM_headPf (f : Char → Bool) (pat rep : List Char) (hpe : pat ≠ [])
    (he : headP f pat = headP f rep) :
    ∀ p r n rp, wbM pat rep p r = some (n, rp) → headP f r = headP f rep := by
  intro p r n rp h
  obtain ⟨-, -, -, -, ⟨r', hr⟩, -, -⟩ := wbM_facts pat rep p r n rp h
  cases pat with
  | nil => exact absurd rfl hpe
  | cons a ps =>
    rw [hr, headP_append_cons]
    rw [show (f a : Bool) = headP f (a :: ps) from rfl]
    exact he

lemma mQuote_headPf (f : Char → Bool)
    (he : f '\x22' = headP f (str "\x60\x60\\1\x27\x27")) :
    ∀ p r n rp, mQuote p r = some (n, rp) →
      headP f r = headP f (str "\x60\x60\\1\x27\x27") := by
  intro p r n rp h
  obtain ⟨-, -, -, rs, j, hr, -, -⟩ := mQuote_facts p r n rp h
  rw [hr]
  exact he

lemma mPct_headPf (f : Char → Bool) (he : f '%' = headP f (str "\\%")) :
    ∀ p r n rp, mPct p r = some (n, rp) → headP f r = headP f (str "\\%") := by
  intro p r n rp h
  obtain ⟨-, -, ⟨rs, hr⟩, -⟩ := mPct_facts p r n rp h
  rw [hr]
  exact he

lemma mAmp_headPf (f : Char → Bool) (he : f '&' = headP f (str "\\&")) :
    ∀ p r n rp, mAmp p r = some (n, rp) → headP f r = headP f (str "\\&") := by
  intro p r n rp h
  obtain ⟨-, -, rs, hr, -, -⟩ := mAmp_facts p r n rp h
  rw [hr]
  exact he

lemma wbM_after (pat rep : List Char) :
    ∀ p r n rp, wbM pat rep p r = some (n, rp) →
      lastW (r.take n) false = false ∨ headP isWordChar (r.drop n) = false := by
  intro p r n rp h
  obtain ⟨-, hn, -, -, -, -, hwa⟩ := wbM_facts pat rep p r n rp h
  right
  rw [← headP_eq_headWord] at hwa
  rw [hn]
  exact hwa

lemma litM_after (pat rep : List Char) (hl : lastW pat false = false) :
    ∀ p r n rp, litM pat rep p r = some (n, rp) →
      lastW (r.take n) false = false ∨ headP isWordChar (r.drop n) = false := by
  intro p r n rp h
  obtain ⟨-, hn, -, -, r', hr⟩ := litM_facts pat rep p r n rp h
  left
  rw [hn, hr, List.take_left]
  exact hl

lemma mPct_after :
    ∀ p r n rp, mPct p r = some (n, rp) →
      lastW (r.take n) false = false ∨ headP isWordChar (r.drop n) = false := by
  intro p r n rp h
  obtain ⟨-, hn, ⟨rs, hr⟩, -⟩ := mPct_facts p r n rp h
  left
  rw [hn, hr]
  rw [show ('%' :: rs).take 1 = ['%'] from rfl]
  decide

lemma mAmp_after :
    ∀ p r n rp, mAmp p r = some (n, rp) →
      lastW (r.take n) false = false ∨ headP isWordChar (r.drop n) = false := by
  intro p r n rp h
  obtain ⟨-, hn, rs, hr, -, -⟩ := mAmp_facts p r n rp h
  left
  rw [hn, hr]
  rw [show ('&' :: rs).take 1 = ['&'] from rfl]
  decide

lemma mQuote_after :
    ∀ p r n rp, mQuote p r = some (n, rp) →
      lastW (r.take n) false = false ∨ headP isWordChar (r.drop n) = false := by
  intro p r n rp h
  obtain ⟨-, -, -, rs, j, hr, hc, hn⟩ := mQuote_facts p r n rp h
  left
  obtain ⟨t, u, htu, hlen⟩ := closeIdx_decomp '\x22' rs j hc
  subst hn
  rw [hr, htu]
  rw [show ('\x22' :: (t ++ '\x22' :: u)).take (j + 2) =
    '\x22' :: (t ++ '\x22' :: u).take (j + 1) from rfl]
  rw [show (t ++ '\x22' :: u).take (j + 1) = t ++ ('\x22' :: u).take 1 from by
    rw [List.take_append_eq_append_take]
    congr 1
    · rw [List.take_of_length_le (by omega)]
    · rw [hlen]
      congr 1
      omega]
  rw [show ('\x22' :: u).take 1 = ['\x22'] from rfl]
  rw [show ('\x22' :: (t ++ ['\x22'])) = ('\x22' :: t) ++ ['\x22'] from by simp]
  rw [lastW_concat]
  decide

lemma lastW_nil (b : Bool) : lastW [] b = b := rfl

lemma lastIs_nil (c₀ : Char) (b : Bool) : lastIs c₀ [] b = b := rfl

lemma headP_nil (f : Char → Bool) : headP f [] = false := rfl

lemma prefOk_prop (L R : List Char) (M : Rule) (h : prefOk L R = true) :
    ∀ c q, (c :: q) <:+ L → q ≠ [] →
      (∀ p r x, p.head? = some c → M p r = some x → False) ∨
      (∀ t, startsList q (R ++ t) = false) :=
  fun c q hsuf hne => Or.inr (prefOk_block L R h c q hsuf hne)

lemma genSub_char_pres (M : Rule) (R : List Char) (c₀ : Char)
    (hrep : ∀ p r n rp, M p r = some (n, rp) → rp = R)
    (hnot : c₀ ∉ R) (l : List Char) (h : ∀ c ∈ l, c ≠ c₀) :
    ∀ c ∈ genSub M l, c ≠ c₀ :=
  scanA_pred M (fun c => c ≠ c₀)
    (fun p r n rp hm _c hc he => hnot (he ▸ ((hrep p r n rp hm) ▸ hc)))
    l.length l [] 0 (le_refl _) h

lemma genSub_char_kill (M : Rule) (R : List Char) (c₀ : Char)
    (hrep : ∀ p r n rp, M p r = some (n, rp) → rp = R)
    (hnot : c₀ ∉ R)
    (hcopy : ∀ p c rs, M p (c :: rs) = none → c ≠ c₀)
    (l : List Char) : ∀ c ∈ genSub M l, c ≠ c₀ :=
  scanA_out_pred M (fun c => c ≠ c₀)
    (fun p r n rp hm _c hc he => hnot (he ▸ ((hrep p r n rp hm) ▸ hc)))
    hcopy l.length l [] 0 (le_refl _)

lemma genSub_count_le' (M : Rule) (R : List Char) (c₀ : Char)
    (hrep : ∀ p r n rp, M p r = some (n, rp) → rp = R)
    (hnot : c₀ ∉ R) (l : List Char) :
    (genSub M l).count c₀ ≤ l.count c₀ :=
  scanA_count_le M c₀ (fun p r n rp hm => (hrep p r n rp hm) ▸ hnot)
    l.length l [] 0 (le_refl _)

lemma genSub_quote_est' (l : List Char) : (genSub mQuote l).count '\x22' ≤ 1 :=
  scanA_quote_est l.length l [] 0 (le_refl _)

lemma genSub_tdOk_est' (l : List Char) : tdOk (genSub mTilde2 l) = true :=
  scanA_tdOk_est l.length l [] 0 (le_refl _)

lemma genSub_tdOk_pres' (M : Rule) (R : List Char) (hRne : R ≠ [])
    (hrep : ∀ p r n rp, M p r = some (n, rp) → rp = R)
    (hnot : '~' ∉ R)
    (hhd : ∀ p r n rp, M p r = some (n, rp) →
      headP isDigitChar r = headP isDigitChar R)
    (l : List Char) (h : tdOk l = true) : tdOk (genSub M l) = true :=
  scanA_tdOk_pres M R hRne hrep hnot hhd l.length l [] 0 (le_refl _) h

lemma genSub_pctOk_est' (l : List Char) : pctOk false (genSub mPct l) = true := by
  have h := scanA_pctOk_est l.length l [] 0 (le_refl _)
  simpa [lastIs_nil] using h

lemma genSub_pctOk_pres' (l : List Char) (h : pctOk false l = true) :
    pctOk false (genSub mAmp l) = true := by
  have h2 := scanA_pctOk_pres_amp l.length l [] 0 (le_refl _)
  simp only [List.take_zero, List.drop_zero, lastIs_nil, List.head?_nil] at h2
  have hb : (decide ((none : Option Char) = some '\\')) = false := by decide
  rw [hb] at h2
  exact h2 h

lemma genSub_ampOk_est' (l : List Char) : ampOk false (genSub mAmp l) = true := by
  have h := scanA_ampOk_est l.length l [] 0 (le_refl _)
  simpa [lastIs_nil] using h

lemma genSub_wb_pres' (M : Rule) (L R : List Char)
    (hLne : L ≠ []) (hLw : headP isWordChar L = true) (hRne : R ≠ [])
    (hrep : ∀ p r n rp, M p r = some (n, rp) → rp = R)
    (hspan : ∀ p r n rp, M p r = some (n, rp) → 1 ≤ n ∧ n ≤ r.length)
    (hhw : ∀ p r n rp, M p r = some (n, rp) → headP isWordChar r = headP isWordChar R)
    (hxy : xyOk L R = true)
    (hpref : ∀ c q, (c :: q) <:+ L → q ≠ [] →
      (∀ p r x, p.head? = some c → M p r = some x → False) ∨
      (∀ t, startsList q (R ++ t) = false))
    (hafter : ∀ p r n rp, M p r = some (n, rp) →
      lastW (r.take n) false = false ∨ headP isWordChar (r.drop n) = false)
    (l : List Char) (h : wbOkB L false l = true) :
    wbOkB L false (genSub M l) = true := by
  have h2 := scanA_wbOkB_pres M L R hLne hLw hRne hrep hspan hhw
    (xyOk_block L R hxy) hpref hafter l.length l [] 0 (le_refl _)
  simp only [List.take_zero, List.drop_zero, lastW_nil, headP_nil] at h2
  exact h2 h

lemma genSub_wb_est' (pat rwp : List Char)
    (hpne : pat ≠ []) (hLw : headP isWordChar pat = true) (hrwne : rwp ≠ [])
    (hhwrw : headP isWordChar rwp = true)
    (hxy : xyOk pat rwp = true)
    (hpref : ∀ c q, (c :: q) <:+ pat → q ≠ [] →
      (∀ p r x, p.head? = some c → wbM pat rwp p r = some x → False) ∨
      (∀ t, startsList q (rwp ++ t) = false))
    (l : List Char) : wbOkB pat false (genSub (wbM pat rwp) l) = true := by
  have h := scanA_wbOkB_est pat rwp hpne hLw hrwne hhwrw
    (xyOk_block pat rwp hxy) hpref l.length l [] 0 (le_refl _)
  simpa [lastW_nil, headP_nil] using h

lemma genSub_contains_pres (M : Rule) (L R : List Char) (hLne : L ≠ [])
    (hrep : ∀ p r n rp, M p r = some (n, rp) → rp = R)
    (hxy : xyOk L R = true) (hpref : prefOk L R = true)
    (l : List Char) (h : containsSub L l = false) :
    containsSub L (genSub M l) = false :=
  genSub_nocreate M L R hLne hrep (xyOk_block L R hxy) (prefOk_prop L R M hpref) l h

lemma pref_h2o_o2 : ∀ c q, (c :: q) <:+ str "H2O" → q ≠ [] →
    (∀ p r x, p.head? = some c → mO2 p r = some x → False) ∨
    (∀ t, startsList q (str "O$_2$" ++ t) = false) := by
  intro c q hsuf hne
  have hmem := (List.mem_tails _ _).mpr hsuf
  rw [show (str "H2O").tails = [str "H2O", str "2O", str "O", ([] : List Char)]
    from by decide] at hmem
  simp only [List.mem_cons, List.not_mem_nil, or_false] at hmem
  rcases hmem with h | h | h | h
  · right
    rw [show (str "H2O" : List Char) = 'H' :: str "2O" from rfl] at h
    obtain ⟨-, hq⟩ := List.cons.inj h
    subst hq
    intro t
    exact startsList_append_block _ _ t (by decide) (by decide)
  · left
    rw [show (str "2O" : List Char) = '2' :: str "O" from rfl] at h
    obtain ⟨hc, hq⟩ := List.cons.inj h
    subst hq
    intro p r x hp hmx
    obtain ⟨n2, rp2⟩ := x
    have hw := (wbM_facts (str "O2") (str "O$_2$") p r n2 rp2 hmx).2.2.2.2.2.1
    cases p with
    | nil => simp at hp
    | cons pc pp =>
      simp only [List.head?_cons, Option.some.injEq] at hp
      subst hp
      rw [hc] at hw
      rw [show headWord ('2' :: pp) = isWordChar '2' from rfl] at hw
      exact absurd hw (by decide)
  · rw [show (str "O" : List Char) = 'O' :: ([] : List Char) from rfl] at h
    obtain ⟨hc, hq⟩ := List.cons.inj h
    exact absurd hq hne
  · simp at h

lemma NoHit_mTilde1 (y : List Char)
    (h : containsSub (str "\\textasciitilde") y = false) : NoHit mTilde1 y := by
  intro l₁ c l₂ hy
  cases hm : mTilde1 l₁.reverse (c :: l₂) with
  | none => rfl
  | some x =>
    exfalso
    obtain ⟨n, rp⟩ := x
    obtain ⟨-, -, -, r', hr, -⟩ := mTilde1_facts _ _ _ _ hm
    have hcs : containsSub (str "\\textasciitilde") y = true := by
      rw [containsSub_iff]
      exact ⟨l₁, r', by rw [hy, hr]; simp⟩
    rw [h] at hcs
    simp at hcs

lemma NoHit_mTilde2 (y : List Char) (h : tdOk y = true) : NoHit mTilde2 y := by
  intro l₁ c l₂ hy
  cases hm : mTilde2 l₁.reverse (c :: l₂) with
  | none => rfl
  | some x =>
    exfalso
    obtain ⟨n, rp⟩ := x
    obtain ⟨-, -, d, rs', hr, hdig⟩ := mTilde2_facts _ _ _ _ hm
    obtain ⟨hc0, hl⟩ := List.cons.inj hr
    subst hc0
    subst hl
    have hd := tdOk_split l₁ d rs' (by rw [hy] at h; exact h)
    rw [hdig] at hd
    simp at hd

lemma NoHit_headChar (M : Rule) (c₀ : Char) (y : List Char)
    (hfail : ∀ p c rs, c ≠ c₀ → M p (c :: rs) = none)
    (h : ∀ c ∈ y, c ≠ c₀) : NoHit M y := by
  intro l₁ c l₂ hy
  exact hfail _ c l₂ (h c (by rw [hy]; simp))

lemma NoHit_wb (pat rwp : List Char) (hpne : pat ≠ []) (y : List Char)
    (h : wbOkB pat false y = true) : NoHit (wbM pat rwp) y := by
  intro l₁ c l₂ hy
  cases hm : wbM pat rwp l₁.reverse (c :: l₂) with
  | none => rfl
  | some x =>
    exfalso
    obtain ⟨n, rp⟩ := x
    obtain ⟨-, hn, -, -, ⟨r', hr⟩, hwp, hwa⟩ := wbM_facts pat rwp _ _ _ _ hm
    have hsplit := wbOkB_split pat hpne l₁ false r' (by rw [hy, hr] at h; exact h)
    rcases hsplit with hs | hs
    · rw [lastW_eq_rev, headP_eq_headWord] at hs
      rw [hwp] at hs
      simp at hs
    · have hdr : (c :: l₂).drop pat.length = r' := by rw [hr, List.drop_left]
      rw [hdr, ← headP_eq_headWord] at hwa
      rw [hwa] at hs
      simp at hs

lemma NoHit_mQuote (y : List Char) (h : y.count '\x22' ≤ 1) : NoHit mQuote y := by
  intro l₁ c l₂ hy
  cases hm : mQuote l₁.reverse (c :: l₂) with
  | none => rfl
  | some x =>
    exfalso
    obtain ⟨n, rp⟩ := x
    obtain ⟨-, -, -, rs, j, hr, hcl, -⟩ := mQuote_facts _ _ _ _ hm
    obtain ⟨hc0, hl⟩ := List.cons.inj hr
    subst hc0
    subst hl
    have hmem := (closeIdx_some_facts _ _ _ hcl).1
    rw [hy, List.count_append] at h
    have h2 : 0 < l₂.count '\x22' := by
      rw [List.count_pos_iff]
      exact hmem
    have h3 : (('\x22' : Char) :: l₂).count '\x22' = l₂.count '\x22' + 1 := by
      simp [List.count_cons]
    omega

lemma NoHit_mPct (y : List Char) (h : pctOk false y = true) : NoHit mPct y := by
  intro l₁ c l₂ hy
  cases hm : mPct l₁.reverse (c :: l₂) with
  | none => rfl
  | some x =>
    exfalso
    obtain ⟨n, rp⟩ := x
    obtain ⟨-, -, ⟨rs, hr⟩, hp⟩ := mPct_facts _ _ _ _ hm
    obtain ⟨hc0, hl⟩ := List.cons.inj hr
    subst hc0
    subst hl
    have hs := pctOk_split l₁ false l₂ (by rw [hy] at h; exact h)
    rw [lastIs_eq_rev] at hs
    exact hp hs

lemma NoHit_mAmp (y : List Char) (h : ampOk false y = true) : NoHit mAmp y := by
  intro l₁ c l₂ hy
  cases hm : mAmp l₁.reverse (c :: l₂) with
  | none => rfl
  | some x =>
    exfalso
    obtain ⟨n, rp⟩ := x
    obtain ⟨-, -, rs, hr, hp1, hp2⟩ := mAmp_facts _ _ _ _ hm
    obtain ⟨hc0, hl⟩ := List.cons.inj hr
    subst hc0
    subst hl
    have hs := ampOk_split l₁ false l₂ (by rw [hy] at h; exact h)
    rcases hs with hs | hs
    · rw [lastIs_eq_rev] at hs
      exact hp1 hs
    · exact hp2 hs

lemma PctEsc_of_pctOk (y : List Char) (h : pctOk false y = true) : PctEsc y := by
  intro l₁ l₂ hy
  have hs := pctOk_split l₁ false l₂ (by rw [← hy]; exact h)
  rw [lastIs_eq_rev] at hs
  rwa [List.head?_reverse] at hs

lemma AmpOk_of_ampOk (y : List Char) (h : ampOk false y = true) : AmpOk y := by
  intro l₁ l₂ hy
  have hs := ampOk_split l₁ false l₂ (by rw [← hy]; exact h)
  rcases hs with hs | hs
  · left
    rw [lastIs_eq_rev] at hs
    rwa [List.head?_reverse] at hs
  · right
    exact hs

lemma wb_pres_mCH4 (L : List Char) (hLne : L ≠ []) (hLw : headP isWordChar L = true)
    (hxy : xyOk L (str "CH$_4$") = true) (hpref : prefOk L (str "CH$_4$") = true)
    (l : List Char) (h : wbOkB L false l = true) :
    wbOkB L false (genSub mCH4 l) = true :=
  genSub_wb_pres' mCH4 L (str "CH$_4$") hLne hLw (by decide)
    (wbM_rep _ _) (wbM_span _ _) (wbM_headPf isWordChar _ _ (by decide) (by decide))
    hxy (prefOk_prop _ _ _ hpref) (wbM_after _ _) l h

lemma wb_pres_mH2O (L : List Char) (hLne : L ≠ []) (hLw : headP isWordChar L = true)
    (hxy : xyOk L (str "H$_2$O") = true) (hpref : prefOk L (str "H$_2$O") = true)
    (l : List Char) (h : wbOkB L false l = true) :
    wbOkB L false (genSub mH2O l) = true :=
  genSub_wb_pres' mH2O L (str "H$_2$O") hLne hLw (by decide)
    (wbM_rep _ _) (wbM_span _ _) (wbM_headPf isWordChar _ _ (by decide) (by decide))
    hxy (prefOk_prop _ _ _ hpref) (wbM_after _ _) l h

lemma wb_pres_mO2 (L : List Char) (hLne : L ≠ []) (hLw : headP isWordChar L = true)
    (hxy : xyOk L (str "O$_2$") = true) (hpref : prefOk L (str "O$_2$") = true)
    (l : List Char) (h : wbOkB L false l = true) :
    wbOkB L false (genSub mO2 l) = true :=
  genSub_wb_pres' mO2 L (str "O$_2$") hLne hLw (by decide)
    (wbM_rep _ _) (wbM_span _ _) (wbM_headPf isWordChar _ _ (by decide) (by decide))
    hxy (prefOk_prop _ _ _ hpref) (wbM_after _ _) l h

lemma wb_pres_mO2_h2o (l : List Char) (h : wbOkB (str "H2O") false l = true) :
    wbOkB (str "H2O") false (genSub mO2 l) = true :=
  genSub_wb_pres' mO2 (str "H2O") (str "O$_2$") (by decide) (by decide) (by decide)
    (wbM_rep _ _) (wbM_span _ _) (wbM_headPf isWordChar _ _ (by decide) (by decide))
    (by decide) pref_h2o_o2 (wbM_after _ _) l h

lemma wb_pres_mTimes (L : List Char) (hLne : L ≠ []) (hLw : headP isWordChar L = true)
    (hxy : xyOk L (str "$\\times$") = true) (hpref : prefOk L (str "$\\times$") = true)
    (l : List Char) (h : wbOkB L false l = true) :
    wbOkB L false (genSub mTimes l) = true :=
  genSub_wb_pres' mTimes L (str "$\\times$") hLne hLw (by decide)
    (litM_rep _ _) (litM_span _ _) (litM_headPf isWordChar _ _ (by decide) (by decide))
    hxy (prefOk_prop _ _ _ hpref) (litM_after _ _ (by decide)) l h

lemma wb_pres_mQuote (L : List Char) (hLne : L ≠ []) (hLw : headP isWordChar L = true)
    (hxy : xyOk L (str "\x60\x60\\1\x27\x27") = true)
    (hpref : prefOk L (str "\x60\x60\\1\x27\x27") = true)
    (l : List Char) (h : wbOkB L false l = true) :
    wbOkB L false (genSub mQuote l) = true :=
  genSub_wb_pres' mQuote L (str "\x60\x60\\1\x27\x27") hLne hLw (by decide)
    mQuote_rep mQuote_span (mQuote_headPf isWordChar (by decide))
    hxy (prefOk_prop _ _ _ hpref) mQuote_after l h

lemma wb_pres_mEmdash (L : List Char) (hLne : L ≠ []) (hLw : headP isWordChar L = true)
    (hxy : xyOk L ['-', '-', '-'] = true) (hpref : prefOk L ['-', '-', '-'] = true)
    (l : List Char) (h : wbOkB L false l = true) :
    wbOkB L false (genSub mEmdash l) = true :=
  genSub_wb_pres' mEmdash L ['-', '-', '-'] hLne hLw (by decide)
    (litM_rep _ _) (litM_span _ _) (litM_headPf isWordChar _ _ (by decide) (by decide))
    hxy (prefOk_prop _ _ _ hpref) (litM_after _ _ (by decide)) l h

lemma wb_pres_mEndash (L : List Char) (hLne : L ≠ []) (hLw : headP isWordChar L = true)
    (hxy : xyOk L ['-', '-'] = true) (hpref : prefOk L ['-', '-'] = true)
    (l : List Char) (h : wbOkB L false l = true) :
    wbOkB L false (genSub mEndash l) = true :=
  genSub_wb_pres' mEndash L ['-', '-'] hLne hLw (by decide)
    (litM_rep _ _) (litM_span _ _) (litM_headPf isWordChar _ _ (by decide) (by decide))
    hxy (prefOk_prop _ _ _ hpref) (litM_after _ _ (by decide)) l h

lemma wb_pres_mPct (L : List Char) (hLne : L ≠ []) (hLw : headP isWordChar L = true)
    (hxy : xyOk L (str "\\%") = true) (hpref : prefOk L (str "\\%") = true)
    (l : List Char) (h : wbOkB L false l = true) :
    wbOkB L false (genSub mPct l) = true :=
  genSub_wb_pres' mPct L (str "\\%") hLne hLw (by decide)
    mPct_rep mPct_span (mPct_headPf isWordChar (by decide))
    hxy (prefOk_prop _ _ _ hpref) mPct_after l h

lemma wb_pres_mAmp (L : List Char) (hLne : L ≠ []) (hLw : headP isWordChar L = true)
    (hxy : xyOk L (str "\\&") = true) (hpref : prefOk L (str "\\&") = true)
    (l : List Char) (h : wbOkB L false l = true) :
    wbOkB L false (genSub mAmp l) = true :=
  genSub_wb_pres' mAmp L (str "\\&") hLne hLw (by decide)
    mAmp_rep mAmp_span (mAmp_headPf isWordChar (by decide))
    hxy (prefOk_prop _ _ _ hpref) mAmp_after l h

lemma fsc_unfold (x : List Char) :
    fix_special_characters x =
      genSub mAmp (genSub mPct (genSub mEndash (genSub mEmdash (genSub mQuote
        (genSub mTimes (genSub mO2 (genSub mH2O (genSub mCH4 (genSub mCO2
          (genSub mDegree (genSub mTilde2 (genSub mTilde1 x)))))))))))) := rfl

/-- All thirteen no-rematch invariants hold of the normalizer's output. -/
lemma fsc_invariants (x : List Char) :
    containsSub (str "\\textasciitilde") (fix_special_characters x) = false ∧
    tdOk (fix_special_characters x) = true ∧
    (∀ c ∈ fix_special_characters x, c ≠ '°') ∧
    wbOkB (str "CO2") false (fix_special_characters x) = true ∧
    wbOkB (str "CH4") false (fix_special_characters x) = true ∧
    wbOkB (str "H2O") false (fix_special_characters x) = true ∧
    wbOkB (str "O2") false (fix_special_characters x) = true ∧
    (∀ c ∈ fix_special_characters x, c ≠ '×') ∧
    (fix_special_characters x).count '\x22' ≤ 1 ∧
    (∀ c ∈ fix_special_characters x, c ≠ '—') ∧
    (∀ c ∈ fix_special_characters x, c ≠ '–') ∧
    pctOk false (fix_special_characters x) = true ∧
    ampOk false (fix_special_characters x) = true := by
  rw [fsc_unfold]
  set t1 := genSub mTilde1 x with ht1
  set t2 := genSub mTilde2 t1 with ht2
  set t3 := genSub mDegree t2 with ht3
  set t4 := genSub mCO2 t3 with ht4
  set t5 := genSub mCH4 t4 with ht5
  set t6 := genSub mH2O t5 with ht6
  set t7 := genSub mO2 t6 with ht7
  set t8 := genSub mTimes t7 with ht8
  set t9 := genSub mQuote t8 with ht9
  set t10 := genSub mEmdash t9 with ht10
  set t11 := genSub mEndash t10 with ht11
  set t12 := genSub mPct t11 with ht12
  set t13 := genSub mAmp t12 with ht13
  have A1 : containsSub (str "\\textasciitilde") t1 = false := by
    rw [ht1]
    exact genSub_kill mTilde1 _ (str "$\\sim$") (by decide) mTilde1_rep
      (xyOk_block _ _ (by decide)) (prefOk_prop _ _ _ (by decide)) mTilde1_hit x
  have A2 : containsSub (str "\\textasciitilde") t2 = false := by
    rw [ht2]
    exact genSub_contains_pres mTilde2 _ (str "$\\sim$") (by decide) mTilde2_rep_of
      (by decide) (by decide) t1 A1
  have A3 : containsSub (str "\\textasciitilde") t3 = false := by
    rw [ht3]
    exact genSub_contains_pres mDegree _ (str "\\textdegree\x7b\x7d") (by decide)
      (litM_rep _ _) (by decide) (by decide) t2 A2
  have A4 : containsSub (str "\\textasciitilde") t4 = false := by
    rw [ht4]
    exact genSub_contains_pres mCO2 _ (str "CO$_2$") (by decide)
      (wbM_rep _ _) (by decide) (by decide) t3 A3
  have A5 : containsSub (str "\\textasciitilde") t5 = false := by
    rw [ht5]
    exact genSub_contains_pres mCH4 _ (str "CH$_4$") (by decide)
      (wbM_rep _ _) (by decide) (by decide) t4 A4
  have A6 : containsSub (str "\\textasciitilde") t6 = false := by
    rw [ht6]
    exact genSub_contains_pres mH2O _ (str "H$_2$O") (by decide)
      (wbM_rep _ _) (by decide) (by decide) t5 A5
  have A7 : containsSub (str "\\textasciitilde") t7 = false := by
    rw [ht7]
    exact genSub_contains_pres mO2 _ (str "O$_2$") (by decide)
      (wbM_rep _ _) (by decide) (by decide) t6 A6
  have A8 : containsSub (str "\\textasciitilde") t8 = false := by
    rw [ht8]
    exact genSub_contains_pres mTimes _ (str "$\\times$") (by decide)
      (litM_rep _ _) (by decide) (by decide) t7 A7
  have A9 : containsSub (str "\\textasciitilde") t9 = false := by
    rw [ht9]
    exact genSub_contains_pres mQuote _ (str "\x60\x60\\1\x27\x27") (by decide)
      mQuote_rep (by decide) (by decide) t8 A8
  have A10 : containsSub (str "\\textasciitilde") t10 = false := by
    rw [ht10]
    exact genSub_contains_pres mEmdash _ ['-', '-', '-'] (by decide)
      (litM_rep _ _) (by decide) (by decide) t9 A9
  have A11 : containsSub (str "\\textasciitilde") t11 = false := by
    rw [ht11]
    exact genSub_contains_pres mEndash _ ['-', '-'] (by decide)
      (litM_rep _ _) (by decide) (by decide) t10 A10
  have A12 : containsSub (str "\\textasciitilde") t12 = false := by
    rw [ht12]
    exact genSub_contains_pres mPct _ (str "\\%") (by decide)
      mPct_rep (by decide) (by decide) t11 A11
  have A13 : containsSub (str "\\textasciitilde") t13 = false := by
    rw [ht13]
    exact genSub_contains_pres mAmp _ (str "\\&") (by decide)
      mAmp_rep (by decide) (by decide) t12 A12
  have B2 : tdOk t2 = true := by
    rw [ht2]
    exact genSub_tdOk_est' t1
  have B3 : tdOk t3 = true := by
    rw [ht3]
    exact genSub_tdOk_pres' mDegree (str "\\textdegree\x7b\x7d") (by decide)
      (litM_rep _ _) (by decide) (litM_headPf isDigitChar _ _ (by decide) (by decide)) t2 B2
  have B4 : tdOk t4 = true := by
    rw [ht4]
    exact genSub_tdOk_pres' mCO2 (str "CO$_2$") (by decide)
      (wbM_rep _ _) (by decide) (wbM_headPf isDigitChar _ _ (by decide) (by decide)) t3 B3
  have B5 : tdOk t5 = true := by
    rw [ht5]
    exact genSub_tdOk_pres' mCH4 (str "CH$_4$") (by decide)
      (wbM_rep _ _) (by decide) (wbM_headPf isDigitChar _ _ (by decide) (by decide)) t4 B4
  have B6 : tdOk t6 = true := by
    rw [ht6]
    exact genSub_tdOk_pres' mH2O (str "H$_2$O") (by decide)
      (wbM_rep _ _) (by decide) (wbM_headPf isDigitChar _ _ (by decide) (by decide)) t5 B5
  have B7 : tdOk t7 = true := by
    rw [ht7]
    exact genSub_tdOk_pres' mO2 (str "O$_2$") (by decide)
      (wbM_rep _ _) (by decide) (wbM_headPf isDigitChar _ _ (by decide) (by decide)) t6 B6
  have B8 : tdOk t8 = true := by
    rw [ht8]
    exact genSub_tdOk_pres' mTimes (str "$\\times$") (by decide)
      (litM_rep _ _) (by decide) (litM_headPf isDigitChar _ _ (by decide) (by decide)) t7 B7
  have B9 : tdOk t9 = true := by
    rw [ht9]
    exact genSub_tdOk_pres' mQuote (str "\x60\x60\\1\x27\x27") (by decide)
      mQuote_rep (by decide) (mQuote_headPf isDigitChar (by decide)) t8 B8
  have B10 : tdOk t10 = true := by
    rw [ht10]
    exact genSub_tdOk_pres' mEmdash ['-', '-', '-'] (by decide)
      (litM_rep _ _) (by decide) (litM_headPf isDigitChar _ _ (by decide) (by decide)) t9 B9
  have B11 : tdOk t11 = true := by
    rw [ht11]
    exact genSub_tdOk_pres' mEndash ['-', '-'] (by decide)
      (litM_rep _ _) (by decide) (litM_headPf isDigitChar _ _ (by decide) (by decide)) t10 B10
  have B12 : tdOk t12 = true := by
    rw [ht12]
    exact genSub_tdOk_pres' mPct (str "\\%") (by decide)
      mPct_rep (by decide) (mPct_headPf isDigitChar (by decide)) t11 B11
  have B13 : tdOk t13 = true := by
    rw [ht13]
    exact genSub_tdOk_pres' mAmp (str "\\&") (by decide)
      mAmp_rep (by decide) (mAmp_headPf isDigitChar (by decide)) t12 B12
  have Cd3 : ∀ c ∈ t3, c ≠ '°' := by
    rw [ht3]
    exact genSub_char_kill mDegree (str "\\textdegree\x7b\x7d") '°' (litM_rep _ _)
      (by decide)
      (fun p c rs hm he => by subst he; rw [mDegree_at p rs] at hm; simp at hm) t2
  have Cd4 : ∀ c ∈ t4, c ≠ '°' := by
    rw [ht4]
    exact genSub_char_pres mCO2 (str "CO$_2$") '°' (wbM_rep _ _) (by decide) t3 Cd3
  have Cd5 : ∀ c ∈ t5, c ≠ '°' := by
    rw [ht5]
    exact genSub_char_pres mCH4 (str "CH$_4$") '°' (wbM_rep _ _) (by decide) t4 Cd4
  have Cd6 : ∀ c ∈ t6, c ≠ '°' := by
    rw [ht6]
    exact genSub_char_pres mH2O (str "H$_2$O") '°' (wbM_rep _ _) (by decide) t5 Cd5
  have Cd7 : ∀ c ∈ t7, c ≠ '°' := by
    rw [ht7]
    exact genSub_char_pres mO2 (str "O$_2$") '°' (wbM_rep _ _) (by decide) t6 Cd6
  have Cd8 : ∀ c ∈ t8, c ≠ '°' := by
    rw [ht8]
    exact genSub_char_pres mTimes (str "$\\times$") '°' (litM_rep _ _) (by decide) t7 Cd7
  have Cd9 : ∀ c ∈ t9, c ≠ '°' := by
    rw [ht9]
    exact genSub_char_pres mQuote (str "\x60\x60\\1\x27\x27") '°' mQuote_rep (by decide) t8 Cd8
  have Cd10 : ∀ c ∈ t10, c ≠ '°' := by
    rw [ht10]
    exact genSub_char_pres mEmdash ['-', '-', '-'] '°' (litM_rep _ _) (by decide) t9 Cd9
  have Cd11 : ∀ c ∈ t11, c ≠ '°' := by
    rw [ht11]
    exact genSub_char_pres mEndash ['-', '-'] '°' (litM_rep _ _) (by decide) t10 Cd10
  have Cd12 : ∀ c ∈ t12, c ≠ '°' := by
    rw [ht12]
    exact genSub_char_pres mPct (str "\\%") '°' mPct_rep (by decide) t11 Cd11
  have Cd13 : ∀ c ∈ t13, c ≠ '°' := by
    rw [ht13]
    exact genSub_char_pres mAmp (str "\\&") '°' mAmp_rep (by decide) t12 Cd12
  have DA4 : wbOkB (str "CO2") false t4 = true := by
    rw [ht4]
    exact genSub_wb_est' (str "CO2") (str "CO$_2$") (by decide) (by decide) (by decide)
      (by decide) (by decide) (prefOk_prop _ _ _ (by decide)) t3
  have DA5 : wbOkB (str "CO2") false t5 = true := by
    rw [ht5]
    exact wb_pres_mCH4 _ (by decide) (by decide) (by decide) (by decide) t4 DA4
  have DA6 : wbOkB (str "CO2") false t6 = true := by
    rw [ht6]
    exact wb_pres_mH2O _ (by decide) (by decide) (by decide) (by decide) t5 DA5
  have DA7 : wbOkB (str "CO2") false t7 = true := by
    rw [ht7]
    exact wb_pres_mO2 _ (by decide) (by decide) (by decide) (by decide) t6 DA6
  have DA8 : wbOkB (str "CO2") false t8 = true := by
    rw [ht8]
    exact wb_pres_mTimes _ (by decide) (by decide) (by decide) (by decide) t7 DA7
  have DA9 : wbOkB (str "CO2") false t9 = true := by
    rw [ht9]
    exact wb_pres_mQuote _ (by decide) (by decide) (by decide) (by decide) t8 DA8
  have DA10 : wbOkB (str "CO2") false t10 = true := by
    rw [ht10]
    exact wb_pres_mEmdash _ (by decide) (by decide) (by decide) (by decide) t9 DA9
  have DA11 : wbOkB (str "CO2") false t11 = true := by
    rw [ht11]
    exact wb_pres_mEndash _ (by decide) (by decide) (by decide) (by decide) t10 DA10
  have DA12 : wbOkB (str "CO2") false t12 = true := by
    rw [ht12]
    exact wb_pres_mPct _ (by decide) (by decide) (by decide) (by decide) t11 DA11
  have DA13 : wbOkB (str "CO2") false t13 = true := by
    rw [ht13]
    exact wb_pres_mAmp _ (by decide) (by decide) (by decide) (by decide) t12 DA12
  have DB5 : wbOkB (str "CH4") false t5 = true := by
    rw [ht5]
    exact genSub_wb_est' (str "CH4") (str "CH$_4$") (by decide) (by decide) (by decide)
      (by decide) (by decide) (prefOk_prop _ _ _ (by decide)) t4
  have DB6 : wbOkB (str "CH4") false t6 = true := by
    rw [ht6]
    exact wb_pres_mH2O _ (by decide) (by decide) (by decide) (by decide) t5 DB5
  have DB7 : wbOkB (str "CH4") false t7 = true := by
    rw [ht7]
    exact wb_pres_mO2 _ (by decide) (by decide) (by decide) (by decide) t6 DB6
  have DB8 : wbOkB (str "CH4") false t8 = true := by
    rw [ht8]
    exact wb_pres_mTimes _ (by decide) (by decide) (by decide) (by decide) t7 DB7
  have DB9 : wbOkB (str "CH4") false t9 = true := by
    rw [ht9]
    exact wb_pres_mQuote _ (by decide) (by decide) (by decide) (by decide) t8 DB8
  have DB10 : wbOkB (str "CH4") false t10 = true := by
    rw [ht10]
    exact wb_pres_mEmdash _ (by decide) (by decide) (by decide) (by decide) t9 DB9
  have DB11 : wbOkB (str "CH4") false t11 = true := by
    rw [ht11]
    exact wb_pres_mEndash _ (by decide) (by decide) (by decide) (by decide) t10 DB10
  have DB12 : wbOkB (str "CH4") false t12 = true := by
    rw [ht12]
    exact wb_pres_mPct _ (by decide) (by decide) (by decide) (by decide) t11 DB11
  have DB13 : wbOkB (str "CH4") false t13 = true := by
    rw [ht13]
    exact wb_pres_mAmp _ (by decide) (by decide) (by decide) (by decide) t12 DB12
  have DC6 : wbOkB (str "H2O") false t6 = true := by
    rw [ht6]
    exact genSub_wb_est' (str "H2O") (str "H$_2$O") (by decide) (by decide) (by decide)
      (by decide) (by decide) (prefOk_prop _ _ _ (by decide)) t5
  have DC7 : wbOkB (str "H2O") false t7 = true := by
    rw [ht7]
    exact wb_pres_mO2_h2o t6 DC6
  have DC8 : wbOkB (str "H2O") false t8 = true := by
    rw [ht8]
    exact wb_pres_mTimes _ (by decide) (by decide) (by decide) (by decide) t7 DC7
  have DC9 : wbOkB (str "H2O") false t9 = true := by
    rw [ht9]
    exact wb_pres_mQuote _ (by decide) (by decide) (by decide) (by decide) t8 DC8
  have DC10 : wbOkB (str "H2O") false t10 = true := by
    rw [ht10]
    exact wb_pres_mEmdash _ (by decide) (by decide) (by decide) (by decide) t9 DC9
  have DC11 : wbOkB (str "H2O") false t11 = true := by
    rw [ht11]
    exact wb_pres_mEndash _ (by decide) (by decide) (by decide) (by decide) t10 DC10
  have DC12 : wbOkB (str "H2O") false t12 = true := by
    rw [ht12]
    exact wb_pres_mPct _ (by decide) (by decide) (by decide) (by decide) t11 DC11
  have DC13 : wbOkB (str "H2O") false t13 = true := by
    rw [ht13]
    exact wb_pres_mAmp _ (by decide) (by decide) (by decide) (by decide) t12 DC12
  have DD7 : wbOkB (str "O2") false t7 = true := by
    rw [ht7]
    exact genSub_wb_est' (str "O2") (str "O$_2$") (by decide) (by decide) (by decide)
      (by decide) (by decide) (prefOk_prop _ _ _ (by decide)) t6
  have DD8 : wbOkB (str "O2") false t8 = true := by
    rw [ht8]
    exact wb_pres_mTimes _ (by decide) (by decide) (by decide) (by decide) t7 DD7
  have DD9 : wbOkB (str "O2") false t9 = true := by
    rw [ht9]
    exact wb_pres_mQuote _ (by decide) (by decide) (by decide) (by decide) t8 DD8
  have DD10 : wbOkB (str "O2") false t10 = true := by
    rw [ht10]
    exact wb_pres_mEmdash _ (by decide) (by decide) (by decide) (by decide) t9 DD9
  have DD11 : wbOkB (str "O2") false t11 = true := by
    rw [ht11]
    exact wb_pres_mEndash _ (by decide) (by decide) (by decide) (by decide) t10 DD10
  have DD12 : wbOkB (str "O2") false t12 = true := by
    rw [ht12]
    exact wb_pres_mPct _ (by decide) (by decide) (by decide) (by decide) t11 DD11
  have DD13 : wbOkB (str "O2") false t13 = true := by
    rw [ht13]
    exact wb_pres_mAmp _ (by decide) (by decide) (by decide) (by decide) t12 DD12
  have Cx8 : ∀ c ∈ t8, c ≠ '×' := by
    rw [ht8]
    exact genSub_char_kill mTimes (str "$\\times$") '×' (litM_rep _ _) (by decide)
      (fun p c rs hm he => by subst he; rw [mTimes_at p rs] at hm; simp at hm) t7
  have Cx9 : ∀ c ∈ t9, c ≠ '×' := by
    rw [ht9]
    exact genSub_char_pres mQuote (str "\x60\x60\\1\x27\x27") '×' mQuote_rep (by decide) t8 Cx8
  have Cx10 : ∀ c ∈ t10, c ≠ '×' := by
    rw [ht10]
    exact genSub_char_pres mEmdash ['-', '-', '-'] '×' (litM_rep _ _) (by decide) t9 Cx9
  have Cx11 : ∀ c ∈ t11, c ≠ '×' := by
    rw [ht11]
    exact genSub_char_pres mEndash ['-', '-'] '×' (litM_rep _ _) (by decide) t10 Cx10
  have Cx12 : ∀ c ∈ t12, c ≠ '×' := by
    rw [ht12]
    exact genSub_char_pres mPct (str "\\%") '×' mPct_rep (by decide) t11 Cx11
  have Cx13 : ∀ c ∈ t13, c ≠ '×' := by
    rw [ht13]
    exact genSub_char_pres mAmp (str "\\&") '×' mAmp_rep (by decide) t12 Cx12
  have E9 : t9.count '\x22' ≤ 1 := by
    rw [ht9]
    exact genSub_quote_est' t8
  have E10 : t10.count '\x22' ≤ 1 := by
    rw [ht10]
    exact le_trans (genSub_count_le' mEmdash ['-', '-', '-'] '\x22' (litM_rep _ _)
      (by decide) t9) E9
  have E11 : t11.count '\x22' ≤ 1 := by
    rw [ht11]
    exact le_trans (genSub_count_le' mEndash ['-', '-'] '\x22' (litM_rep _ _)
      (by decide) t10) E10
  have E12 : t12.count '\x22' ≤ 1 := by
    rw [ht12]
    exact le_trans (genSub_count_le' mPct (str "\\%") '\x22' mPct_rep (by decide) t11) E11
  have E13 : t13.count '\x22' ≤ 1 := by
    rw [ht13]
    exact le_trans (genSub_count_le' mAmp (str "\\&") '\x22' mAmp_rep (by decide) t12) E12
  have Ce10 : ∀ c ∈ t10, c ≠ '—' := by
    rw [ht10]
    exact genSub_char_kill mEmdash ['-', '-', '-'] '—' (litM_rep _ _) (by decide)
      (fun p c rs hm he => by subst he; rw [mEmdash_at p rs] at hm; simp at hm) t9
  have Ce11 : ∀ c ∈ t11, c ≠ '—' := by
    rw [ht11]
    exact genSub_char_pres mEndash ['-', '-'] '—' (litM_rep _ _) (by decide) t10 Ce10
  have Ce12 : ∀ c ∈ t12, c ≠ '—' := by
    rw [ht12]
    exact genSub_char_pres mPct (str "\\%") '—' mPct_rep (by decide) t11 Ce11
  have Ce13 : ∀ c ∈ t13, c ≠ '—' := by
    rw [ht13]
    exact genSub_char_pres mAmp (str "\\&") '—' mAmp_rep (by decide) t12 Ce12
  have Cn11 : ∀ c ∈ t11, c ≠ '–' := by
    rw [ht11]
    exact genSub_char_kill mEndash ['-', '-'] '–' (litM_rep _ _) (by decide)
      (fun p c rs hm he => by subst he; rw [mEndash_at p rs] at hm; simp at hm) t10
  have Cn12 : ∀ c ∈ t12, c ≠ '–' := by
    rw [ht12]
    exact genSub_char_pres mPct (str "\\%") '–' mPct_rep (by decide) t11 Cn11
  have Cn13 : ∀ c ∈ t13, c ≠ '–' := by
    rw [ht13]
    exact genSub_char_pres mAmp (str "\\&") '–' mAmp_rep (by decide) t12 Cn12
  have F12 : pctOk false t12 = true := by
    rw [ht12]
    exact genSub_pctOk_est' t11
  have F13 : pctOk false t13 = true := by
    rw [ht13]
    exact genSub_pctOk_pres' t12 F12
  have G13 : ampOk false t13 = true := by
    rw [ht13]
    exact genSub_ampOk_est' t12
  exact ⟨A13, B13, Cd13, DA13, DB13, DC13, DD13, Cx13, E13, Ce13, Cn13, F13, G13⟩

/-- C4 (amended): the normalizer escapes every `%` — each `%` in its
output is preceded by a backslash — and escapes every `&` except one
immediately followed by a backslash (the lookahead `(?!\\)` deliberately
skips those, as on `a&%b → a&\%b`, where the backslash was just
introduced by percent escaping); and applying the normalizer twice to any
input yields the same result as applying it once. -/
theorem C4_amended_escape_idem (x : List Char) :
    PctEsc (fix_special_characters x) ∧ AmpOk (fix_special_characters x) ∧
    fix_special_characters (fix_special_characters x) = fix_special_characters x := by
  obtain ⟨A, B, Cd, DA, DB, DC, DD, Cx, E, Ce, Cn, F, G⟩ := fsc_invariants x
  refine ⟨PctEsc_of_pctOk _ F, AmpOk_of_ampOk _ G, ?_⟩
  have h1 : genSub mTilde1 (fix_special_characters x) = fix_special_characters x :=
    genSub_id _ _ (NoHit_mTilde1 _ A)
  have h2 : genSub mTilde2 (fix_special_characters x) = fix_special_characters x :=
    genSub_id _ _ (NoHit_mTilde2 _ B)
  have h3 : genSub mDegree (fix_special_characters x) = fix_special_characters x :=
    genSub_id _ _ (NoHit_headChar mDegree '°' _
      (fun p c rs hc => litM_headFail _ _ p c rs (by
        rw [show (str "°" : List Char) = ['°'] from rfl]
        simp [startsList, hc])) Cd)
  have h4 : genSub mCO2 (fix_special_characters x) = fix_special_characters x :=
    genSub_id _ _ (NoHit_wb (str "CO2") (str "CO$_2$") (by decide) _ DA)
  have h5 : genSub mCH4 (fix_special_characters x) = fix_special_characters x :=
    genSub_id _ _ (NoHit_wb (str "CH4") (str "CH$_4$") (by decide) _ DB)
  have h6 : genSub mH2O (fix_special_characters x) = fix_special_characters x :=
    genSub_id _ _ (NoHit_wb (str "H2O") (str "H$_2$O") (by decide) _ DC)
  have h7 : genSub mO2 (fix_special_characters x) = fix_special_characters x :=
    genSub_id _ _ (NoHit_wb (str "O2") (str "O$_2$") (by decide) _ DD)
  have h8 : genSub mTimes (fix_special_characters x) = fix_special_characters x :=
    genSub_id _ _ (NoHit_headChar mTimes '×' _
      (fun p c rs hc => litM_headFail _ _ p c rs (by
        rw [show (str "×" : List Char) = ['×'] from rfl]
        simp [startsList, hc])) Cx)
  have h9 : genSub mQuote (fix_special_characters x) = fix_special_characters x :=
    genSub_id _ _ (NoHit_mQuote _ E)
  have h10 : genSub mEmdash (fix_special_characters x) = fix_special_characters x :=
    genSub_id _ _ (NoHit_headChar mEmdash '—' _
      (fun p c rs hc => litM_headFail _ _ p c rs (by
        rw [show (str "—" : List Char) = ['—'] from rfl]
        simp [startsList, hc])) Ce)
  have h11 : genSub mEndash (fix_special_characters x) = fix_special_characters x :=
    genSub_id _ _ (NoHit_headChar mEndash '–' _
      (fun p c rs hc => litM_headFail _ _ p c rs (by
        rw [show (str "–" : List Char) = ['–'] from rfl]
        simp [startsList, hc])) Cn)
  have h12 : genSub mPct (fix_special_characters x) = fix_special_characters x :=
    genSub_id _ _ (NoHit_mPct _ F)
  have h13 : genSub mAmp (fix_special_characters x) = fix_special_characters x :=
    genSub_id _ _ (NoHit_mAmp _ G)
  conv_lhs => rw [fsc_unfold (fix_special_characters x)]
  rw [h1, h2, h3, h4, h5, h6, h7, h8, h9, h10, h11, h12, h13]

end WTL
